import Mathlib

/-!
# TechShop cart: a shallow embedding of `public/script.js`

The development embeds the cart logic of `public/script.js` (catalog, `addToCart`,
`removeFromCart`, `updateQuantity`, `updateCart*`, `clearCart`, `checkout`,
`saveCartToStorage`, `loadCartFromStorage`) as pure functions on an explicit `State`
and proves properties of them.

Modelling conventions.

* The global `cart`, the value stored under the key `"cart"` of `localStorage`, the
  DOM nodes the script writes to, the toasts it shows and the dialogs it opens are the
  fields of `State`.  `confirm` and `alert` block until the user answers: the answer is
  an argument of the operation.
* The script is embedded twice.  In the namespace `TechShop` the JavaScript numbers that
  hold integers (product ids, quantities) are mathematical integers (`Int`): this is what
  the script computes as long as every quantity and every count stays inside the
  safe-integer range, where `+` on binary64 integers is exact.  The results on the shape
  of the cart (which line items, which order, what is removed, what is written and when
  nothing changes) are proved there.  In the namespace `TechShop.B64` a quantity is a
  JavaScript number (`JsNum`): a binary64 integer, an infinity, `NaN`, or the `null` a
  reload finds where a quantity that is not finite was saved; `+` is the exact sum rounded
  to nearest, ties to even, with overflow to `Infinity`.  The results that depend on the
  value of a quantity (the item count, the increment by one, `q + delta`, the stored text)
  are proved there.
* Prices are money amounts with at most two decimals, as every catalog price is; a price
  is stored as its number of cents (`7999` for `79.99`).  Where the script computes with
  a price (`updateCartSummary`, `checkout`) the price is the binary64 number nearest to
  the decimal amount and every `*` and `+` is the exact result rounded to nearest, ties
  to even (`Double`, with `Double.value` the rational number denoted; `B64.XDouble` adds
  the infinities and `NaN`).
* JavaScript strings are well-formed Unicode strings (`String`).
* `JSON.stringify` is modelled on carts by the text ECMA-262 prescribes for an array of
  objects with the keys `id, name, price, icon, quantity`.  In `TechShop` the numbers are
  printed with all their digits and `JSON.parse` is the reader of that compact form; in
  `TechShop.B64` numbers are printed as `Number::toString` does (exponent notation from
  `10^21` on, `null` for a quantity that is not finite) and what `JSON.parse` returns on
  a text that is not the `JSON.stringify` of a cart is a parameter (`other`).
-/

namespace TechShop

/-! ## Binary64 arithmetic -/

/-- Finite binary64 number `m * 2 ^ e`. -/
structure Double where
  m : Int
  e : Int
deriving Repr, DecidableEq

/-- Auxiliary loop of `log2`, by halving. -/
def log2Aux : Nat → Nat → Nat
  | 0, _ => 0
  | fuel + 1, n => if n < 2 then 0 else log2Aux fuel (n / 2) + 1

/-- Position of the leading bit of `n` (`0` for `n = 0`). -/
def log2 (n : Nat) : Nat := log2Aux n n

/-- Test `2 ^ k ≤ n / d` for an integer exponent `k`. -/
def geTwoPow (n d : Nat) (k : Int) : Bool :=
  if 0 ≤ k then decide (d * 2 ^ k.toNat ≤ n) else decide (d ≤ n * 2 ^ (-k).toNat)

/-- Binary exponent of the positive rational `n / d`: the `k` with `2 ^ k ≤ n / d < 2 ^ (k + 1)`. -/
def floorLog2 (n d : Nat) : Int :=
  let k : Int := (log2 n : Int) - (log2 d : Int)
  if geTwoPow n d k then k else k - 1

/-- Integer nearest to `n / d`, ties to the even one. -/
def roundHalfEven (n d : Nat) : Nat :=
  let f := n / d
  let r := n % d
  if 2 * r < d then f else if d < 2 * r then f + 1 else if f % 2 = 0 then f else f + 1

/-- Binary64 number nearest to the rational `± n / d` (53-bit significand, ties to even). -/
def roundRat (neg : Bool) (n d : Nat) : Double :=
  if n = 0 then ⟨0, 0⟩ else
  let s : Int := floorLog2 n d - 52
  let mag : Nat :=
    if 0 ≤ s then roundHalfEven n (d * 2 ^ s.toNat) else roundHalfEven (n * 2 ^ (-s).toNat) d
  ⟨if neg then -(mag : Int) else (mag : Int), s⟩

/-- Binary64 number nearest to the dyadic number `m * 2 ^ e`. -/
def roundDyadic (m e : Int) : Double :=
  if 0 ≤ e then roundRat (decide (m < 0)) (m.natAbs * 2 ^ e.toNat) 1
  else roundRat (decide (m < 0)) m.natAbs (2 ^ (-e).toNat)

/-- JavaScript `a * b` on numbers: the exact product, rounded. -/
def Double.mul (a b : Double) : Double := roundDyadic (a.m * b.m) (a.e + b.e)

/-- JavaScript `a + b` on numbers: the exact sum, rounded. -/
def Double.add (a b : Double) : Double :=
  let e := min a.e b.e
  roundDyadic (a.m * 2 ^ (a.e - e).toNat + b.m * 2 ^ (b.e - e).toNat) e

/-- Number holding the integer `q`. -/
def Double.ofInt (q : Int) : Double := roundDyadic q 0

/-- Number denoted by the decimal amount of `c` cents (the literal `79.99` is `ofCents 7999`). -/
def Double.ofCents (c : Nat) : Double := roundRat false c 100

/-- Number denoted by the literal `0.1`. -/
def Double.tenth : Double := roundRat false 1 10

/-- Two representations denote the same real number. -/
def Double.sameValue (a b : Double) : Bool :=
  let e := min a.e b.e
  decide (a.m * 2 ^ (a.e - e).toNat = b.m * 2 ^ (b.e - e).toNat)

/-- Integer part of the absolute value. -/
def Double.floorAbs (x : Double) : Nat :=
  if 0 ≤ x.e then x.m.natAbs * 2 ^ x.e.toNat else x.m.natAbs / 2 ^ (-x.e).toNat

/-- Integer `n` for which `n / 100` is nearest to the exact absolute value of `x`, the
larger one on a tie (`Number.prototype.toFixed`, step "let n be an integer for which
n / 10^f - x is as close to zero as possible"). -/
def Double.hundredths (x : Double) : Nat :=
  if 0 ≤ x.e then 100 * x.m.natAbs * 2 ^ x.e.toNat
  else (200 * x.m.natAbs + 2 ^ (-x.e).toNat) / 2 ^ ((-x.e).toNat + 1)

/-! ## Decimal digits -/

/-- Character of the decimal digit `d`. -/
def digitChar (d : Nat) : Char := Char.ofNat (48 + d)

/-- Auxiliary loop of `natDigits`: digits are produced from the last one. -/
def natDigitsAux : Nat → Nat → List Char → List Char
  | 0, _, acc => acc
  | fuel + 1, n, acc =>
    if n < 10 then digitChar n :: acc else natDigitsAux fuel (n / 10) (digitChar (n % 10) :: acc)

/-- Decimal digits of a natural number, without leading zeros (`0` is `"0"`). -/
def natDigits (n : Nat) : List Char := natDigitsAux (n + 1) n []

/-- Decimal text of an integer, as `Number::toString` prints it. -/
def intChars (i : Int) : List Char :=
  if i < 0 then '-' :: natDigits i.natAbs else natDigits i.natAbs

/-- Search of `Number::toString` for the shortest digit string `s` (of `k` digits, scaled
by `10 ^ (n - k)`) that denotes `x`; of two such strings the one nearer to `x`. -/
def shortestDigits (x : Double) (X n : Nat) : Nat → Nat → Nat × Nat
  | 0, k => (X, k)
  | fuel + 1, k =>
    let p := 10 ^ (n - k)
    let lo := X / p
    let hi := lo + 1
    let okLo := (roundRat false (lo * p) 1).sameValue x
    let okHi := (roundRat false (hi * p) 1).sameValue x
    if okLo && okHi then
      (if X - lo * p < hi * p - X then lo
       else if hi * p - X < X - lo * p then hi
       else if lo % 2 = 0 then lo else hi, k)
    else if okLo then (lo, k)
    else if okHi then (hi, k)
    else shortestDigits x X n fuel (k + 1)

/-- Text of `Number::toString` for a number `x ≥ 10 ^ 21`: exponential form. -/
def largeToString (x : Double) : List Char :=
  let X := x.floorAbs
  let n := (natDigits X).length
  let (s, k) := shortestDigits x X n 17 1
  let carry := decide (s = 10 ^ k)
  let ds := if carry then [digitChar 1] else natDigits s
  let ex := if carry then n else n - 1
  (match ds with
   | [] => []
   | [d] => [d]
   | d :: rest => d :: '.' :: rest) ++ ['e', '+'] ++ natDigits ex

/-- Text of `x.toFixed(2)`. -/
def Double.toFixed2 (x : Double) : String :=
  let sign := if x.m < 0 then ['-'] else []
  if 10 ^ 21 ≤ x.floorAbs then String.mk (sign ++ largeToString ⟨x.m.natAbs, x.e⟩)
  else
    let n := x.hundredths
    String.mk (sign ++ natDigits (n / 100) ++ ['.', digitChar (n % 100 / 10), digitChar (n % 10)])

/-! ## Data model -/

/-- Catalog record; `price` in cents. -/
structure Product where
  id : Int
  name : String
  price : Nat
  description : String
  icon : String
deriving Repr, DecidableEq

/-- Cart line item, the object literal pushed by `addToCart`; `price` in cents. -/
structure CartItem where
  id : Int
  name : String
  price : Nat
  icon : String
  quantity : Int
deriving Repr, DecidableEq

/-- The constant `products` of the script. -/
def products : List Product :=
  [ ⟨1, "Wireless Headphones", 7999,
      "Premium noise-canceling headphones with 30-hour battery life", "🎧"⟩,
    ⟨2, "Smart Watch", 19999,
      "Fitness tracking, heart rate monitor, and notifications", "⌚"⟩,
    ⟨3, "Laptop Stand", 4999, "Ergonomic aluminum stand for better posture", "💻"⟩,
    ⟨4, "Wireless Mouse", 2999, "Ergonomic design with precision tracking", "🖱️"⟩,
    ⟨5, "USB-C Hub", 3999, "7-in-1 hub with HDMI, USB ports, and SD card reader", "🔌"⟩,
    ⟨6, "Portable Charger", 3499, "20,000mAh power bank with fast charging", "🔋"⟩,
    ⟨7, "Webcam HD", 8999, "1080p webcam with auto-focus and built-in microphone", "📷"⟩,
    ⟨8, "Bluetooth Speaker", 5999, "Waterproof speaker with 12-hour playtime", "🔊"⟩,
    ⟨9, "Mechanical Keyboard", 12999, "RGB backlit with cherry MX switches", "⌨️"⟩ ]

/-- Everything the script reads or writes. -/
structure State where
  /-- the global `cart` -/
  cart : List CartItem
  /-- `localStorage.getItem('cart')`; `none` when the key is absent -/
  storage : Option String
  /-- number of `localStorage.setItem` calls made so far -/
  setItemCalls : Nat
  /-- messages passed to `showToast`, oldest first -/
  toasts : List String
  /-- messages of the `confirm` and `alert` dialogs opened, oldest first -/
  dialogs : List String
  /-- number written to the badge `#cartCount` -/
  cartCount : Int
  /-- rows rendered in `#cartItems`; no row stands for the empty-cart placeholder -/
  cartItems : List CartItem
  /-- text of `#cartSubtotal` -/
  cartSubtotal : String
  /-- text of `#cartTax` -/
  cartTax : String
  /-- text of `#cartTotal` -/
  cartTotal : String
  /-- whether `#cartModal` has the class `active` -/
  modalActive : Bool
deriving Repr, DecidableEq

/-! ## JSON text of a cart -/

/-- Double quote. -/
def dq : Char := Char.ofNat 34

/-- Backslash. -/
def bs : Char := Char.ofNat 92

/-- Opening brace. -/
def lbrace : Char := Char.ofNat 123

/-- Closing brace. -/
def rbrace : Char := Char.ofNat 125

/-- Lower-case hexadecimal digit. -/
def hexChar (d : Nat) : Char := if d < 10 then Char.ofNat (48 + d) else Char.ofNat (87 + d)

/-- `QuoteJSONString` on one character. -/
def escapeChar (c : Char) : List Char :=
  if c = dq then [bs, dq]
  else if c = bs then [bs, bs]
  else if c.toNat = 8 then [bs, 'b']
  else if c.toNat = 12 then [bs, 'f']
  else if c.toNat = 10 then [bs, 'n']
  else if c.toNat = 13 then [bs, 'r']
  else if c.toNat = 9 then [bs, 't']
  else if c.toNat < 32 then
    [bs, 'u', '0', '0', hexChar (c.toNat / 16), hexChar (c.toNat % 16)]
  else [c]

/-- Escaped characters of a string body. -/
def escapeAll : List Char → List Char
  | [] => []
  | c :: cs => escapeChar c ++ escapeAll cs

/-- `QuoteJSONString`. -/
def quote (s : String) : List Char := dq :: (escapeAll s.data ++ [dq])

/-- Text of a price of `c` cents: `79.99`, `79.9`, `79`. -/
def priceChars (c : Nat) : List Char :=
  natDigits (c / 100) ++
    (if c % 100 = 0 then []
     else if c % 10 = 0 then ['.', digitChar (c % 100 / 10)]
     else ['.', digitChar (c % 100 / 10), digitChar (c % 10)])

/-- Text that opens an item, up to the value of `id`. -/
def kId : List Char := [lbrace, dq, 'i', 'd', dq, ':']

/-- Text between the values of `id` and `name`. -/
def kName : List Char := [',', dq, 'n', 'a', 'm', 'e', dq, ':']

/-- Text between the values of `name` and `price`. -/
def kPrice : List Char := [',', dq, 'p', 'r', 'i', 'c', 'e', dq, ':']

/-- Text between the values of `price` and `icon`. -/
def kIcon : List Char := [',', dq, 'i', 'c', 'o', 'n', dq, ':']

/-- Text between the values of `icon` and `quantity`. -/
def kQuantity : List Char := [',', dq, 'q', 'u', 'a', 'n', 't', 'i', 't', 'y', dq, ':']

/-- `SerializeJSONObject` on a line item. -/
def itemChars (item : CartItem) : List Char :=
  kId ++ (intChars item.id ++ (kName ++ (quote item.name ++ (kPrice ++ (priceChars item.price ++
    (kIcon ++ (quote item.icon ++ (kQuantity ++ (intChars item.quantity ++ [rbrace])))))))))

/-- Elements of `SerializeJSONArray`, separated by commas, with the closing bracket. -/
def itemsChars : List CartItem → List Char
  | [] => [']']
  | [item] => itemChars item ++ [']']
  | item :: next :: rest => itemChars item ++ ',' :: itemsChars (next :: rest)

/-- `JSON.stringify(cart)`. -/
def JSON.stringify (cart : List CartItem) : String := String.mk ('[' :: itemsChars cart)

/-- Value of a decimal digit character. -/
def digitVal (c : Char) : Option Nat :=
  if 48 ≤ c.toNat ∧ c.toNat ≤ 57 then some (c.toNat - 48) else none

/-- Value of a hexadecimal digit character. -/
def hexVal (c : Char) : Option Nat :=
  if 48 ≤ c.toNat ∧ c.toNat ≤ 57 then some (c.toNat - 48)
  else if 97 ≤ c.toNat ∧ c.toNat ≤ 102 then some (c.toNat - 87)
  else if 65 ≤ c.toNat ∧ c.toNat ≤ 70 then some (c.toNat - 55)
  else none

/-- Whether the text starts with a decimal digit. -/
def startsWithDigit : List Char → Bool
  | [] => false
  | c :: _ => (digitVal c).isSome

/-- Whether the text starts with a character that continues a JSON number
(a digit, a fraction point or an exponent mark). -/
def continuesNumber : List Char → Bool
  | [] => false
  | c :: _ => (digitVal c).isSome || c = '.' || c = 'e' || c = 'E'

/-- Consume the literal text `lit`. -/
def expect : List Char → List Char → Option (List Char)
  | [], input => some input
  | _ :: _, [] => none
  | c :: cs, i :: input => if c = i then expect cs input else none

/-- Read the longest run of digits, continuing the value `acc`. -/
def parseDigits (acc : Nat) : List Char → Nat × List Char
  | [] => (acc, [])
  | c :: cs =>
    match digitVal c with
    | some d => parseDigits (acc * 10 + d) cs
    | none => (acc, c :: cs)

/-- Read the integer part of a JSON number: `0` or a digit run without leading zero. -/
def parseNat : List Char → Option (Nat × List Char)
  | [] => none
  | c :: cs =>
    match digitVal c with
    | none => none
    | some 0 => if startsWithDigit cs then none else some (0, cs)
    | some (d + 1) => some (parseDigits (d + 1) cs)

/-- Read a JSON number that is an integer. -/
def parseInt (input : List Char) : Option (Int × List Char) :=
  match input with
  | [] => none
  | c :: cs =>
    let r := if c = '-' then (parseNat cs).map (fun p => (-(p.1 : Int), p.2))
             else (parseNat (c :: cs)).map (fun p => ((p.1 : Int), p.2))
    match r with
    | none => none
    | some (v, rest) => if continuesNumber rest then none else some (v, rest)

/-- Read a JSON number that is a non-negative amount with at most two decimals, in cents. -/
def parsePrice (input : List Char) : Option (Nat × List Char) :=
  match parseNat input with
  | none => none
  | some (units, rest) =>
    match rest with
    | [] => some (units * 100, [])
    | c :: rest0 =>
      if c = '.' then
        match rest0 with
        | [] => none
        | d1 :: rest1 =>
          match digitVal d1 with
          | none => none
          | some a =>
            match rest1 with
            | [] => some (units * 100 + a * 10, [])
            | d2 :: rest2 =>
              match digitVal d2 with
              | some b =>
                if continuesNumber rest2 then none
                else some (units * 100 + a * 10 + b, rest2)
              | none =>
                if continuesNumber (d2 :: rest2) then none
                else some (units * 100 + a * 10, d2 :: rest2)
      else if continuesNumber (c :: rest0) then none
      else some (units * 100, c :: rest0)

/-- Character denoted by the one-letter escape `\c`. -/
def unescape (c : Char) : Option Char :=
  if c = dq then some dq
  else if c = bs then some bs
  else if c = '/' then some '/'
  else if c = 'b' then some (Char.ofNat 8)
  else if c = 'f' then some (Char.ofNat 12)
  else if c = 'n' then some (Char.ofNat 10)
  else if c = 'r' then some (Char.ofNat 13)
  else if c = 't' then some (Char.ofNat 9)
  else none

/-- Put a character in front of a parsed string body. -/
def consChar (c : Char) : Option (List Char × List Char) → Option (List Char × List Char)
  | none => none
  | some (s, rest) => some (c :: s, rest)

/-- Read a JSON string body up to and including the closing quote.  A `\u` escape of a
surrogate code unit has no counterpart in `String` and is refused. -/
def parseStringBody : Nat → List Char → Option (List Char × List Char)
  | 0, _ => none
  | _ + 1, [] => none
  | fuel + 1, c :: rest =>
    if c = dq then some ([], rest)
    else if c = bs then
      match rest with
      | [] => none
      | x :: rest1 =>
        if x = 'u' then
          match rest1 with
          | h1 :: h2 :: h3 :: h4 :: rest2 =>
            match hexVal h1, hexVal h2, hexVal h3, hexVal h4 with
            | some a, some b, some c, some d =>
              let code := ((a * 16 + b) * 16 + c) * 16 + d
              if 55296 ≤ code ∧ code < 57344 then none
              else consChar (Char.ofNat code) (parseStringBody fuel rest2)
            | _, _, _, _ => none
          | _ => none
        else
          match unescape x with
          | some ch => consChar ch (parseStringBody fuel rest1)
          | none => none
    else if c.toNat < 32 then none
    else consChar c (parseStringBody fuel rest)

/-- Read a JSON string. -/
def parseString (input : List Char) : Option (String × List Char) :=
  match input with
  | [] => none
  | c :: rest =>
    if c = dq then
      match parseStringBody (rest.length + 1) rest with
      | some (s, rest1) => some (String.mk s, rest1)
      | none => none
    else none

/-- Read one line item. -/
def parseItem (input : List Char) : Option (CartItem × List Char) :=
  (expect kId input).bind fun r1 =>
  (parseInt r1).bind fun (id, r2) =>
  (expect kName r2).bind fun r3 =>
  (parseString r3).bind fun (name, r4) =>
  (expect kPrice r4).bind fun r5 =>
  (parsePrice r5).bind fun (price, r6) =>
  (expect kIcon r6).bind fun r7 =>
  (parseString r7).bind fun (icon, r8) =>
  (expect kQuantity r8).bind fun r9 =>
  (parseInt r9).bind fun (quantity, r10) =>
  (expect [rbrace] r10).bind fun r11 =>
  some (⟨id, name, price, icon, quantity⟩, r11)

/-- Read the items of a non-empty array up to the end of the text. -/
def parseItems : Nat → List Char → Option (List CartItem)
  | 0, _ => none
  | fuel + 1, input =>
    match parseItem input with
    | none => none
    | some (item, rest) =>
      match rest with
      | [] => none
      | c :: rest1 =>
        if c = ',' then (parseItems fuel rest1).map (fun items => item :: items)
        else if c = ']' ∧ rest1 = [] then some [item]
        else none

/-- `JSON.parse(text)` on the text of a cart. -/
def JSON.parse (text : String) : Option (List CartItem) :=
  match text.data with
  | [] => none
  | c :: rest =>
    if c = '[' then
      (if rest = [']'] then some [] else parseItems (rest.length + 1) rest)
    else none

/-! ## The script -/

/-- `showToast(message)`: the message is shown (the timer that hides it is not modelled). -/
def showToast (s : State) (message : String) : State :=
  { s with toasts := s.toasts ++ [message] }

/-- `saveCartToStorage()`. -/
def saveCartToStorage (s : State) : State :=
  { s with storage := some (JSON.stringify s.cart), setItemCalls := s.setItemCalls + 1 }

/-- `cart.reduce((sum, item) => sum + item.quantity, 0)`. -/
def itemCount (cart : List CartItem) : Int :=
  cart.foldl (fun sum item => sum + item.quantity) 0

/-- `updateCartCount()`. -/
def updateCartCount (s : State) : State :=
  { s with cartCount := itemCount s.cart }

/-- `updateCartItems()`. -/
def updateCartItems (s : State) : State :=
  if s.cart.length = 0 then { s with cartItems := [] } else { s with cartItems := s.cart }

/-- `cart.reduce((sum, item) => sum + (item.price * item.quantity), 0)`. -/
def subtotalOf (cart : List CartItem) : Double :=
  cart.foldl
    (fun sum item => sum.add ((Double.ofCents item.price).mul (Double.ofInt item.quantity)))
    (Double.ofInt 0)

/-- `updateCartSummary()`. -/
def updateCartSummary (s : State) : State :=
  let subtotal := subtotalOf s.cart
  let tax := subtotal.mul Double.tenth
  let total := subtotal.add tax
  { s with
    cartSubtotal := "$" ++ subtotal.toFixed2
    cartTax := "$" ++ tax.toFixed2
    cartTotal := "$" ++ total.toFixed2 }

/-- `updateCart()`. -/
def updateCart (s : State) : State :=
  updateCartSummary (updateCartItems (updateCartCount s))

/-- `openCart()`. -/
def openCart (s : State) : State :=
  updateCart { s with modalActive := true }

/-- `closeCart()`. -/
def closeCart (s : State) : State :=
  { s with modalActive := false }

/-- Effect of `item.quantity += change` on the object `cart.find` returned, which is the
first element of the array with that id. -/
def bumpFirst (productId change : Int) : List CartItem → List CartItem
  | [] => []
  | item :: rest =>
    if item.id = productId then { item with quantity := item.quantity + change } :: rest
    else item :: bumpFirst productId change rest

/-- `addToCart(productId)`. -/
def addToCart (s : State) (productId : Int) : State :=
  match products.find? (fun p => decide (p.id = productId)) with
  | none => s
  | some product =>
    let cart :=
      match s.cart.find? (fun item => decide (item.id = productId)) with
      | some _ => bumpFirst productId 1 s.cart
      | none => s.cart ++ [⟨product.id, product.name, product.price, product.icon, 1⟩]
    showToast (saveCartToStorage (updateCart { s with cart := cart }))
      (product.name ++ " added to cart!")

/-- `removeFromCart(productId)`. -/
def removeFromCart (s : State) (productId : Int) : State :=
  showToast
    (saveCartToStorage
      (updateCart { s with cart := s.cart.filter (fun item => decide (item.id ≠ productId)) }))
    "Item removed from cart"

/-- `updateQuantity(productId, change)`. -/
def updateQuantity (s : State) (productId change : Int) : State :=
  match s.cart.find? (fun item => decide (item.id = productId)) with
  | none => s
  | some item =>
    let s1 := { s with cart := bumpFirst productId change s.cart }
    if item.quantity + change ≤ 0 then removeFromCart s1 productId
    else saveCartToStorage (updateCart s1)

/-- `clearCart()`; `confirmed` is the value `confirm` returns when it is called. -/
def clearCart (s : State) (confirmed : Bool) : State :=
  if s.cart.length = 0 then showToast s "Cart is already empty"
  else
    let s1 := { s with dialogs := s.dialogs ++ ["Are you sure you want to clear your cart?"] }
    if confirmed then
      showToast (saveCartToStorage (updateCart { s1 with cart := [] })) "Cart cleared"
    else s1

/-- Message of the `alert` of `checkout`. -/
def orderMessage (cart : List CartItem) : String :=
  let total := subtotalOf cart
  let tax := total.mul Double.tenth
  let finalTotal := total.add tax
  "Thank you for your purchase!\n\nOrder Summary:\nSubtotal: $" ++ total.toFixed2 ++
    "\nTax: $" ++ tax.toFixed2 ++ "\nTotal: $" ++ finalTotal.toFixed2 ++
    "\n\nYour order has been placed successfully!"

/-- `checkout()`; `accepted` tells how the user closes the `alert` (accept or dismiss):
`alert` returns nothing, so the script cannot see it. -/
def checkout (s : State) (_accepted : Bool) : State :=
  if s.cart.length = 0 then showToast s "Your cart is empty"
  else
    let s1 := { s with dialogs := s.dialogs ++ [orderMessage s.cart] }
    showToast (closeCart (saveCartToStorage (updateCart { s1 with cart := [] })))
      "Order placed successfully!"

/-- `loadCartFromStorage()`; `none` when `JSON.parse` yields no cart. -/
def loadCartFromStorage (s : State) : Option State :=
  match s.storage with
  | none => some s
  | some savedCart =>
    if savedCart = "" then some s
    else
      match JSON.parse savedCart with
      | none => none
      | some cart => some (updateCart { s with cart := cart })

/-- User actions that reach the cart store. -/
inductive Op where
  | add (productId : Int)
  | remove (productId : Int)
  | update (productId change : Int)
  | clear (confirmed : Bool)
  | checkout (accepted : Bool)
deriving Repr, DecidableEq

/-- One action. -/
def step (s : State) : Op → State
  | Op.add productId => addToCart s productId
  | Op.remove productId => removeFromCart s productId
  | Op.update productId change => updateQuantity s productId change
  | Op.clear confirmed => clearCart s confirmed
  | Op.checkout accepted => checkout s accepted

/-- A sequence of actions, first one first. -/
def run (s : State) (ops : List Op) : State := ops.foldl step s

/-! ## The summary in exact decimal arithmetic

These definitions follow the wording of the specification, not the script: amounts are
exact rationals, rounded to two decimals only for display. -/

/-- Specification: `subtotal = Σ price × quantity`, exactly. -/
def specSubtotal (cart : List CartItem) : ℚ :=
  (cart.map (fun item => (item.price : ℚ) / 100 * (item.quantity : ℚ))).sum

/-- Specification: `tax = subtotal × 0.10`, exactly. -/
def specTax (cart : List CartItem) : ℚ := specSubtotal cart * (10 / 100)

/-- Specification: `total = subtotal + tax`, exactly. -/
def specTotal (cart : List CartItem) : ℚ := specSubtotal cart + specTax cart

/-- Number of hundredths nearest to the absolute value of `x`, the larger on a tie. -/
def roundCents (x : ℚ) : Nat := ⌊|x| * 100 + 1 / 2⌋₊

/-- Display of an exact amount, rounded to two decimals, with the currency sign. -/
def moneyText (x : ℚ) : String :=
  "$" ++ String.mk ((if x < 0 then ['-'] else []) ++ natDigits (roundCents x / 100) ++
    ['.', digitChar (roundCents x % 100 / 10), digitChar (roundCents x % 10)])

/-- Exact subtotal in cents. -/
def subtotalCents (cart : List CartItem) : Int :=
  (cart.map (fun item => (item.price : Int) * item.quantity)).sum

/-- A state with an empty cart, the key `"cart"` absent and nothing shown yet. -/
def blankState : State := ⟨[], none, 0, [], [], 0, [], "", "", "", false⟩

/-- The rational number a finite binary64 number denotes. -/
def Double.value (x : Double) : ℚ := (x.m : ℚ) * (2 : ℚ) ^ x.e

/-- The number `v` is `r` up to the relative error `β`. -/
def RelErr (β v r : ℚ) : Prop := (1 - β) * r ≤ v ∧ v ≤ (1 + β) * r

/-! ## The script with binary64 quantities

The definitions above keep quantities as exact integers, which is what the script computes
as long as every quantity and every count stays within the safe-integer range.  The
namespace `B64` embeds the same functions with the arithmetic JavaScript really performs
on a quantity: `+=` and the `reduce` of the badge are binary64 additions, rounded to
nearest with ties to even, overflowing to `Infinity`; `JSON.stringify` writes `null` for a
quantity that is not finite and exponent notation from `10^21` on.  What `JSON.parse`
returns on a text that `JSON.stringify` cannot have written is a parameter (`other`) of
`loadCartFromStorage`: the results hold whatever it is. -/

namespace B64

/-- Value of a `quantity` field: an integer-valued finite number, an infinity, `NaN`, or
the `null` that a reload finds where a non-finite quantity was saved. -/
inductive JsNum where
  | int (v : Int)
  | inf (negative : Bool)
  | nan
  | null
deriving Repr, DecidableEq

/-- Binary64 number nearest to the natural number `a` (53-bit significand, ties to even),
without regard to overflow. -/
def roundNat (a : Nat) : Nat :=
  if a ≤ 2 ^ 53 then a
  else roundHalfEven a (2 ^ (log2 a - 52)) * 2 ^ (log2 a - 52)

/-- Binary64 number nearest to the integer `v`; `±Infinity` from `2 ^ 1024` on. -/
def roundInt (v : Int) : JsNum :=
  if 2 ^ 1024 ≤ roundNat v.natAbs then JsNum.inf (decide (v < 0))
  else JsNum.int (if v < 0 then -(roundNat v.natAbs : Int) else (roundNat v.natAbs : Int))

/-- `ToNumber` on a quantity: `null` counts as `0`. -/
def JsNum.toNumber : JsNum → JsNum
  | JsNum.null => JsNum.int 0
  | x => x

/-- JavaScript `a + b` on quantities. -/
def JsNum.add (a b : JsNum) : JsNum :=
  match a.toNumber, b.toNumber with
  | JsNum.int x, JsNum.int y => roundInt (x + y)
  | JsNum.inf s, JsNum.inf t => if s = t then JsNum.inf s else JsNum.nan
  | JsNum.inf s, JsNum.int _ => JsNum.inf s
  | JsNum.int _, JsNum.inf t => JsNum.inf t
  | _, _ => JsNum.nan

/-- JavaScript `a <= 0` on a quantity. -/
def JsNum.leZero : JsNum → Bool
  | JsNum.int v => decide (v ≤ 0)
  | JsNum.inf s => s
  | JsNum.nan => false
  | JsNum.null => true

/-- The integer `v` is a binary64 number. -/
def Representable (v : Int) : Prop := roundInt v = JsNum.int v

/-- The quantity is a finite binary64 integer. -/
def JsNum.Finite (q : JsNum) : Prop := ∃ v, q = JsNum.int v ∧ Representable v

/-- Integer held by a quantity (`0` when it holds none). -/
def JsNum.value : JsNum → Int
  | JsNum.int v => v
  | _ => 0

/-! ### Amounts that may overflow -/

/-- Binary64 number: finite, infinite or `NaN`. -/
inductive XDouble where
  | fin (d : Double)
  | inf (negative : Bool)
  | nan
deriving Repr, DecidableEq

/-- Result of an operation whose rounded value is `d`: `±Infinity` from `2 ^ 1024` on. -/
def XDouble.ofDouble (d : Double) : XDouble :=
  if 0 ≤ d.e ∧ 2 ^ 1024 ≤ d.m.natAbs * 2 ^ d.e.toNat then XDouble.inf (decide (d.m < 0))
  else XDouble.fin d

/-- JavaScript `a * b`. -/
def XDouble.mul : XDouble → XDouble → XDouble
  | XDouble.fin a, XDouble.fin b => XDouble.ofDouble (a.mul b)
  | XDouble.fin a, XDouble.inf t =>
    if a.m = 0 then XDouble.nan else XDouble.inf (xor (decide (a.m < 0)) t)
  | XDouble.inf s, XDouble.fin b =>
    if b.m = 0 then XDouble.nan else XDouble.inf (xor s (decide (b.m < 0)))
  | XDouble.inf s, XDouble.inf t => XDouble.inf (xor s t)
  | _, _ => XDouble.nan

/-- JavaScript `a + b`. -/
def XDouble.add : XDouble → XDouble → XDouble
  | XDouble.fin a, XDouble.fin b => XDouble.ofDouble (a.add b)
  | XDouble.inf s, XDouble.inf t => if s = t then XDouble.inf s else XDouble.nan
  | XDouble.inf s, XDouble.fin _ => XDouble.inf s
  | XDouble.fin _, XDouble.inf t => XDouble.inf t
  | _, _ => XDouble.nan

/-- A quantity as an operand of `*`. -/
def XDouble.ofNum : JsNum → XDouble
  | JsNum.int v => XDouble.ofDouble (Double.ofInt v)
  | JsNum.inf s => XDouble.inf s
  | JsNum.nan => XDouble.nan
  | JsNum.null => XDouble.fin (Double.ofInt 0)

/-- Text of `x.toFixed(2)`. -/
def XDouble.toFixed2 : XDouble → String
  | XDouble.fin d => d.toFixed2
  | XDouble.inf false => "Infinity"
  | XDouble.inf true => "-Infinity"
  | XDouble.nan => "NaN"

/-! ### Data model -/

/-- Cart line item; `price` in cents, `quantity` a JavaScript number. -/
structure Item where
  id : Int
  name : String
  price : Nat
  icon : String
  quantity : JsNum
deriving Repr, DecidableEq

/-- Everything the script reads or writes. -/
structure State where
  /-- the global `cart` -/
  cart : List Item
  /-- `localStorage.getItem('cart')`; `none` when the key is absent -/
  storage : Option String
  /-- number of `localStorage.setItem` calls made so far -/
  setItemCalls : Nat
  /-- messages passed to `showToast`, oldest first -/
  toasts : List String
  /-- messages of the `confirm` and `alert` dialogs opened, oldest first -/
  dialogs : List String
  /-- number written to the badge `#cartCount` -/
  cartCount : JsNum
  /-- rows rendered in `#cartItems`; no row stands for the empty-cart placeholder -/
  cartItems : List Item
  /-- text of `#cartSubtotal` -/
  cartSubtotal : String
  /-- text of `#cartTax` -/
  cartTax : String
  /-- text of `#cartTotal` -/
  cartTotal : String
  /-- whether `#cartModal` has the class `active` -/
  modalActive : Bool
deriving Repr, DecidableEq

/-! ### JSON text of a cart -/

/-- Search of `Number::toString` for the shortest decimal `m * 10 ^ e` that denotes the
binary64 integer `a` of `n` digits: candidates of `k` digits, `k = 1, 2, ...`; of two
candidates the one nearer to `a`. -/
def shortestNat (a n : Nat) : Nat → Nat → Nat × Nat
  | 0, _ => (a, 0)
  | fuel + 1, k =>
    let p := 10 ^ (n - k)
    let lo := a / p
    let hi := lo + 1
    let okLo := decide (roundNat (lo * p) = a)
    let okHi := decide (roundNat (hi * p) = a)
    if okLo && okHi then
      (if a - lo * p < hi * p - a then lo
       else if hi * p - a < a - lo * p then hi
       else if lo % 2 = 0 then lo else hi, n - k)
    else if okLo then (lo, n - k)
    else if okHi then (hi, n - k)
    else shortestNat a n fuel (k + 1)

/-- The shortest decimal of `a`, with a candidate `10 ^ k` written as `1`. -/
def shortestDecimal (a : Nat) : Nat × Nat :=
  let n := (natDigits a).length
  let r := shortestNat a n 17 1
  if r.1 = 10 ^ (n - r.2) then (1, n) else r

/-- Digits of a significand with the point after the first digit. -/
def pointAfterFirst : List Char → List Char
  | [] => []
  | [d] => [d]
  | d :: rest => d :: '.' :: rest

/-- Exponent notation of `Number::toString` for the decimal `m * 10 ^ e`. -/
def expChars (m e : Nat) : List Char :=
  pointAfterFirst (natDigits m) ++ ('e' :: '+' :: natDigits (e + (natDigits m).length - 1))

/-- Text of `Number::toString` for an integer-valued number. -/
def numChars (v : Int) : List Char :=
  (if v < 0 then ['-'] else []) ++
    (if v.natAbs < 10 ^ 21 then natDigits v.natAbs
     else expChars (shortestDecimal v.natAbs).1 (shortestDecimal v.natAbs).2)

/-- The text `null`. -/
def nullChars : List Char := ['n', 'u', 'l', 'l']

/-- `SerializeJSONProperty` on a quantity: `null` for a number that is not finite. -/
def quantityChars : JsNum → List Char
  | JsNum.int v => numChars v
  | _ => nullChars

/-- `SerializeJSONObject` on a line item. -/
def itemChars (item : Item) : List Char :=
  kId ++ (numChars item.id ++ (kName ++ (quote item.name ++ (kPrice ++ (priceChars item.price ++
    (kIcon ++ (quote item.icon ++ (kQuantity ++ (quantityChars item.quantity ++ [rbrace])))))))))

/-- Elements of `SerializeJSONArray`, separated by commas, with the closing bracket. -/
def itemsChars : List Item → List Char
  | [] => [']']
  | [item] => itemChars item ++ [']']
  | item :: next :: rest => itemChars item ++ ',' :: itemsChars (next :: rest)

/-- `JSON.stringify(cart)`. -/
def JSON.stringify (cart : List Item) : String := String.mk ('[' :: itemsChars cart)

/-- Read the digits of a fraction, continuing the value `acc`; also their number. -/
def parseFraction (acc count : Nat) : List Char → Nat × Nat × List Char
  | [] => (acc, count, [])
  | c :: cs =>
    match digitVal c with
    | some d => parseFraction (acc * 10 + d) (count + 1) cs
    | none => (acc, count, c :: cs)

/-- Read a JSON number without sign whose value is a natural number: digits, an optional
fraction and an optional exponent `e+NN`; the exact value. -/
def parseMagnitude (input : List Char) : Option (Nat × List Char) :=
  match parseNat input with
  | none => none
  | some (whole, rest) =>
    let f : Nat × Nat × List Char :=
      match rest with
      | [] => (whole, 0, [])
      | c :: rest0 => if c = '.' then parseFraction whole 0 rest0 else (whole, 0, c :: rest0)
    match f.2.2 with
    | [] => if f.2.1 = 0 then some (f.1, []) else none
    | c :: rest1 =>
      if c = 'e' then
        match rest1 with
        | [] => none
        | x :: rest2 =>
          if x = '+' then
            match parseNat rest2 with
            | none => none
            | some (ex, rest3) =>
              if f.2.1 ≤ ex then some (f.1 * 10 ^ (ex - f.2.1), rest3) else none
          else none
      else if f.2.1 = 0 then some (f.1, c :: rest1) else none

/-- Read a JSON number whose value is an integer, as the binary64 number it denotes. -/
def parseNumber (input : List Char) : Option (Int × List Char) :=
  match input with
  | [] => none
  | c :: cs =>
    let r := if c = '-' then (parseMagnitude cs).map (fun p => (-(p.1 : Int), p.2))
             else (parseMagnitude (c :: cs)).map (fun p => ((p.1 : Int), p.2))
    match r with
    | none => none
    | some (v, rest) =>
      if continuesNumber rest then none
      else
        match roundInt v with
        | JsNum.int w => some (w, rest)
        | _ => none

/-- Read the value of `quantity`: a number or `null`. -/
def parseQuantity (input : List Char) : Option (JsNum × List Char) :=
  match expect nullChars input with
  | some rest => some (JsNum.null, rest)
  | none =>
    match parseNumber input with
    | some (v, rest) => some (JsNum.int v, rest)
    | none => none

/-- Read one line item. -/
def parseItem (input : List Char) : Option (Item × List Char) :=
  (expect kId input).bind fun r1 =>
  (parseNumber r1).bind fun (id, r2) =>
  (expect kName r2).bind fun r3 =>
  (parseString r3).bind fun (name, r4) =>
  (expect kPrice r4).bind fun r5 =>
  (parsePrice r5).bind fun (price, r6) =>
  (expect kIcon r6).bind fun r7 =>
  (parseString r7).bind fun (icon, r8) =>
  (expect kQuantity r8).bind fun r9 =>
  (parseQuantity r9).bind fun (quantity, r10) =>
  (expect [rbrace] r10).bind fun r11 =>
  some (⟨id, name, price, icon, quantity⟩, r11)

/-- Read the items of a non-empty array up to the end of the text. -/
def parseItems : Nat → List Char → Option (List Item)
  | 0, _ => none
  | fuel + 1, input =>
    match parseItem input with
    | none => none
    | some (item, rest) =>
      match rest with
      | [] => none
      | c :: rest1 =>
        if c = ',' then (parseItems fuel rest1).map (fun items => item :: items)
        else if c = ']' ∧ rest1 = [] then some [item]
        else none

/-- Reader of the compact text of a cart. -/
def readCart (text : String) : Option (List Item) :=
  match text.data with
  | [] => none
  | c :: rest =>
    if c = '[' then
      (if rest = [']'] then some [] else parseItems (rest.length + 1) rest)
    else none

/-- `JSON.parse(text)`: on a text that is the `JSON.stringify` of a cart, that cart; on any
other text, what `other` says (`none`: an exception, or a value that is not a cart). -/
def JSON.parse (other : String → Option (List Item)) (text : String) : Option (List Item) :=
  match readCart text with
  | some cart => if JSON.stringify cart = text then some cart else other text
  | none => other text

/-! ### The script -/

/-- `showToast(message)`: the message is shown (the timer that hides it is not modelled). -/
def showToast (s : State) (message : String) : State :=
  { s with toasts := s.toasts ++ [message] }

/-- `saveCartToStorage()`. -/
def saveCartToStorage (s : State) : State :=
  { s with storage := some (JSON.stringify s.cart), setItemCalls := s.setItemCalls + 1 }

/-- `cart.reduce((sum, item) => sum + item.quantity, 0)`. -/
def itemCount (cart : List Item) : JsNum :=
  cart.foldl (fun sum item => sum.add item.quantity) (JsNum.int 0)

/-- `updateCartCount()`. -/
def updateCartCount (s : State) : State :=
  { s with cartCount := itemCount s.cart }

/-- `updateCartItems()`. -/
def updateCartItems (s : State) : State :=
  if s.cart.length = 0 then { s with cartItems := [] } else { s with cartItems := s.cart }

/-- `cart.reduce((sum, item) => sum + (item.price * item.quantity), 0)`. -/
def subtotalOf (cart : List Item) : XDouble :=
  cart.foldl
    (fun sum item =>
      sum.add ((XDouble.fin (Double.ofCents item.price)).mul (XDouble.ofNum item.quantity)))
    (XDouble.fin (Double.ofInt 0))

/-- `updateCartSummary()`. -/
def updateCartSummary (s : State) : State :=
  let subtotal := subtotalOf s.cart
  let tax := subtotal.mul (XDouble.fin Double.tenth)
  let total := subtotal.add tax
  { s with
    cartSubtotal := "$" ++ subtotal.toFixed2
    cartTax := "$" ++ tax.toFixed2
    cartTotal := "$" ++ total.toFixed2 }

/-- `updateCart()`. -/
def updateCart (s : State) : State :=
  updateCartSummary (updateCartItems (updateCartCount s))

/-- `openCart()`. -/
def openCart (s : State) : State :=
  updateCart { s with modalActive := true }

/-- `closeCart()`. -/
def closeCart (s : State) : State :=
  { s with modalActive := false }

/-- Effect of `item.quantity += change` on the object `cart.find` returned, which is the
first element of the array with that id. -/
def bumpFirst (productId : Int) (change : JsNum) : List Item → List Item
  | [] => []
  | item :: rest =>
    if item.id = productId then { item with quantity := item.quantity.add change } :: rest
    else item :: bumpFirst productId change rest

/-- `addToCart(productId)`. -/
def addToCart (s : State) (productId : Int) : State :=
  match products.find? (fun p => decide (p.id = productId)) with
  | none => s
  | some product =>
    let cart :=
      match s.cart.find? (fun item => decide (item.id = productId)) with
      | some _ => bumpFirst productId (JsNum.int 1) s.cart
      | none => s.cart ++ [⟨product.id, product.name, product.price, product.icon, JsNum.int 1⟩]
    showToast (saveCartToStorage (updateCart { s with cart := cart }))
      (product.name ++ " added to cart!")

/-- `removeFromCart(productId)`. -/
def removeFromCart (s : State) (productId : Int) : State :=
  showToast
    (saveCartToStorage
      (updateCart { s with cart := s.cart.filter (fun item => decide (item.id ≠ productId)) }))
    "Item removed from cart"

/-- `updateQuantity(productId, change)`. -/
def updateQuantity (s : State) (productId : Int) (change : JsNum) : State :=
  match s.cart.find? (fun item => decide (item.id = productId)) with
  | none => s
  | some item =>
    let s1 := { s with cart := bumpFirst productId change s.cart }
    if (item.quantity.add change).leZero then removeFromCart s1 productId
    else saveCartToStorage (updateCart s1)

/-- `clearCart()`; `confirmed` is the value `confirm` returns when it is called. -/
def clearCart (s : State) (confirmed : Bool) : State :=
  if s.cart.length = 0 then showToast s "Cart is already empty"
  else
    let s1 := { s with dialogs := s.dialogs ++ ["Are you sure you want to clear your cart?"] }
    if confirmed then
      showToast (saveCartToStorage (updateCart { s1 with cart := [] })) "Cart cleared"
    else s1

/-- Message of the `alert` of `checkout`. -/
def orderMessage (cart : List Item) : String :=
  let total := subtotalOf cart
  let tax := total.mul (XDouble.fin Double.tenth)
  let finalTotal := total.add tax
  "Thank you for your purchase!\n\nOrder Summary:\nSubtotal: $" ++ total.toFixed2 ++
    "\nTax: $" ++ tax.toFixed2 ++ "\nTotal: $" ++ finalTotal.toFixed2 ++
    "\n\nYour order has been placed successfully!"

/-- `checkout()`; `accepted` tells how the user closes the `alert` (accept or dismiss):
`alert` returns nothing, so the script cannot see it. -/
def checkout (s : State) (_accepted : Bool) : State :=
  if s.cart.length = 0 then showToast s "Your cart is empty"
  else
    let s1 := { s with dialogs := s.dialogs ++ [orderMessage s.cart] }
    showToast (closeCart (saveCartToStorage (updateCart { s1 with cart := [] })))
      "Order placed successfully!"

/-- `loadCartFromStorage()`; `none` when `JSON.parse` yields no cart. -/
def loadCartFromStorage (other : String → Option (List Item)) (s : State) : Option State :=
  match s.storage with
  | none => some s
  | some savedCart =>
    if savedCart = "" then some s
    else
      match JSON.parse other savedCart with
      | none => none
      | some cart => some (updateCart { s with cart := cart })

/-- User actions that reach the cart store; the change of a quantity is written as an
integer, which denotes the nearest binary64 number. -/
inductive Op where
  | add (productId : Int)
  | remove (productId : Int)
  | update (productId change : Int)
  | clear (confirmed : Bool)
  | checkout (accepted : Bool)
deriving Repr, DecidableEq

/-- One action. -/
def step (s : State) : Op → State
  | Op.add productId => addToCart s productId
  | Op.remove productId => removeFromCart s productId
  | Op.update productId change => updateQuantity s productId (roundInt change)
  | Op.clear confirmed => clearCart s confirmed
  | Op.checkout accepted => checkout s accepted

/-- A sequence of actions, first one first. -/
def run (s : State) (ops : List Op) : State := ops.foldl step s

/-- A state with an empty cart, the key `"cart"` absent and nothing shown yet. -/
def blankState : State := ⟨[], none, 0, [], [], JsNum.int 0, [], "", "", "", false⟩

/-- Cart that `loadCartFromStorage` yields on a freshly opened page (the global `cart` is
`[]`) whose storage holds `storage`; `none` when `JSON.parse` yields no cart. -/
def loadedCart (other : String → Option (List Item)) (storage : Option String) :
    Option (List Item) :=
  (loadCartFromStorage other { blankState with storage := storage }).map State.cart

/-- Sum of the absolute values of the integers held by the quantities. -/
def absTotal (cart : List Item) : Nat :=
  (cart.map (fun item => item.quantity.value.natAbs)).sum

/-- Sum of the integers held by the quantities. -/
def exactTotal (cart : List Item) : Int :=
  (cart.map (fun item => item.quantity.value)).sum

/-- Carts whose ids and quantities are finite binary64 numbers. -/
def FiniteCart (cart : List Item) : Prop :=
  ∀ item ∈ cart, Representable item.id ∧ item.quantity.Finite

/-- The largest finite binary64 number, `Number.MAX_VALUE`. -/
def maxValue : Int := Int.ofNat ((2 ^ 53 - 1) * 2 ^ 971)

end B64

end TechShop

namespace TechShop

/-! ## Projections of the display and storage steps -/

@[simp] theorem showToast_cart (s : State) (m : String) : (showToast s m).cart = s.cart := rfl

@[simp] theorem showToast_storage (s : State) (m : String) :
    (showToast s m).storage = s.storage := rfl

@[simp] theorem showToast_setItemCalls (s : State) (m : String) :
    (showToast s m).setItemCalls = s.setItemCalls := rfl

@[simp] theorem showToast_dialogs (s : State) (m : String) :
    (showToast s m).dialogs = s.dialogs := rfl

@[simp] theorem showToast_cartCount (s : State) (m : String) :
    (showToast s m).cartCount = s.cartCount := rfl

@[simp] theorem saveCartToStorage_cart (s : State) : (saveCartToStorage s).cart = s.cart := rfl

@[simp] theorem saveCartToStorage_storage (s : State) :
    (saveCartToStorage s).storage = some (JSON.stringify s.cart) := rfl

@[simp] theorem saveCartToStorage_setItemCalls (s : State) :
    (saveCartToStorage s).setItemCalls = s.setItemCalls + 1 := rfl

@[simp] theorem saveCartToStorage_dialogs (s : State) :
    (saveCartToStorage s).dialogs = s.dialogs := rfl

@[simp] theorem saveCartToStorage_cartCount (s : State) :
    (saveCartToStorage s).cartCount = s.cartCount := rfl

@[simp] theorem closeCart_cart (s : State) : (closeCart s).cart = s.cart := rfl

@[simp] theorem closeCart_storage (s : State) : (closeCart s).storage = s.storage := rfl

@[simp] theorem closeCart_setItemCalls (s : State) :
    (closeCart s).setItemCalls = s.setItemCalls := rfl

@[simp] theorem closeCart_cartCount (s : State) : (closeCart s).cartCount = s.cartCount := rfl

@[simp] theorem updateCartItems_cart (s : State) : (updateCartItems s).cart = s.cart := by
  unfold updateCartItems
  split <;> rfl

@[simp] theorem updateCartItems_cartCount (s : State) :
    (updateCartItems s).cartCount = s.cartCount := by
  unfold updateCartItems
  split <;> rfl

@[simp] theorem updateCartItems_storage (s : State) :
    (updateCartItems s).storage = s.storage := by
  unfold updateCartItems
  split <;> rfl

@[simp] theorem updateCartItems_setItemCalls (s : State) :
    (updateCartItems s).setItemCalls = s.setItemCalls := by
  unfold updateCartItems
  split <;> rfl

@[simp] theorem updateCartItems_dialogs (s : State) :
    (updateCartItems s).dialogs = s.dialogs := by
  unfold updateCartItems
  split <;> rfl

@[simp] theorem updateCartItems_toasts (s : State) :
    (updateCartItems s).toasts = s.toasts := by
  unfold updateCartItems
  split <;> rfl

@[simp] theorem updateCart_cart (s : State) : (updateCart s).cart = s.cart := by
  simp [updateCart, updateCartSummary, updateCartCount]

@[simp] theorem updateCart_storage (s : State) : (updateCart s).storage = s.storage := by
  simp [updateCart, updateCartSummary, updateCartCount]

@[simp] theorem updateCart_setItemCalls (s : State) :
    (updateCart s).setItemCalls = s.setItemCalls := by
  simp [updateCart, updateCartSummary, updateCartCount]

@[simp] theorem updateCart_dialogs (s : State) : (updateCart s).dialogs = s.dialogs := by
  simp [updateCart, updateCartSummary, updateCartCount]

@[simp] theorem updateCart_toasts (s : State) : (updateCart s).toasts = s.toasts := by
  simp [updateCart, updateCartSummary, updateCartCount]

@[simp] theorem updateCart_cartCount (s : State) :
    (updateCart s).cartCount = itemCount s.cart := by
  simp [updateCart, updateCartSummary, updateCartCount]

/-! ## The cart after each operation -/

theorem addToCart_cart (s : State) (productId : Int) :
    (addToCart s productId).cart =
      match products.find? (fun p => decide (p.id = productId)) with
      | none => s.cart
      | some product =>
        match s.cart.find? (fun item => decide (item.id = productId)) with
        | some _ => bumpFirst productId 1 s.cart
        | none => s.cart ++ [⟨product.id, product.name, product.price, product.icon, 1⟩] := by
  unfold addToCart
  split <;> simp

theorem removeFromCart_cart (s : State) (productId : Int) :
    (removeFromCart s productId).cart =
      s.cart.filter (fun item => decide (item.id ≠ productId)) := by
  simp [removeFromCart]

theorem filter_bumpFirst (productId change : Int) (cart : List CartItem) :
    (bumpFirst productId change cart).filter (fun item => decide (item.id ≠ productId)) =
      cart.filter (fun item => decide (item.id ≠ productId)) := by
  induction cart with
  | nil => rfl
  | cons item rest ih =>
    by_cases h : item.id = productId
    · simp [bumpFirst, h, List.filter_cons]
    · simpa [bumpFirst, h, List.filter_cons] using ih

theorem updateQuantity_cart (s : State) (productId change : Int) :
    (updateQuantity s productId change).cart =
      match s.cart.find? (fun item => decide (item.id = productId)) with
      | none => s.cart
      | some item =>
        if item.quantity + change ≤ 0 then
          s.cart.filter (fun item => decide (item.id ≠ productId))
        else bumpFirst productId change s.cart := by
  unfold updateQuantity
  split
  · rfl
  · split
    · simpa [removeFromCart_cart] using filter_bumpFirst productId change s.cart
    · simp

theorem clearCart_cart (s : State) (confirmed : Bool) :
    (clearCart s confirmed).cart = if confirmed = true then [] else s.cart := by
  unfold clearCart
  by_cases h : s.cart.length = 0
  · have h0 : s.cart = [] := List.length_eq_zero.mp h
    simp [h, h0]
  · cases confirmed <;> simp [h]

theorem checkout_cart (s : State) (accepted : Bool) : (checkout s accepted).cart = [] := by
  unfold checkout
  by_cases h : s.cart.length = 0
  · have h0 : s.cart = [] := List.length_eq_zero.mp h
    simp [h, h0]
  · simp [h]

/-! ## Catalog lookups -/

theorem find_product_of_mem (p : Product) (hp : p ∈ products) :
    products.find? (fun x => decide (x.id = p.id)) = some p := by
  simp only [products, List.mem_cons, List.mem_singleton, List.not_mem_nil, or_false] at hp
  rcases hp with h | h | h | h | h | h | h | h | h <;> subst h <;> rfl

theorem find_product_id (productId : Int) (p : Product)
    (h : products.find? (fun x => decide (x.id = productId)) = some p) : p.id = productId := by
  have := List.find?_some h
  simpa using this

/-! ## Item count -/

theorem foldl_quantity (cart : List CartItem) (start : Int) :
    cart.foldl (fun sum item => sum + item.quantity) start = start + itemCount cart := by
  induction cart generalizing start with
  | nil => simp [itemCount]
  | cons item rest ih =>
    simp only [itemCount, List.foldl_cons]
    rw [ih, ih (0 + item.quantity)]
    simp only [itemCount]
    omega

theorem itemCount_nil : itemCount [] = 0 := rfl

theorem itemCount_cons (item : CartItem) (rest : List CartItem) :
    itemCount (item :: rest) = item.quantity + itemCount rest := by
  simp only [itemCount, List.foldl_cons]
  rw [foldl_quantity]
  simp [itemCount]

theorem itemCount_append (a b : List CartItem) :
    itemCount (a ++ b) = itemCount a + itemCount b := by
  induction a with
  | nil => simp [itemCount_nil]
  | cons item rest ih => simp only [List.cons_append, itemCount_cons, ih]; omega

theorem addToCart_invalid (s : State) (productId : Int)
    (h : products.find? (fun x => decide (x.id = productId)) = none) :
    addToCart s productId = s := by
  unfold addToCart
  rw [h]

theorem any_product_iff_find (productId : Int) :
    products.any (fun p => decide (p.id = productId)) =
      (products.find? (fun x => decide (x.id = productId))).isSome := by
  induction products with
  | nil => rfl
  | cons p rest ih =>
    by_cases hp : p.id = productId
    · simp [List.find?_cons, hp]
    · simp [List.find?_cons, hp, ih]

/-! ## Repeated adds of one product -/

theorem addToCart_empty (s : State) (p : Product) (hp : p ∈ products) (h : s.cart = []) :
    (addToCart s p.id).cart = [⟨p.id, p.name, p.price, p.icon, 1⟩] := by
  rw [addToCart_cart, find_product_of_mem p hp, h]
  simp

/-! ## Uniqueness of ids -/

theorem map_id_bumpFirst (productId change : Int) (cart : List CartItem) :
    (bumpFirst productId change cart).map CartItem.id = cart.map CartItem.id := by
  induction cart with
  | nil => rfl
  | cons item rest ih =>
    by_cases h : item.id = productId
    · simp [bumpFirst, h]
    · simp [bumpFirst, h, ih]

theorem nodup_filter_ids (cart : List CartItem) (f : CartItem → Bool)
    (h : (cart.map CartItem.id).Nodup) : ((cart.filter f).map CartItem.id).Nodup :=
  List.Nodup.sublist (List.Sublist.map _ (List.filter_sublist cart)) h

theorem nodup_addToCart (s : State) (productId : Int)
    (h : (s.cart.map CartItem.id).Nodup) :
    ((addToCart s productId).cart.map CartItem.id).Nodup := by
  rw [addToCart_cart]
  cases hf : products.find? (fun p => decide (p.id = productId)) with
  | none => simpa using h
  | some product =>
    have hid := find_product_id productId product hf
    cases hc : s.cart.find? (fun item => decide (item.id = productId)) with
    | some item => simpa [map_id_bumpFirst] using h
    | none =>
      have hnone := List.find?_eq_none.mp hc
      simp only [List.map_append, List.map_cons, List.map_nil]
      refine List.Nodup.append h (List.nodup_singleton _) ?_
      intro x hx hx2
      rw [List.mem_singleton] at hx2
      rcases List.mem_map.mp hx with ⟨item, hmem, hitem⟩
      have := hnone item hmem
      simp only [decide_eq_true_eq] at this
      exact this (by rw [hitem, hx2, hid])

theorem nodup_updateQuantity (s : State) (productId change : Int)
    (h : (s.cart.map CartItem.id).Nodup) :
    ((updateQuantity s productId change).cart.map CartItem.id).Nodup := by
  rw [updateQuantity_cart]
  cases hc : s.cart.find? (fun item => decide (item.id = productId)) with
  | none => simpa using h
  | some item =>
    by_cases hq : item.quantity + change ≤ 0
    · simpa [hq] using nodup_filter_ids s.cart _ h
    · simpa [hq, map_id_bumpFirst] using h

theorem nodup_step (s : State) (op : Op) (h : (s.cart.map CartItem.id).Nodup) :
    ((step s op).cart.map CartItem.id).Nodup := by
  cases op with
  | add productId => exact nodup_addToCart s productId h
  | remove productId =>
    simp only [step, removeFromCart_cart]
    exact nodup_filter_ids s.cart _ h
  | update productId change => exact nodup_updateQuantity s productId change h
  | clear confirmed =>
    simp only [step, clearCart_cart]
    cases confirmed <;> simp [h]
  | checkout accepted => simp [step, checkout_cart]

theorem nodup_run (ops : List Op) (s : State) (h : (s.cart.map CartItem.id).Nodup) :
    ((run s ops).cart.map CartItem.id).Nodup := by
  induction ops generalizing s with
  | nil => simpa [run] using h
  | cons op rest ih =>
    simp only [run, List.foldl_cons]
    exact ih (step s op) (nodup_step s op h)

/-- C3: uniqueness on the product id is an invariant of the cart.  If no two line items
share an id, the same holds after any one of `addToCart`, `removeFromCart`,
`updateQuantity`, `clearCart` (accepted or declined) or `checkout`, with any arguments;
hence it holds in every state reached from an empty cart by such operations. -/
theorem unique_ids_invariant (s : State) (h : (s.cart.map CartItem.id).Nodup) (op : Op) :
    ((step s op).cart.map CartItem.id).Nodup ∧
      ∀ (s0 : State) (ops : List Op), s0.cart = [] →
        ((run s0 ops).cart.map CartItem.id).Nodup :=
  ⟨nodup_step s op h, fun s0 ops h0 => nodup_run ops s0 (by simp [h0])⟩

theorem unique_ids_invariant_witness :
    ((addToCart blankState 1).cart.map CartItem.id).Nodup ∧
      ((step (addToCart blankState 1) (Op.add 1)).cart.map CartItem.id).Nodup :=
  ⟨by decide, (unique_ids_invariant (addToCart blankState 1) (by decide) (Op.add 1)).1⟩

/-! ## Quantities stay positive -/

theorem quantity_bumpFirst (productId change : Int) (cart : List CartItem) (item : CartItem)
    (hf : cart.find? (fun x => decide (x.id = productId)) = some item)
    (hq : 1 ≤ item.quantity + change) (h : ∀ x ∈ cart, 1 ≤ x.quantity) :
    ∀ x ∈ bumpFirst productId change cart, 1 ≤ x.quantity := by
  induction cart with
  | nil => simp at hf
  | cons y rest ih =>
    by_cases hy : y.id = productId
    · have hyi : y = item := by simpa [List.find?_cons, hy] using hf
      subst hyi
      intro x hx
      simp only [bumpFirst, hy, if_true, List.mem_cons] at hx
      rcases hx with hx | hx
      · subst hx
        exact hq
      · exact h x (List.mem_cons_of_mem _ hx)
    · have hf2 : rest.find? (fun x => decide (x.id = productId)) = some item := by
        simpa [List.find?_cons, hy] using hf
      intro x hx
      simp only [bumpFirst, hy, if_false, List.mem_cons] at hx
      rcases hx with hx | hx
      · subst hx
        exact h _ (List.mem_cons_self _ _)
      · exact ih hf2 (fun z hz => h z (List.mem_cons_of_mem _ hz)) x hx

theorem quantity_addToCart (s : State) (productId : Int) (h : ∀ x ∈ s.cart, 1 ≤ x.quantity) :
    ∀ x ∈ (addToCart s productId).cart, 1 ≤ x.quantity := by
  rw [addToCart_cart]
  cases hf : products.find? (fun p => decide (p.id = productId)) with
  | none => simpa using h
  | some product =>
    cases hc : s.cart.find? (fun item => decide (item.id = productId)) with
    | some item =>
      have hi : 1 ≤ item.quantity := h item (List.mem_of_find?_eq_some hc)
      simpa using quantity_bumpFirst productId 1 s.cart item hc (by omega) h
    | none =>
      intro x hx
      simp only [List.mem_append, List.mem_singleton] at hx
      rcases hx with hx | hx
      · exact h x hx
      · subst hx
        exact le_refl _

theorem quantity_updateQuantity (s : State) (productId change : Int)
    (h : ∀ x ∈ s.cart, 1 ≤ x.quantity) :
    ∀ x ∈ (updateQuantity s productId change).cart, 1 ≤ x.quantity := by
  rw [updateQuantity_cart]
  cases hc : s.cart.find? (fun item => decide (item.id = productId)) with
  | none => simpa using h
  | some item =>
    by_cases hq : item.quantity + change ≤ 0
    · intro x hx
      simp only [hq, if_true] at hx
      exact h x (List.mem_of_mem_filter hx)
    · simp only [hq, if_false]
      exact quantity_bumpFirst productId change s.cart item hc (by omega) h

theorem quantity_step (s : State) (op : Op) (h : ∀ x ∈ s.cart, 1 ≤ x.quantity) :
    ∀ x ∈ (step s op).cart, 1 ≤ x.quantity := by
  cases op with
  | add productId => exact quantity_addToCart s productId h
  | remove productId =>
    simp only [step, removeFromCart_cart]
    intro x hx
    exact h x (List.mem_of_mem_filter hx)
  | update productId change => exact quantity_updateQuantity s productId change h
  | clear confirmed =>
    simp only [step, clearCart_cart]
    cases confirmed
    · simpa using h
    · simp
  | checkout accepted => simp [step, checkout_cart]

theorem quantity_run (ops : List Op) (s : State) (h : ∀ x ∈ s.cart, 1 ≤ x.quantity) :
    ∀ x ∈ (run s ops).cart, 1 ≤ x.quantity := by
  induction ops generalizing s with
  | nil => simpa [run] using h
  | cons op rest ih =>
    simp only [run, List.foldl_cons]
    exact ih (step s op) (quantity_step s op h)

/-- C4: no state with a non-positive quantity is reachable.  If every line item has
quantity at least 1, then after `updateQuantity(id, delta)`, for any id and any signed
integer `delta`, every remaining line item has quantity at least 1; when the matching
line item (the one `cart.find` returns) has a quantity `q` with `q + delta ≤ 0`, the cart
afterwards has no line item with that id; and every state reached from an empty cart by
the operations of the store has only quantities at least 1. -/
theorem quantities_stay_positive (s : State) (h : ∀ x ∈ s.cart, 1 ≤ x.quantity)
    (productId delta : Int) :
    (∀ x ∈ (updateQuantity s productId delta).cart, 1 ≤ x.quantity) ∧
      (∀ item, s.cart.find? (fun x => decide (x.id = productId)) = some item →
        item.quantity + delta ≤ 0 →
        ∀ x ∈ (updateQuantity s productId delta).cart, x.id ≠ productId) ∧
      ∀ (s0 : State) (ops : List Op), s0.cart = [] → ∀ x ∈ (run s0 ops).cart, 1 ≤ x.quantity := by
  refine ⟨quantity_updateQuantity s productId delta h, ?_, ?_⟩
  · intro item hf hq x hx
    rw [updateQuantity_cart, hf] at hx
    simp only [hq, if_true] at hx
    simpa using (List.mem_filter.mp hx).2
  · intro s0 ops h0
    exact quantity_run ops s0 (by simp [h0])

theorem quantities_stay_positive_witness :
    (∀ x ∈ (addToCart (addToCart blankState 1) 2).cart, 1 ≤ x.quantity) ∧
      (updateQuantity (addToCart (addToCart blankState 1) 2) 1 (-1)).cart =
        [⟨2, "Smart Watch", 19999, "⌚", 1⟩] ∧
      ∀ x ∈ (updateQuantity (addToCart (addToCart blankState 1) 2) 1 (-1)).cart,
        1 ≤ x.quantity :=
  ⟨by decide, by decide,
    (quantities_stay_positive (addToCart (addToCart blankState 1) 2) (by decide) 1 (-1)).1⟩

/-! ## Checkout and clearing -/

/-- C6: for every non-empty cart, whatever it holds and however the user closes the
order-summary dialog, the state after `checkout` has an empty cart and `itemCount = 0`
(the badge shows 0), and the outcome does not depend on the user's response. -/
theorem checkout_empties_cart (s : State) (h : s.cart ≠ []) (accepted : Bool) :
    (checkout s accepted).cart = [] ∧ itemCount (checkout s accepted).cart = 0 ∧
      (checkout s accepted).cartCount = 0 ∧ checkout s accepted = checkout s (!accepted) := by
  have hl : ¬ s.cart.length = 0 := fun h0 => h (List.length_eq_zero.mp h0)
  refine ⟨checkout_cart s accepted, by rw [checkout_cart]; rfl, ?_, rfl⟩
  unfold checkout
  simp [hl, itemCount_nil]

theorem checkout_empties_cart_witness :
    (addToCart (addToCart blankState 1) 2).cart ≠ [] ∧
      (checkout (addToCart (addToCart blankState 1) 2) false).cart = [] :=
  ⟨by decide, (checkout_empties_cart (addToCart (addToCart blankState 1) 2) (by decide) false).1⟩

/-- C8: `clearCart` changes the cart, and writes to storage, if and only if the cart is
non-empty and the user accepts the confirmation; then the cart becomes empty and the
empty cart is stored.  When the cart is already empty (no dialog is opened, `itemCount`
stays 0) or the user declines, the cart, the stored snapshot and the number of storage
writes are exactly as before. -/
theorem clearCart_effect (s : State) (confirmed : Bool) :
    ((clearCart s confirmed).cart ≠ s.cart ↔ (s.cart ≠ [] ∧ confirmed = true)) ∧
      ((clearCart s confirmed).setItemCalls ≠ s.setItemCalls ↔
        (s.cart ≠ [] ∧ confirmed = true)) ∧
      ((s.cart ≠ [] ∧ confirmed = true) →
        (clearCart s confirmed).cart = [] ∧
          (clearCart s confirmed).storage = some (JSON.stringify []) ∧
          (clearCart s confirmed).setItemCalls = s.setItemCalls + 1) ∧
      (¬ (s.cart ≠ [] ∧ confirmed = true) →
        (clearCart s confirmed).cart = s.cart ∧
          (clearCart s confirmed).storage = s.storage ∧
          (clearCart s confirmed).setItemCalls = s.setItemCalls) ∧
      (s.cart = [] →
        (clearCart s confirmed).dialogs = s.dialogs ∧
          itemCount (clearCart s confirmed).cart = 0) := by
  by_cases h : s.cart = []
  · have hl : s.cart.length = 0 := by rw [h]; rfl
    have e : clearCart s confirmed = showToast s "Cart is already empty" := by
      unfold clearCart
      rw [if_pos hl]
    rw [e]
    simp [h, itemCount_nil]
  · have hl : ¬ s.cart.length = 0 := fun h0 => h (List.length_eq_zero.mp h0)
    cases confirmed
    · have e : clearCart s false =
          { s with dialogs := s.dialogs ++ ["Are you sure you want to clear your cart?"] } := by
        unfold clearCart
        rw [if_neg hl]
        rfl
      rw [e]
      simp [h]
    · have e : clearCart s true =
          showToast (saveCartToStorage (updateCart
            { s with
              dialogs := s.dialogs ++ ["Are you sure you want to clear your cart?"]
              cart := [] })) "Cart cleared" := by
        unfold clearCart
        rw [if_neg hl]
        rfl
      rw [e]
      simp [h, Ne.symm h]

/-! ## Removal -/

/-- C9: for every cart and every id, the cart after `removeFromCart(id)` is the original
sequence of line items with those whose id equals the argument deleted: the other line
items are unchanged and keep their relative order; when no line item has that id the
cart is the same before and after. -/
theorem removeFromCart_exact (s : State) (productId : Int) :
    (removeFromCart s productId).cart =
        s.cart.filter (fun item => decide (item.id ≠ productId)) ∧
      List.Sublist (removeFromCart s productId).cart s.cart ∧
      (∀ x, x ∈ (removeFromCart s productId).cart ↔ (x ∈ s.cart ∧ x.id ≠ productId)) ∧
      ((∀ x ∈ s.cart, x.id ≠ productId) → (removeFromCart s productId).cart = s.cart) := by
  rw [removeFromCart_cart]
  refine ⟨rfl, List.filter_sublist _, ?_, ?_⟩
  · intro x
    simp [List.mem_filter]
  · intro h
    apply List.filter_eq_self.mpr
    intro x hx
    simpa using h x hx

/-! ## Unknown ids -/

/-- C10: not-found is silently ignored.  On every state, `addToCart` with an id that is
not a catalog product id, and `updateQuantity` (any delta) with an id that no line item
of the cart has, return the state unchanged as a whole: line items, stored snapshot,
storage writes, toasts, dialogs and everything displayed are as before the call. -/
theorem not_found_is_ignored (s : State) (addId : Int) (h1 : ∀ p ∈ products, p.id ≠ addId)
    (updId delta : Int) (h2 : ∀ x ∈ s.cart, x.id ≠ updId) :
    addToCart s addId = s ∧ updateQuantity s updId delta = s := by
  constructor
  · apply addToCart_invalid
    apply List.find?_eq_none.mpr
    intro p hp
    simpa using h1 p hp
  · have hf : s.cart.find? (fun item => decide (item.id = updId)) = none := by
      apply List.find?_eq_none.mpr
      intro x hx
      simpa using h2 x hx
    unfold updateQuantity
    rw [hf]

theorem not_found_is_ignored_witness :
    (∀ p ∈ products, p.id ≠ 10) ∧ (∀ x ∈ (addToCart blankState 1).cart, x.id ≠ 2) ∧
      addToCart (addToCart blankState 1) 10 = addToCart blankState 1 ∧
      updateQuantity (addToCart blankState 1) 2 (-1) = addToCart blankState 1 :=
  ⟨by decide, by decide,
    not_found_is_ignored (addToCart blankState 1) 10 (by decide) 2 (-1) (by decide)⟩

/-! ## The cart summary -/

theorem specSubtotal_eq (cart : List CartItem) :
    specSubtotal cart = (subtotalCents cart : ℚ) / 100 := by
  induction cart with
  | nil => simp [specSubtotal, subtotalCents]
  | cons item rest ih =>
    simp only [specSubtotal, subtotalCents, List.map_cons, List.sum_cons] at ih ⊢
    rw [ih]
    push_cast
    ring

theorem roundCents_thousandths (a : Int) : roundCents ((a : ℚ) / 1000) = (a.natAbs + 5) / 10 := by
  unfold roundCents
  have h : |(a : ℚ) / 1000| * 100 + 1 / 2 = ((a.natAbs + 5 : ℕ) : ℚ) / ((10 : ℕ) : ℚ) := by
    have habs : |(a : ℚ)| = (a.natAbs : ℚ) := by rw [Nat.cast_natAbs, Int.cast_abs]
    rw [abs_div, abs_of_pos (by norm_num : (0 : ℚ) < 1000), habs]
    push_cast
    ring
  rw [h, Nat.floor_div_eq_div]

theorem thousandths_neg_iff (a : Int) : ((a : ℚ) / 1000 < 0) ↔ a < 0 := by
  rw [div_neg_iff]
  constructor
  · rintro (⟨_, h⟩ | ⟨h, _⟩)
    · norm_num at h
    · exact_mod_cast h
  · intro h
    right
    exact ⟨by exact_mod_cast h, by norm_num⟩

theorem moneyText_thousandths (a : Int) :
    moneyText ((a : ℚ) / 1000) =
      "$" ++ String.mk ((if a < 0 then ['-'] else []) ++ natDigits ((a.natAbs + 5) / 10 / 100) ++
        ['.', digitChar ((a.natAbs + 5) / 10 % 100 / 10), digitChar ((a.natAbs + 5) / 10 % 10)]) := by
  unfold moneyText
  rw [roundCents_thousandths]
  simp only [thousandths_neg_iff]

theorem specSubtotal_thousandths (cart : List CartItem) :
    specSubtotal cart = ((10 * subtotalCents cart : Int) : ℚ) / 1000 := by
  rw [specSubtotal_eq]
  push_cast
  ring

theorem specTax_thousandths (cart : List CartItem) :
    specTax cart = ((subtotalCents cart : Int) : ℚ) / 1000 := by
  rw [specTax, specSubtotal_eq]
  ring

theorem specTotal_thousandths (cart : List CartItem) :
    specTotal cart = ((11 * subtotalCents cart : Int) : ℚ) / 1000 := by
  rw [specTotal, specTax, specSubtotal_eq]
  push_cast
  ring

theorem summary_texts (s : State) :
    (updateCartSummary s).cartSubtotal = "$" ++ (subtotalOf s.cart).toFixed2 ∧
      (updateCartSummary s).cartTax = "$" ++ ((subtotalOf s.cart).mul Double.tenth).toFixed2 ∧
      (updateCartSummary s).cartTotal =
        "$" ++ ((subtotalOf s.cart).add ((subtotalOf s.cart).mul Double.tenth)).toFixed2 :=
  ⟨rfl, rfl, rfl⟩

theorem addToCart_shows_summary (s : State) (p : Product) (hp : p ∈ products) :
    (addToCart s p.id).cartSubtotal = (updateCartSummary (addToCart s p.id)).cartSubtotal ∧
      (addToCart s p.id).cartTax = (updateCartSummary (addToCart s p.id)).cartTax ∧
      (addToCart s p.id).cartTotal = (updateCartSummary (addToCart s p.id)).cartTotal := by
  unfold addToCart
  rw [find_product_of_mem p hp]
  simp [updateCart, updateCartSummary, updateCartCount, showToast, saveCartToStorage]

/-- C5, refuted as stated, at two carts.  After five `addToCart(4)` on the empty cart
(five units of the product priced 29.99, subtotal 149.95) the script shows the tax
`$14.99`, while the exact decimal tax `149.95 × 0.10 = 14.995` is displayed as `$15.00`
when rounded to 2 decimals.  After `addToCart(1)` and `updateQuantity(1, 10^12)` (the
product priced 79.99, quantity `10^12 + 1`) the script shows the subtotal
`$79990000000079.98`, while the exact decimal subtotal is `79990000000079.99`. -/
theorem summary_not_exact_decimal :
    (((List.replicate 5 (4 : Int)).foldl addToCart blankState).cartTax = "$14.99" ∧
      specTax ((List.replicate 5 (4 : Int)).foldl addToCart blankState).cart = 14995 / 1000 ∧
      moneyText (specTax ((List.replicate 5 (4 : Int)).foldl addToCart blankState).cart) =
        "$15.00" ∧
      ((List.replicate 5 (4 : Int)).foldl addToCart blankState).cartTax ≠
        moneyText (specTax ((List.replicate 5 (4 : Int)).foldl addToCart blankState).cart)) ∧
    ((updateQuantity (addToCart blankState 1) 1 1000000000000).cartSubtotal =
        "$79990000000079.98" ∧
      specSubtotal (updateQuantity (addToCart blankState 1) 1 1000000000000).cart =
        7999000000007999 / 100 ∧
      moneyText (specSubtotal (updateQuantity (addToCart blankState 1) 1 1000000000000).cart) =
        "$79990000000079.99") := by
  have hc : ((List.replicate 5 (4 : Int)).foldl addToCart blankState).cart =
      [⟨4, "Wireless Mouse", 2999, "🖱️", 5⟩] := by decide
  have ht : ((List.replicate 5 (4 : Int)).foldl addToCart blankState).cartTax = "$14.99" := by
    set_option maxRecDepth 100000 in decide
  have hm : moneyText (specTax ((List.replicate 5 (4 : Int)).foldl addToCart blankState).cart) =
      "$15.00" := by
    rw [hc, specTax_thousandths, moneyText_thousandths]
    decide
  have hd : (updateQuantity (addToCart blankState 1) 1 1000000000000).cart =
      [⟨1, "Wireless Headphones", 7999, "🎧", 1000000000001⟩] := by decide
  refine ⟨⟨ht, ?_, hm, ?_⟩, ?_, ?_, ?_⟩
  · rw [hc, specTax_thousandths]
    norm_num [subtotalCents]
  · rw [ht, hm]
    decide
  · set_option maxRecDepth 100000 in decide
  · rw [hd, specSubtotal_eq]
    norm_num [subtotalCents]
  · rw [hd, specSubtotal_thousandths, moneyText_thousandths]
    set_option maxRecDepth 100000 in decide

/-! ## Rounding to nearest -/

theorem lt_pow_log2Aux (fuel : Nat) : ∀ n : Nat, n ≤ fuel → n < 2 ^ (log2Aux fuel n + 1) := by
  induction fuel with
  | zero =>
    intro n h
    simp only [log2Aux, zero_add, pow_one]
    omega
  | succ f ih =>
    intro n h
    by_cases hn : n < 2
    · simp only [log2Aux, hn, if_true, zero_add, pow_one]
    · simp only [log2Aux, hn, if_false]
      have := ih (n / 2) (by omega)
      rw [pow_succ] at this ⊢
      omega

theorem lt_pow_log2 (n : Nat) : n < 2 ^ (log2 n + 1) := lt_pow_log2Aux n n (le_refl n)

theorem pow_log2Aux_le (fuel : Nat) :
    ∀ n : Nat, n ≤ fuel → 0 < n → 2 ^ log2Aux fuel n ≤ n := by
  induction fuel with
  | zero => intro n h1 h2; omega
  | succ f ih =>
    intro n h1 h2
    by_cases hn : n < 2
    · simp [log2Aux, hn]
      omega
    · simp only [log2Aux, hn, if_false, pow_succ]
      have := ih (n / 2) (by omega) (by omega)
      omega

theorem pow_log2_le (n : Nat) (h : 0 < n) : 2 ^ log2 n ≤ n :=
  pow_log2Aux_le n n (le_refl n) h

theorem two_zpow_toNat (k : Int) (h : 0 ≤ k) : (2 : ℚ) ^ k = ((2 ^ k.toNat : Nat) : ℚ) := by
  obtain ⟨n, rfl⟩ := Int.eq_ofNat_of_zero_le h
  simp

theorem two_zpow_neg_toNat (k : Int) (h : k < 0) :
    (2 : ℚ) ^ k = 1 / ((2 ^ (-k).toNat : Nat) : ℚ) := by
  obtain ⟨n, hn⟩ := Int.eq_ofNat_of_zero_le (show 0 ≤ -k by omega)
  have hk : k = -(n : Int) := by omega
  subst hk
  simp

theorem floorLog2_le (n d : Nat) (hn : 0 < n) :
    (2 : ℚ) ^ floorLog2 n d * d ≤ n := by
  unfold floorLog2
  simp only []
  split
  · rename_i hg
    unfold geTwoPow at hg
    split at hg
    · rename_i hk
      rw [two_zpow_toNat _ hk]
      have := of_decide_eq_true hg
      rw [mul_comm]
      exact_mod_cast this
    · rename_i hk
      rw [two_zpow_neg_toNat _ (by omega)]
      have h1 := of_decide_eq_true hg
      have hpos : (0 : ℚ) < ((2 ^ (-((log2 n : Int) - (log2 d : Int))).toNat : Nat) : ℚ) := by
        exact_mod_cast Nat.two_pow_pos _
      rw [one_div, inv_mul_le_iff₀ hpos]
      rw [mul_comm]
      exact_mod_cast h1
  · have h1 : (2 : ℚ) ^ ((log2 n : Int) - (log2 d : Int) - 1) =
        (2 : ℚ) ^ log2 n / (2 : ℚ) ^ (log2 d + 1) := by
      rw [show (log2 n : Int) - (log2 d : Int) - 1 = (log2 n : Int) - ((log2 d + 1 : Nat) : Int) by
        push_cast; ring]
      rw [zpow_sub₀ (by norm_num), zpow_natCast, zpow_natCast]
    rw [h1]
    have h2 : ((2 : ℚ) ^ log2 n) ≤ n := by exact_mod_cast pow_log2_le n hn
    have h3 : (d : ℚ) ≤ (2 : ℚ) ^ (log2 d + 1) := by
      exact_mod_cast le_of_lt (lt_pow_log2 d)
    have hpos : (0 : ℚ) < (2 : ℚ) ^ (log2 d + 1) := by positivity
    rw [div_mul_eq_mul_div, div_le_iff₀ hpos]
    have hn0 : (0 : ℚ) ≤ (2 : ℚ) ^ log2 n := by positivity
    calc (2 : ℚ) ^ log2 n * d ≤ (2 : ℚ) ^ log2 n * (2 : ℚ) ^ (log2 d + 1) :=
          mul_le_mul_of_nonneg_left h3 hn0
      _ ≤ n * (2 : ℚ) ^ (log2 d + 1) := mul_le_mul_of_nonneg_right h2 (le_of_lt hpos)

theorem roundHalfEven_bounds (n d : Nat) (hd : 0 < d) :
    2 * (roundHalfEven n d * d) ≤ 2 * n + d ∧ 2 * n ≤ 2 * (roundHalfEven n d * d) + d := by
  have h := Nat.div_add_mod n d
  have hr := Nat.mod_lt n hd
  have e1 : (n / d + 1) * d = d * (n / d) + d := by ring
  have e2 : n / d * d = d * (n / d) := by ring
  unfold roundHalfEven
  simp only []
  split_ifs <;> rw [e1] at * <;> try rw [e2] at *
  all_goals omega

theorem scaled_round (N D : Nat) (hD : 0 < D) (p r : ℚ) (hp : 0 < p)
    (hr : r = p * ((N : ℚ) / D)) (hlow : p * 2 ^ 52 ≤ r) :
    |(roundHalfEven N D : ℚ) * p - r| ≤ r / 2 ^ 53 := by
  obtain ⟨h1, h2⟩ := roundHalfEven_bounds N D hD
  have hDq : (0 : ℚ) < D := by exact_mod_cast hD
  have h1q : (2 : ℚ) * ((roundHalfEven N D : ℚ) * D) ≤ 2 * N + D := by exact_mod_cast h1
  have h2q : (2 : ℚ) * N ≤ 2 * ((roundHalfEven N D : ℚ) * D) + D := by exact_mod_cast h2
  have hup : (roundHalfEven N D : ℚ) ≤ (N : ℚ) / D + 1 / 2 := by
    rw [div_add_div _ _ (ne_of_gt hDq) (by norm_num), le_div_iff₀ (by positivity)]
    linarith
  have hlo : (N : ℚ) / D - 1 / 2 ≤ (roundHalfEven N D : ℚ) := by
    rw [div_sub_div _ _ (ne_of_gt hDq) (by norm_num), div_le_iff₀ (by positivity)]
    linarith
  have habs : |(roundHalfEven N D : ℚ) - (N : ℚ) / D| ≤ 1 / 2 := by
    rw [abs_le]
    constructor <;> linarith
  have hfac : (roundHalfEven N D : ℚ) * p - r = p * ((roundHalfEven N D : ℚ) - (N : ℚ) / D) := by
    rw [hr]
    ring
  rw [hfac, abs_mul, abs_of_pos hp]
  have h3 : p * |(roundHalfEven N D : ℚ) - (N : ℚ) / D| ≤ p * (1 / 2) :=
    mul_le_mul_of_nonneg_left habs (le_of_lt hp)
  have h4 : p * (1 / 2) ≤ r / 2 ^ 53 := by
    rw [le_div_iff₀ (by positivity)]
    have : p * (1 / 2) * 2 ^ 53 = p * 2 ^ 52 := by ring
    rw [this]
    exact hlow
  exact le_trans h3 h4

/-- The binary64 number `roundRat` yields for `n / d` is within half a unit in the last
place: the relative error is at most `2 ^ (-53)`. -/
theorem roundRat_value (n d : Nat) (hd : 0 < d) :
    0 ≤ (roundRat false n d).m ∧
      |(roundRat false n d).value - (n : ℚ) / d| ≤ (n : ℚ) / d / 2 ^ 53 := by
  have hdq : (0 : ℚ) < d := by exact_mod_cast hd
  unfold roundRat
  by_cases hn : n = 0
  · subst hn
    simp [Double.value]
  · have hnpos : 0 < n := Nat.pos_of_ne_zero hn
    simp only [hn, if_false, Bool.false_eq_true]
    have hfl := floorLog2_le n d hnpos
    have hlow : (2 : ℚ) ^ (floorLog2 n d - 52) * 2 ^ 52 ≤ (n : ℚ) / d := by
      rw [le_div_iff₀ hdq]
      have : (2 : ℚ) ^ (floorLog2 n d - 52) * 2 ^ 52 = (2 : ℚ) ^ floorLog2 n d := by
        rw [zpow_sub₀ (by norm_num)]
        norm_num
      rw [this]
      exact hfl
    by_cases hs : 0 ≤ floorLog2 n d - 52
    · simp only [hs, if_true, Double.value]
      refine ⟨by positivity, ?_⟩
      have hp := two_zpow_toNat _ hs
      have hD : 0 < d * 2 ^ (floorLog2 n d - 52).toNat :=
        Nat.mul_pos hd (Nat.two_pow_pos _)
      have hpp : (0 : ℚ) < (2 : ℚ) ^ (floorLog2 n d - 52) := by positivity
      have key := scaled_round n (d * 2 ^ (floorLog2 n d - 52).toNat) hD
        ((2 : ℚ) ^ (floorLog2 n d - 52)) ((n : ℚ) / d) hpp (by
          rw [hp]
          push_cast
          field_simp
          ring) hlow
      simpa using key
    · simp only [hs, if_false, Double.value]
      refine ⟨by positivity, ?_⟩
      have hp := two_zpow_neg_toNat _ (not_le.mp hs)
      have hpp : (0 : ℚ) < (2 : ℚ) ^ (floorLog2 n d - 52) := by positivity
      have key := scaled_round (n * 2 ^ (-(floorLog2 n d - 52)).toNat) d hd
        ((2 : ℚ) ^ (floorLog2 n d - 52)) ((n : ℚ) / d) hpp (by
          rw [hp]
          push_cast
          field_simp) hlow
      simpa using key

theorem roundDyadic_value (m e : Int) (hm : 0 ≤ m) :
    0 ≤ (roundDyadic m e).m ∧
      |(roundDyadic m e).value - (m : ℚ) * 2 ^ e| ≤ (m : ℚ) * 2 ^ e / 2 ^ 53 := by
  have hneg : decide (m < 0) = false := by simp [hm]
  have hcast : ((m.natAbs : Nat) : ℚ) = (m : ℚ) := by
    obtain ⟨k, rfl⟩ := Int.eq_ofNat_of_zero_le hm
    simp
  unfold roundDyadic
  rw [hneg]
  by_cases he : 0 ≤ e
  · rw [if_pos he]
    obtain ⟨h1, h2⟩ := roundRat_value (m.natAbs * 2 ^ e.toNat) 1 (by norm_num)
    refine ⟨h1, ?_⟩
    have hv : (((m.natAbs * 2 ^ e.toNat : Nat) : ℚ)) / ((1 : Nat) : ℚ) = (m : ℚ) * 2 ^ e := by
      rw [two_zpow_toNat e he]
      push_cast
      rw [hcast]
      simp
    rw [hv] at h2
    exact h2
  · rw [if_neg he]
    obtain ⟨h1, h2⟩ := roundRat_value m.natAbs (2 ^ (-e).toNat) (Nat.two_pow_pos _)
    refine ⟨h1, ?_⟩
    have hv : ((m.natAbs : Nat) : ℚ) / ((2 ^ (-e).toNat : Nat) : ℚ) = (m : ℚ) * 2 ^ e := by
      rw [two_zpow_neg_toNat e (not_le.mp he), hcast]
      field_simp
    rw [hv] at h2
    exact h2

theorem value_nonneg (x : Double) (h : 0 ≤ x.m) : 0 ≤ x.value := by
  unfold Double.value
  have : (0 : ℚ) ≤ (x.m : ℚ) := by exact_mod_cast h
  positivity

theorem mul_value (a b : Double) (ha : 0 ≤ a.m) (hb : 0 ≤ b.m) :
    0 ≤ (a.mul b).m ∧
      |(a.mul b).value - a.value * b.value| ≤ a.value * b.value / 2 ^ 53 := by
  obtain ⟨h1, h2⟩ := roundDyadic_value (a.m * b.m) (a.e + b.e) (Int.mul_nonneg ha hb)
  refine ⟨h1, ?_⟩
  have hv : ((a.m * b.m : Int) : ℚ) * 2 ^ (a.e + b.e) = a.value * b.value := by
    unfold Double.value
    rw [zpow_add₀ (by norm_num)]
    push_cast
    ring
  rw [hv] at h2
  exact h2

theorem shift_value (m e f : Int) (h : f ≤ e) :
    ((m * 2 ^ (e - f).toNat : Int) : ℚ) * 2 ^ f = (m : ℚ) * 2 ^ e := by
  have h1 : (2 : ℚ) ^ e = (2 : ℚ) ^ (e - f) * 2 ^ f := by
    rw [← zpow_add₀ (by norm_num)]
    congr 1
    ring
  rw [h1, two_zpow_toNat (e - f) (by omega)]
  push_cast
  ring

theorem add_value (a b : Double) (ha : 0 ≤ a.m) (hb : 0 ≤ b.m) :
    0 ≤ (a.add b).m ∧
      |(a.add b).value - (a.value + b.value)| ≤ (a.value + b.value) / 2 ^ 53 := by
  have hnn : 0 ≤ a.m * 2 ^ (a.e - min a.e b.e).toNat + b.m * 2 ^ (b.e - min a.e b.e).toNat :=
    Int.add_nonneg (Int.mul_nonneg ha (by positivity)) (Int.mul_nonneg hb (by positivity))
  obtain ⟨h1, h2⟩ := roundDyadic_value _ (min a.e b.e) hnn
  refine ⟨h1, ?_⟩
  have hv : ((a.m * 2 ^ (a.e - min a.e b.e).toNat + b.m * 2 ^ (b.e - min a.e b.e).toNat :
      Int) : ℚ) * 2 ^ (min a.e b.e) = a.value + b.value := by
    unfold Double.value
    rw [← shift_value a.m a.e (min a.e b.e) (min_le_left _ _),
      ← shift_value b.m b.e (min a.e b.e) (min_le_right _ _)]
    push_cast
    ring
  rw [hv] at h2
  exact h2

theorem ofInt_value (q : Int) (hq : 0 ≤ q) :
    0 ≤ (Double.ofInt q).m ∧ |(Double.ofInt q).value - (q : ℚ)| ≤ (q : ℚ) / 2 ^ 53 := by
  have h := roundDyadic_value q 0 hq
  simpa [Double.ofInt] using h

theorem ofCents_value (c : Nat) :
    0 ≤ (Double.ofCents c).m ∧
      |(Double.ofCents c).value - (c : ℚ) / 100| ≤ (c : ℚ) / 100 / 2 ^ 53 := by
  have h := roundRat_value c 100 (by norm_num)
  simpa [Double.ofCents] using h

theorem tenth_value :
    0 ≤ Double.tenth.m ∧ |Double.tenth.value - 1 / 10| ≤ 1 / 10 / 2 ^ 53 := by
  have h := roundRat_value 1 10 (by norm_num)
  simpa [Double.tenth] using h

/-! ## Accumulated rounding error of the summary -/

theorem relErr_of_abs (v r : ℚ) (h : |v - r| ≤ r / 2 ^ 53) : RelErr (1 / 2 ^ 53) v r := by
  rw [abs_le] at h
  obtain ⟨h1, h2⟩ := h
  constructor <;> linarith

theorem relErr_nonneg (β v r : ℚ) (h : RelErr β v r) (hβ : β ≤ 1) (hr : 0 ≤ r) : 0 ≤ v :=
  le_trans (mul_nonneg (by linarith) hr) h.1

theorem relErr_mono (β γ v r : ℚ) (h : RelErr β v r) (hβ : β ≤ γ) (hr : 0 ≤ r) :
    RelErr γ v r := by
  obtain ⟨h1, h2⟩ := h
  have := mul_le_mul_of_nonneg_right hβ hr
  constructor <;> nlinarith

theorem relErr_round (β u x y r : ℚ) (h : RelErr β y r) (hx : RelErr u x y)
    (hu0 : 0 ≤ u) (hu1 : u ≤ 1) (hβ0 : 0 ≤ β) (hβ : β ≤ 1) (hr : 0 ≤ r) :
    RelErr (β + 2 * u) x r := by
  have hy := relErr_nonneg β y r h hβ hr
  obtain ⟨h1, h2⟩ := h
  obtain ⟨h3, h4⟩ := hx
  have hub : u * β * r ≤ u * 1 * r :=
    mul_le_mul_of_nonneg_right (mul_le_mul_of_nonneg_left hβ hu0) hr
  have hub0 : 0 ≤ u * β * r := mul_nonneg (mul_nonneg hu0 hβ0) hr
  have hur : 0 ≤ u * r := mul_nonneg hu0 hr
  constructor
  · have : (1 - u) * ((1 - β) * r) ≤ (1 - u) * y := mul_le_mul_of_nonneg_left h1 (by linarith)
    nlinarith
  · have : (1 + u) * y ≤ (1 + u) * ((1 + β) * r) := mul_le_mul_of_nonneg_left h2 (by linarith)
    nlinarith

theorem relErr_mul (β γ v w r t : ℚ) (h1 : RelErr β v r) (h2 : RelErr γ w t)
    (hβ0 : 0 ≤ β) (hβ : β ≤ 1) (hγ0 : 0 ≤ γ) (hγ : γ ≤ 1) (hr : 0 ≤ r) (ht : 0 ≤ t) :
    RelErr (β + 2 * γ) (v * w) (r * t) := by
  have hv := relErr_nonneg β v r h1 hβ hr
  have hw := relErr_nonneg γ w t h2 hγ ht
  obtain ⟨a1, a2⟩ := h1
  obtain ⟨b1, b2⟩ := h2
  have hrt : 0 ≤ r * t := mul_nonneg hr ht
  have hbg : β * γ * (r * t) ≤ 1 * γ * (r * t) :=
    mul_le_mul_of_nonneg_right (mul_le_mul_of_nonneg_right hβ hγ0) hrt
  have hbg0 : 0 ≤ β * γ * (r * t) := mul_nonneg (mul_nonneg hβ0 hγ0) hrt
  have hgrt : 0 ≤ γ * (r * t) := mul_nonneg hγ0 hrt
  constructor
  · have : ((1 - β) * r) * ((1 - γ) * t) ≤ v * w :=
      mul_le_mul a1 b1 (mul_nonneg (by linarith) ht) hv
    nlinarith
  · have : v * w ≤ ((1 + β) * r) * ((1 + γ) * t) :=
      mul_le_mul a2 b2 hw (mul_nonneg (by linarith) hr)
    nlinarith

theorem relErr_add (β v w r t : ℚ) (h1 : RelErr β v r) (h2 : RelErr β w t) :
    RelErr β (v + w) (r + t) := by
  obtain ⟨a1, a2⟩ := h1
  obtain ⟨b1, b2⟩ := h2
  constructor <;> nlinarith

theorem line_relErr (item : CartItem) (hq : 0 ≤ item.quantity) :
    0 ≤ ((Double.ofCents item.price).mul (Double.ofInt item.quantity)).m ∧
      RelErr (5 / 2 ^ 53) ((Double.ofCents item.price).mul (Double.ofInt item.quantity)).value
        ((item.price : ℚ) / 100 * (item.quantity : ℚ)) := by
  obtain ⟨p1, p2⟩ := ofCents_value item.price
  obtain ⟨q1, q2⟩ := ofInt_value item.quantity hq
  obtain ⟨m1, m2⟩ := mul_value _ _ p1 q1
  refine ⟨m1, ?_⟩
  have hp0 : (0 : ℚ) ≤ (item.price : ℚ) / 100 := by positivity
  have hq0 : (0 : ℚ) ≤ (item.quantity : ℚ) := by exact_mod_cast hq
  have hu0 : (0 : ℚ) ≤ 1 / 2 ^ 53 := by positivity
  have hu1 : (1 : ℚ) / 2 ^ 53 ≤ 1 := by norm_num
  have h1 := relErr_mul _ _ _ _ _ _ (relErr_of_abs _ _ p2) (relErr_of_abs _ _ q2)
    hu0 hu1 hu0 hu1 hp0 hq0
  have h2 := relErr_round _ _ _ _ _ h1 (relErr_of_abs _ _ m2) hu0 hu1 (by positivity)
    (by norm_num) (mul_nonneg hp0 hq0)
  exact relErr_mono _ _ _ _ h2 (by norm_num) (mul_nonneg hp0 hq0)

theorem specSubtotal_cons (item : CartItem) (rest : List CartItem) :
    specSubtotal (item :: rest) =
      (item.price : ℚ) / 100 * (item.quantity : ℚ) + specSubtotal rest := by
  simp [specSubtotal]

theorem specSubtotal_nonneg (cart : List CartItem) (hq : ∀ item ∈ cart, 0 ≤ item.quantity) :
    0 ≤ specSubtotal cart := by
  induction cart with
  | nil => simp [specSubtotal]
  | cons item rest ih =>
    rw [specSubtotal_cons]
    have h1 : (0 : ℚ) ≤ (item.quantity : ℚ) := by
      exact_mod_cast hq item (List.mem_cons_self _ _)
    have h2 := ih (fun x hx => hq x (List.mem_cons_of_mem _ hx))
    positivity

theorem fold_relErr (cart : List CartItem) :
    ∀ (acc : Double) (A : ℚ) (k : Nat), 0 ≤ acc.m → 0 ≤ A →
      (∀ item ∈ cart, 0 ≤ item.quantity) →
      ((k + cart.length + 3 : Nat) : ℚ) / 2 ^ 52 ≤ 1 →
      RelErr (((k + 3 : Nat) : ℚ) / 2 ^ 52) acc.value A →
      0 ≤ (cart.foldl
          (fun sum item => sum.add ((Double.ofCents item.price).mul (Double.ofInt item.quantity)))
          acc).m ∧
        RelErr (((k + cart.length + 3 : Nat) : ℚ) / 2 ^ 52)
          (cart.foldl
            (fun sum item =>
              sum.add ((Double.ofCents item.price).mul (Double.ofInt item.quantity)))
            acc).value
          (A + specSubtotal cart) := by
  induction cart with
  | nil =>
    intro acc A k hm _ _ _ h
    simpa [specSubtotal] using And.intro hm h
  | cons item rest ih =>
    intro acc A k hm hA hq hk h
    have hq0 := hq item (List.mem_cons_self _ _)
    obtain ⟨t1, t2⟩ := line_relErr item hq0
    obtain ⟨a1, a2⟩ := add_value acc _ hm t1
    have ht0 : (0 : ℚ) ≤ (item.price : ℚ) / 100 * (item.quantity : ℚ) := by
      have : (0 : ℚ) ≤ (item.quantity : ℚ) := by exact_mod_cast hq0
      positivity
    have hk1 : (((k + 3 : Nat) : ℚ)) / 2 ^ 52 ≤ 1 := by
      refine le_trans ?_ hk
      apply div_le_div_of_nonneg_right _ (by positivity)
      push_cast
      have : (0 : ℚ) ≤ ((item :: rest).length : ℚ) := by positivity
      linarith
    have hmono : (5 : ℚ) / 2 ^ 53 ≤ ((k + 3 : Nat) : ℚ) / 2 ^ 52 := by
      rw [div_le_div_iff₀ (by positivity) (by positivity)]
      push_cast
      have : (0 : ℚ) ≤ (k : ℚ) := by positivity
      nlinarith
    have h3 := relErr_add _ _ _ _ _ h (relErr_mono _ _ _ _ t2 hmono ht0)
    have h4 := relErr_round _ _ _ _ _ h3 (relErr_of_abs _ _ a2) (by positivity) (by norm_num)
      (by positivity) hk1 (add_nonneg hA ht0)
    have h5 : RelErr (((k + 1 + 3 : Nat) : ℚ) / 2 ^ 52)
        (acc.add ((Double.ofCents item.price).mul (Double.ofInt item.quantity))).value
        (A + (item.price : ℚ) / 100 * (item.quantity : ℚ)) := by
      have e : (((k + 3 : Nat) : ℚ)) / 2 ^ 52 + 2 * (1 / 2 ^ 53) =
          ((k + 1 + 3 : Nat) : ℚ) / 2 ^ 52 := by
        push_cast
        ring
      rw [← e]
      exact h4
    have hlen : k + 1 + rest.length + 3 = k + (item :: rest).length + 3 := by
      simp only [List.length_cons]
      omega
    have := ih _ _ (k + 1) a1 (add_nonneg hA ht0)
      (fun x hx => hq x (List.mem_cons_of_mem _ hx)) (by rw [hlen]; exact hk) h5
    rw [hlen] at this
    rw [List.foldl_cons, specSubtotal_cons, ← add_assoc]
    exact this

theorem subtotal_relErr (cart : List CartItem) (hq : ∀ item ∈ cart, 0 ≤ item.quantity)
    (hk : ((cart.length + 3 : Nat) : ℚ) / 2 ^ 52 ≤ 1) :
    0 ≤ (subtotalOf cart).m ∧
      RelErr (((cart.length + 3 : Nat) : ℚ) / 2 ^ 52) (subtotalOf cart).value
        (specSubtotal cart) := by
  have h0 : (Double.ofInt 0).value = 0 := by
    obtain ⟨_, h⟩ := ofInt_value 0 (le_refl 0)
    simpa using h
  have hm0 : 0 ≤ (Double.ofInt 0).m := (ofInt_value 0 (le_refl 0)).1
  have := fold_relErr cart (Double.ofInt 0) 0 0 hm0 (le_refl 0) hq (by simpa using hk)
    (by rw [h0]; constructor <;> simp)
  simpa [subtotalOf] using this

theorem tax_relErr (cart : List CartItem) (hq : ∀ item ∈ cart, 0 ≤ item.quantity)
    (hk : ((cart.length + 6 : Nat) : ℚ) / 2 ^ 52 ≤ 1) :
    0 ≤ ((subtotalOf cart).mul Double.tenth).m ∧
      RelErr (((cart.length + 5 : Nat) : ℚ) / 2 ^ 52)
        ((subtotalOf cart).mul Double.tenth).value (specTax cart) := by
  have hk3 : ((cart.length + 3 : Nat) : ℚ) / 2 ^ 52 ≤ 1 := by
    refine le_trans ?_ hk
    apply div_le_div_of_nonneg_right _ (by positivity)
    push_cast
    linarith
  obtain ⟨s1, s2⟩ := subtotal_relErr cart hq hk3
  obtain ⟨t1, t2⟩ := tenth_value
  obtain ⟨m1, m2⟩ := mul_value _ _ s1 t1
  refine ⟨m1, ?_⟩
  have hS := specSubtotal_nonneg cart hq
  have h1 := relErr_mul _ _ _ _ _ _ s2 (relErr_of_abs _ _ t2) (by positivity) hk3
    (by positivity) (by norm_num) hS (by norm_num)
  have hk4 : ((cart.length + 3 : Nat) : ℚ) / 2 ^ 52 + 2 * (1 / 2 ^ 53) ≤ 1 := by
    refine le_trans ?_ hk
    rw [div_add' _ _ _ (by positivity), div_le_div_iff₀ (by positivity) (by positivity)]
    push_cast
    have : (0 : ℚ) ≤ (cart.length : ℚ) := by positivity
    nlinarith
  have h2 := relErr_round _ _ _ _ _ h1 (relErr_of_abs _ _ m2) (by positivity) (by norm_num)
    (by positivity) hk4 (mul_nonneg hS (by norm_num))
  have e : ((cart.length + 3 : Nat) : ℚ) / 2 ^ 52 + 2 * (1 / 2 ^ 53) + 2 * (1 / 2 ^ 53) =
      ((cart.length + 5 : Nat) : ℚ) / 2 ^ 52 := by
    push_cast
    ring
  rw [e] at h2
  have e2 : specTax cart = specSubtotal cart * (1 / 10) := by
    unfold specTax
    norm_num
  rw [e2]
  exact h2

theorem total_relErr (cart : List CartItem) (hq : ∀ item ∈ cart, 0 ≤ item.quantity)
    (hk : ((cart.length + 6 : Nat) : ℚ) / 2 ^ 52 ≤ 1) :
    0 ≤ ((subtotalOf cart).add ((subtotalOf cart).mul Double.tenth)).m ∧
      RelErr (((cart.length + 6 : Nat) : ℚ) / 2 ^ 52)
        ((subtotalOf cart).add ((subtotalOf cart).mul Double.tenth)).value
        (specTotal cart) := by
  have hk3 : ((cart.length + 3 : Nat) : ℚ) / 2 ^ 52 ≤ 1 := by
    refine le_trans ?_ hk
    apply div_le_div_of_nonneg_right _ (by positivity)
    push_cast
    linarith
  have hk5 : ((cart.length + 5 : Nat) : ℚ) / 2 ^ 52 ≤ 1 := by
    refine le_trans ?_ hk
    apply div_le_div_of_nonneg_right _ (by positivity)
    push_cast
    linarith
  obtain ⟨s1, s2⟩ := subtotal_relErr cart hq hk3
  obtain ⟨t1, t2⟩ := tax_relErr cart hq hk
  obtain ⟨a1, a2⟩ := add_value _ _ s1 t1
  refine ⟨a1, ?_⟩
  have hS := specSubtotal_nonneg cart hq
  have hT : 0 ≤ specTax cart := by
    unfold specTax
    positivity
  have hmono : ((cart.length + 3 : Nat) : ℚ) / 2 ^ 52 ≤ ((cart.length + 5 : Nat) : ℚ) / 2 ^ 52 := by
    apply div_le_div_of_nonneg_right _ (by positivity)
    push_cast
    linarith
  have h1 := relErr_add _ _ _ _ _ (relErr_mono _ _ _ _ s2 hmono hS) t2
  have h2 := relErr_round _ _ _ _ _ h1 (relErr_of_abs _ _ a2) (by positivity) (by norm_num)
    (by positivity) hk5 (add_nonneg hS hT)
  have e : ((cart.length + 5 : Nat) : ℚ) / 2 ^ 52 + 2 * (1 / 2 ^ 53) =
      ((cart.length + 6 : Nat) : ℚ) / 2 ^ 52 := by
    push_cast
    ring
  rw [e] at h2
  exact h2

/-! ## Display with two decimals -/

theorem hundredths_floor (x : Double) (hm : 0 ≤ x.m) :
    (x.hundredths : Int) = ⌊100 * x.value + 1 / 2⌋ := by
  obtain ⟨k, hk⟩ := Int.eq_ofNat_of_zero_le hm
  symm
  rw [Int.floor_eq_iff]
  unfold Double.hundredths Double.value
  rw [hk]
  by_cases he : 0 ≤ x.e
  · rw [if_pos he, two_zpow_toNat _ he]
    simp only [Int.natAbs_ofNat]
    push_cast
    constructor <;> linarith
  · rw [if_neg he, two_zpow_neg_toNat _ (not_le.mp he)]
    simp only [Int.natAbs_ofNat]
    have hpos : 0 < 2 ^ ((-x.e).toNat + 1) := Nat.two_pow_pos _
    have hq : (0 : ℚ) < ((2 ^ (-x.e).toNat : Nat) : ℚ) := by exact_mod_cast Nat.two_pow_pos _
    have h1 := Nat.div_add_mod (200 * k + 2 ^ (-x.e).toNat) (2 ^ ((-x.e).toNat + 1))
    have h2 := Nat.mod_lt (200 * k + 2 ^ (-x.e).toNat) hpos
    generalize (200 * k + 2 ^ (-x.e).toNat) / 2 ^ ((-x.e).toNat + 1) = Q at h1
    generalize (200 * k + 2 ^ (-x.e).toNat) % 2 ^ ((-x.e).toNat + 1) = R at h1 h2
    rw [pow_succ] at h1 h2
    have h1q : (((2 ^ (-x.e).toNat : Nat) : ℚ) * 2) * Q + R =
        200 * k + ((2 ^ (-x.e).toNat : Nat) : ℚ) := by exact_mod_cast h1
    have h2q : (R : ℚ) < ((2 ^ (-x.e).toNat : Nat) : ℚ) * 2 := by exact_mod_cast h2
    have hR : (0 : ℚ) ≤ R := by positivity
    have hval : 100 * ((k : ℚ) * (1 / ((2 ^ (-x.e).toNat : Nat) : ℚ))) + 1 / 2 =
        (200 * k + ((2 ^ (-x.e).toNat : Nat) : ℚ)) / (((2 ^ (-x.e).toNat : Nat) : ℚ) * 2) := by
      field_simp
      ring
    push_cast at hval ⊢
    rw [hval]
    push_cast at h1q h2q hq
    constructor
    · rw [le_div_iff₀ (by positivity)]
      nlinarith
    · rw [div_lt_iff₀ (by positivity)]
      nlinarith

theorem floorAbs_le_value (x : Double) (hm : 0 ≤ x.m) : (x.floorAbs : ℚ) ≤ x.value := by
  obtain ⟨k, hk⟩ := Int.eq_ofNat_of_zero_le hm
  unfold Double.floorAbs Double.value
  rw [hk]
  by_cases he : 0 ≤ x.e
  · rw [if_pos he, two_zpow_toNat _ he]
    simp
  · rw [if_neg he, two_zpow_neg_toNat _ (not_le.mp he)]
    simp only [Int.natAbs_ofNat, Int.cast_natCast]
    have := @Nat.cast_div_le ℚ _ k (2 ^ (-x.e).toNat)
    rw [mul_one_div]
    exact this

theorem cents_of_relErr (x : Double) (hm : 0 ≤ x.m) (a : Nat) (β : ℚ)
    (h : RelErr β x.value ((a : ℚ) / 1000)) (hβ : β * a < 1) :
    ((a + 5) % 10 ≠ 0 → x.hundredths = (a + 5) / 10) ∧
      ((a + 5) % 10 = 0 → x.hundredths = (a + 5) / 10 ∨ x.hundredths + 1 = (a + 5) / 10) := by
  have hf := hundredths_floor x hm
  obtain ⟨h1, h2⟩ := h
  have hdm := Nat.div_add_mod (a + 5) 10
  have hlt := Nat.mod_lt (a + 5) (show 0 < 10 by norm_num)
  generalize (a + 5) / 10 = z at hdm ⊢
  generalize (a + 5) % 10 = w at hdm hlt ⊢
  have hq : (10 : ℚ) * z + w = a + 5 := by exact_mod_cast hdm
  have hw : (w : ℚ) ≤ 9 := by
    have : w ≤ 9 := by omega
    exact_mod_cast this
  have hw0 : (0 : ℚ) ≤ w := by positivity
  have hlo : (a : ℚ) / 10 - 1 / 10 < 100 * x.value := by nlinarith
  have hhi : 100 * x.value < (a : ℚ) / 10 + 1 / 10 := by nlinarith
  constructor
  · intro hne
    have hw1 : (1 : ℚ) ≤ w := by
      have : 1 ≤ w := Nat.one_le_iff_ne_zero.mpr hne
      exact_mod_cast this
    have : ⌊100 * x.value + 1 / 2⌋ = (z : Int) := by
      rw [Int.floor_eq_iff]
      push_cast
      constructor <;> linarith
    rw [this] at hf
    exact_mod_cast hf
  · intro he
    subst he
    simp only [Nat.cast_zero, add_zero] at hq
    by_cases hc : (z : ℚ) ≤ 100 * x.value + 1 / 2
    · left
      have : ⌊100 * x.value + 1 / 2⌋ = (z : Int) := by
        rw [Int.floor_eq_iff]
        push_cast
        constructor <;> linarith
      rw [this] at hf
      exact_mod_cast hf
    · right
      have : ⌊100 * x.value + 1 / 2⌋ = (z : Int) - 1 := by
        rw [Int.floor_eq_iff]
        push_cast
        constructor <;> linarith
      rw [this] at hf
      omega

theorem toFixed2_moneyText (x : Double) (hm : 0 ≤ x.m) (hsmall : x.floorAbs < 10 ^ 21)
    (a : Nat) (h : x.hundredths = (a + 5) / 10) :
    "$" ++ x.toFixed2 = moneyText (((a : Int) : ℚ) / 1000) := by
  rw [moneyText_thousandths]
  unfold Double.toFixed2
  have h1 : ¬ x.m < 0 := not_lt.mpr hm
  have h2 : ¬ 10 ^ 21 ≤ x.floorAbs := not_le.mpr hsmall
  have h3 : ¬ (a : Int) < 0 := by omega
  simp only [h1, h2, h3, if_false, h, Int.natAbs_ofNat]

theorem shown_amount (x : Double) (hm : 0 ≤ x.m) (a : Nat) (β : ℚ)
    (h : RelErr β x.value ((a : ℚ) / 1000)) (hβ : β * a < 1) (ha : a < 10 ^ 23) :
    ((a + 5) % 10 ≠ 0 → "$" ++ x.toFixed2 = moneyText (((a : Int) : ℚ) / 1000)) ∧
      ((a + 5) % 10 = 0 →
        "$" ++ x.toFixed2 = moneyText (((a : Int) : ℚ) / 1000) ∨
          "$" ++ x.toFixed2 = moneyText ((((a : Int) - 5 : Int) : ℚ) / 1000)) := by
  have hsmall : x.floorAbs < 10 ^ 21 := by
    have h1 := floorAbs_le_value x hm
    have h2 := h.2
    have ha' : (a : ℚ) < 10 ^ 23 := by exact_mod_cast ha
    have ha0 : (0 : ℚ) ≤ a := by positivity
    have : (x.floorAbs : ℚ) < ((10 ^ 21 : Nat) : ℚ) := by
      push_cast
      nlinarith
    exact_mod_cast this
  obtain ⟨c1, c2⟩ := cents_of_relErr x hm a β h hβ
  constructor
  · intro hne
    exact toFixed2_moneyText x hm hsmall a (c1 hne)
  · intro he
    rcases c2 he with hc | hc
    · exact Or.inl (toFixed2_moneyText x hm hsmall a hc)
    · right
      have h5 : 5 ≤ a := by omega
      have e : ((a : Int) - 5 : Int) = ((a - 5 : Nat) : Int) := by omega
      rw [e]
      exact toFixed2_moneyText x hm hsmall (a - 5) (by omega)

theorem subtotalCents_nonneg (cart : List CartItem) (hq : ∀ item ∈ cart, 0 ≤ item.quantity) :
    0 ≤ subtotalCents cart := by
  induction cart with
  | nil => simp [subtotalCents]
  | cons item rest ih =>
    have h1 := hq item (List.mem_cons_self _ _)
    have h2 := ih (fun x hx => hq x (List.mem_cons_of_mem _ hx))
    simp only [subtotalCents, List.map_cons, List.sum_cons] at h2 ⊢
    have h3 : 0 ≤ (item.price : Int) * item.quantity := Int.mul_nonneg (by positivity) h1
    omega

/-- The texts of the summary against exact decimal arithmetic, for a cart with quantities
that are not negative and an exact subtotal of `C` cents with
`11 * (n + 6) * (C + 1) ≤ 2 ^ 52`, `n` the number of line items. -/
theorem summary_rounding (cart : List CartItem) (hq : ∀ item ∈ cart, 0 ≤ item.quantity)
    (hb : 11 * (((cart.length : Int) + 6) * (subtotalCents cart + 1)) ≤ 2 ^ 52) :
    "$" ++ (subtotalOf cart).toFixed2 = moneyText (specSubtotal cart) ∧
      (subtotalCents cart % 10 ≠ 5 →
        "$" ++ ((subtotalOf cart).mul Double.tenth).toFixed2 = moneyText (specTax cart) ∧
          "$" ++ ((subtotalOf cart).add ((subtotalOf cart).mul Double.tenth)).toFixed2 =
            moneyText (specTotal cart)) ∧
      (subtotalCents cart % 10 = 5 →
        ("$" ++ ((subtotalOf cart).mul Double.tenth).toFixed2 = moneyText (specTax cart) ∨
            "$" ++ ((subtotalOf cart).mul Double.tenth).toFixed2 =
              moneyText (specTax cart - 1 / 200)) ∧
          ("$" ++ ((subtotalOf cart).add ((subtotalOf cart).mul Double.tenth)).toFixed2 =
              moneyText (specTotal cart) ∨
            "$" ++ ((subtotalOf cart).add ((subtotalOf cart).mul Double.tenth)).toFixed2 =
              moneyText (specTotal cart - 1 / 200))) := by
  have hC := subtotalCents_nonneg cart hq
  obtain ⟨c, hc⟩ := Int.eq_ofNat_of_zero_le hC
  rw [hc] at hb
  have hbn : 11 * ((cart.length + 6) * (c + 1)) ≤ 2 ^ 52 := by exact_mod_cast hb
  have hbq : (11 : ℚ) * (((cart.length : ℚ) + 6) * ((c : ℚ) + 1)) ≤ 2 ^ 52 := by
    exact_mod_cast hbn
  have hn0 : (0 : ℚ) ≤ (cart.length : ℚ) := by positivity
  have hc0 : (0 : ℚ) ≤ (c : ℚ) := by positivity
  have hk : ((cart.length + 6 : Nat) : ℚ) / 2 ^ 52 ≤ 1 := by
    rw [div_le_one (by positivity)]
    push_cast
    nlinarith
  have hk3 : ((cart.length + 3 : Nat) : ℚ) / 2 ^ 52 ≤ 1 := by
    rw [div_le_one (by positivity)]
    push_cast
    nlinarith
  obtain ⟨s1, s2⟩ := subtotal_relErr cart hq hk3
  obtain ⟨t1, t2⟩ := tax_relErr cart hq hk
  obtain ⟨g1, g2⟩ := total_relErr cart hq hk
  have eS : specSubtotal cart = (((10 * c : Nat) : Int) : ℚ) / 1000 := by
    rw [specSubtotal_thousandths, hc]
    push_cast
    ring
  have eT : specTax cart = (((c : Nat) : Int) : ℚ) / 1000 := by
    rw [specTax_thousandths, hc]
  have eG : specTotal cart = (((11 * c : Nat) : Int) : ℚ) / 1000 := by
    rw [specTotal_thousandths, hc]
    push_cast
    ring
  have eT5 : specTax cart - 1 / 200 = ((((c : Nat) : Int) - 5 : Int) : ℚ) / 1000 := by
    rw [eT]
    push_cast
    ring
  have eG5 : specTotal cart - 1 / 200 = ((((11 * c : Nat) : Int) - 5 : Int) : ℚ) / 1000 := by
    rw [eG]
    push_cast
    ring
  have hsmallc : c < 2 ^ 52 := by nlinarith
  have shS := shown_amount (subtotalOf cart) s1 (10 * c)
    (((cart.length + 3 : Nat) : ℚ) / 2 ^ 52)
    (by rw [eS] at s2; simpa using s2)
    (by
      rw [div_mul_eq_mul_div, div_lt_one (by positivity)]
      push_cast
      nlinarith)
    (by norm_num at hsmallc ⊢; omega)
  have shT := shown_amount ((subtotalOf cart).mul Double.tenth) t1 c
    (((cart.length + 5 : Nat) : ℚ) / 2 ^ 52)
    (by rw [eT] at t2; simpa using t2)
    (by
      rw [div_mul_eq_mul_div, div_lt_one (by positivity)]
      push_cast
      nlinarith)
    (by norm_num at hsmallc ⊢; omega)
  have shG := shown_amount ((subtotalOf cart).add ((subtotalOf cart).mul Double.tenth)) g1
    (11 * c) (((cart.length + 6 : Nat) : ℚ) / 2 ^ 52)
    (by rw [eG] at g2; simpa using g2)
    (by
      rw [div_mul_eq_mul_div, div_lt_one (by positivity)]
      push_cast
      nlinarith)
    (by norm_num at hsmallc ⊢; omega)
  rw [hc]
  refine ⟨?_, ?_, ?_⟩
  · rw [eS]
    exact shS.1 (by omega)
  · intro h5
    rw [eT, eG]
    exact ⟨shT.1 (by omega), shG.1 (by omega)⟩
  · intro h5
    rw [eT5, eG5, eT, eG]
    exact ⟨shT.2 (by omega), shG.2 (by omega)⟩

/-! ## Nearest binary64 number -/

theorem roundHalfEven_nearest (N D : Nat) (hD : 0 < D) (j : Int) :
    |(roundHalfEven N D : ℚ) - (N : ℚ) / D| ≤ |(j : ℚ) - (N : ℚ) / D| := by
  obtain ⟨h1, h2⟩ := roundHalfEven_bounds N D hD
  have hDq : (0 : ℚ) < D := by exact_mod_cast hD
  have h1q : (2 : ℚ) * ((roundHalfEven N D : ℚ) * D) ≤ 2 * N + D := by exact_mod_cast h1
  have h2q : (2 : ℚ) * N ≤ 2 * ((roundHalfEven N D : ℚ) * D) + D := by exact_mod_cast h2
  have hup : (roundHalfEven N D : ℚ) ≤ (N : ℚ) / D + 1 / 2 := by
    rw [div_add_div _ _ (ne_of_gt hDq) (by norm_num), le_div_iff₀ (by positivity)]
    linarith
  have hlo : (N : ℚ) / D - 1 / 2 ≤ (roundHalfEven N D : ℚ) := by
    rw [div_sub_div _ _ (ne_of_gt hDq) (by norm_num), div_le_iff₀ (by positivity)]
    linarith
  have habs : |(roundHalfEven N D : ℚ) - (N : ℚ) / D| ≤ 1 / 2 := by
    rw [abs_le]
    constructor <;> linarith
  by_cases hj : j = (roundHalfEven N D : Int)
  · subst hj
    simp
  · rcases lt_or_gt_of_ne hj with hlt | hgt
    · have : (j : ℚ) + 1 ≤ (roundHalfEven N D : ℚ) := by
        have : j + 1 ≤ (roundHalfEven N D : Int) := by omega
        exact_mod_cast this
      refine le_trans habs ?_
      rw [le_abs]
      right
      linarith
    · have : (roundHalfEven N D : ℚ) + 1 ≤ (j : ℚ) := by
        have : (roundHalfEven N D : Int) + 1 ≤ j := by omega
        exact_mod_cast this
      refine le_trans habs ?_
      rw [le_abs]
      left
      linarith

theorem nearest_on_grid (N D : Nat) (hD : 0 < D) (s : Int) (r : ℚ)
    (hr : r = (2 : ℚ) ^ s * ((N : ℚ) / D)) (hlow : (2 : ℚ) ^ s * 2 ^ 52 ≤ r)
    (y : Double) (hy : y.m.natAbs < 2 ^ 53) :
    |(roundHalfEven N D : ℚ) * 2 ^ s - r| ≤ |y.value - r| := by
  have hp : (0 : ℚ) < (2 : ℚ) ^ s := by positivity
  have hfac : ∀ j : ℚ, j * 2 ^ s - r = 2 ^ s * (j - (N : ℚ) / D) := by
    intro j
    rw [hr]
    ring
  by_cases he : s ≤ y.e
  · have hv : y.value = ((y.m * 2 ^ (y.e - s).toNat : Int) : ℚ) * 2 ^ s := by
      unfold Double.value
      exact (shift_value y.m y.e s he).symm
    rw [hv, hfac, hfac, abs_mul, abs_mul, abs_of_pos hp]
    exact mul_le_mul_of_nonneg_left (roundHalfEven_nearest N D hD _) (le_of_lt hp)
  · have hhalf : |(roundHalfEven N D : ℚ) * 2 ^ s - r| ≤ 2 ^ s * (1 / 2) := by
      obtain ⟨h1, h2⟩ := roundHalfEven_bounds N D hD
      have hDq : (0 : ℚ) < D := by exact_mod_cast hD
      have h1q : (2 : ℚ) * ((roundHalfEven N D : ℚ) * D) ≤ 2 * N + D := by exact_mod_cast h1
      have h2q : (2 : ℚ) * N ≤ 2 * ((roundHalfEven N D : ℚ) * D) + D := by exact_mod_cast h2
      have hup : (roundHalfEven N D : ℚ) ≤ (N : ℚ) / D + 1 / 2 := by
        rw [div_add_div _ _ (ne_of_gt hDq) (by norm_num), le_div_iff₀ (by positivity)]
        linarith
      have hlo : (N : ℚ) / D - 1 / 2 ≤ (roundHalfEven N D : ℚ) := by
        rw [div_sub_div _ _ (ne_of_gt hDq) (by norm_num), div_le_iff₀ (by positivity)]
        linarith
      rw [hfac, abs_mul, abs_of_pos hp]
      apply mul_le_mul_of_nonneg_left _ (le_of_lt hp)
      rw [abs_le]
      constructor <;> linarith
    refine le_trans hhalf ?_
    have hye : y.e + 1 ≤ s := by omega
    have hpow : (2 : ℚ) ^ y.e * 2 ≤ 2 ^ s := by
      have : (2 : ℚ) ^ y.e * 2 = 2 ^ (y.e + 1) := by
        rw [zpow_add₀ (by norm_num)]
        norm_num
      rw [this]
      exact zpow_le_zpow_right₀ (by norm_num) hye
    have hm : (y.m : ℚ) ≤ 2 ^ 53 - 1 := by
      have h1 : y.m ≤ 2 ^ 53 - 1 := by omega
      exact_mod_cast h1
    have hpe : (0 : ℚ) < (2 : ℚ) ^ y.e := by positivity
    have hval : y.value ≤ (2 ^ 53 - 1) * 2 ^ y.e := by
      unfold Double.value
      exact mul_le_mul_of_nonneg_right hm (le_of_lt hpe)
    rw [le_abs]
    right
    nlinarith

theorem lt_floorLog2 (n d : Nat) (hd : 0 < d) :
    (n : ℚ) < (2 : ℚ) ^ (floorLog2 n d + 1) * d := by
  have hdq : (0 : ℚ) < d := by exact_mod_cast hd
  unfold floorLog2
  simp only []
  split
  · have h1 : (2 : ℚ) ^ ((log2 n : Int) - (log2 d : Int) + 1) =
        (2 : ℚ) ^ (log2 n + 1) / (2 : ℚ) ^ log2 d := by
      rw [show (log2 n : Int) - (log2 d : Int) + 1 = ((log2 n + 1 : Nat) : Int) - (log2 d : Int) by
        push_cast; ring]
      rw [zpow_sub₀ (by norm_num), zpow_natCast, zpow_natCast]
    rw [h1]
    have h2 : (n : ℚ) < (2 : ℚ) ^ (log2 n + 1) := by exact_mod_cast lt_pow_log2 n
    have h3 : ((2 : ℚ) ^ log2 d) ≤ d := by exact_mod_cast pow_log2_le d hd
    have hpos : (0 : ℚ) < (2 : ℚ) ^ log2 d := by positivity
    rw [div_mul_eq_mul_div, lt_div_iff₀ hpos]
    have hn0 : (0 : ℚ) ≤ n := by positivity
    calc (n : ℚ) * 2 ^ log2 d ≤ n * d := mul_le_mul_of_nonneg_left h3 hn0
      _ < 2 ^ (log2 n + 1) * d := mul_lt_mul_of_pos_right h2 hdq
  · rename_i hg
    rw [show (log2 n : Int) - (log2 d : Int) - 1 + 1 = (log2 n : Int) - (log2 d : Int) by ring]
    unfold geTwoPow at hg
    split at hg
    · rename_i hk
      rw [two_zpow_toNat _ hk]
      have : ¬ (d * 2 ^ ((log2 n : Int) - (log2 d : Int)).toNat ≤ n) :=
        fun hle => hg (decide_eq_true hle)
      rw [mul_comm]
      exact_mod_cast not_le.mp this
    · rename_i hk
      rw [two_zpow_neg_toNat _ (by omega)]
      have h1 : ¬ (d ≤ n * 2 ^ (-((log2 n : Int) - (log2 d : Int))).toNat) :=
        fun hle => hg (decide_eq_true hle)
      have hpos : (0 : ℚ) < ((2 ^ (-((log2 n : Int) - (log2 d : Int))).toNat : Nat) : ℚ) := by
        exact_mod_cast Nat.two_pow_pos _
      rw [one_div, lt_inv_mul_iff₀ hpos]
      rw [mul_comm]
      exact_mod_cast not_le.mp h1

theorem roundHalfEven_le (N D : Nat) (hD : 0 < D) (B : Nat) (h : N < B * D) :
    roundHalfEven N D ≤ B := by
  obtain ⟨h1, _⟩ := roundHalfEven_bounds N D hD
  by_contra hc
  have h2 : (B + 1) * D ≤ roundHalfEven N D * D := Nat.mul_le_mul_right D (by omega)
  have e : (B + 1) * D = B * D + D := by ring
  rw [e] at h2
  omega

/-- The result of `roundRat` has a significand of at most 53 bits. -/
theorem roundRat_fits (neg : Bool) (n d : Nat) (hd : 0 < d) :
    (roundRat neg n d).m.natAbs ≤ 2 ^ 53 := by
  have hdq : (0 : ℚ) < d := by exact_mod_cast hd
  unfold roundRat
  by_cases hn : n = 0
  · simp [hn]
  · simp only [hn, if_false]
    have hup := lt_floorLog2 n d hd
    have hsplit : (2 : ℚ) ^ (floorLog2 n d + 1) = 2 ^ (floorLog2 n d - 52) * 2 ^ 53 := by
      rw [show floorLog2 n d + 1 = (floorLog2 n d - 52) + 53 by ring,
        zpow_add₀ (by norm_num)]
      norm_num
    rw [hsplit] at hup
    have hmag : (if 0 ≤ floorLog2 n d - 52
        then roundHalfEven n (d * 2 ^ (floorLog2 n d - 52).toNat)
        else roundHalfEven (n * 2 ^ (-(floorLog2 n d - 52)).toNat) d) ≤ 2 ^ 53 := by
      by_cases hs : 0 ≤ floorLog2 n d - 52
      · rw [if_pos hs]
        apply roundHalfEven_le _ _ (Nat.mul_pos hd (Nat.two_pow_pos _))
        rw [two_zpow_toNat _ hs] at hup
        have : (n : ℚ) < ((2 ^ 53 * (d * 2 ^ (floorLog2 n d - 52).toNat) : Nat) : ℚ) := by
          push_cast at hup ⊢
          linarith
        exact_mod_cast this
      · rw [if_neg hs]
        apply roundHalfEven_le _ _ hd
        rw [two_zpow_neg_toNat _ (not_le.mp hs)] at hup
        have hpos : (0 : ℚ) < ((2 ^ (-(floorLog2 n d - 52)).toNat : Nat) : ℚ) := by
          exact_mod_cast Nat.two_pow_pos _
        have : ((n * 2 ^ (-(floorLog2 n d - 52)).toNat : Nat) : ℚ) < ((2 ^ 53 * d : Nat) : ℚ) := by
          push_cast at hup hpos ⊢
          rw [one_div, inv_mul_eq_div, div_mul_eq_mul_div, lt_div_iff₀ hpos] at hup
          linarith
        exact_mod_cast this
    cases neg
    · simp only [Bool.false_eq_true, if_false, Int.natAbs_ofNat]
      exact hmag
    · simp only [if_true, Int.natAbs_neg, Int.natAbs_ofNat]
      exact hmag

/-- The result of `roundRat` is a nearest number among those with a significand of 53
bits. -/
theorem roundRat_nearest (neg : Bool) (n d : Nat) (hd : 0 < d) (y : Double)
    (hy : y.m.natAbs < 2 ^ 53) :
    |(roundRat neg n d).value - (if neg then -1 else 1) * ((n : ℚ) / d)| ≤
      |y.value - (if neg then -1 else 1) * ((n : ℚ) / d)| := by
  have hdq : (0 : ℚ) < d := by exact_mod_cast hd
  by_cases hn : n = 0
  · subst hn
    simp [roundRat, Double.value]
  · have hnpos : 0 < n := Nat.pos_of_ne_zero hn
    have hfl := floorLog2_le n d hnpos
    have hlow : (2 : ℚ) ^ (floorLog2 n d - 52) * 2 ^ 52 ≤ (n : ℚ) / d := by
      rw [le_div_iff₀ hdq]
      have : (2 : ℚ) ^ (floorLog2 n d - 52) * 2 ^ 52 = (2 : ℚ) ^ floorLog2 n d := by
        rw [zpow_sub₀ (by norm_num)]
        norm_num
      rw [this]
      exact hfl
    have key : ∀ z : Double, z.m.natAbs < 2 ^ 53 →
        |((if 0 ≤ floorLog2 n d - 52
            then roundHalfEven n (d * 2 ^ (floorLog2 n d - 52).toNat)
            else roundHalfEven (n * 2 ^ (-(floorLog2 n d - 52)).toNat) d : Nat) : ℚ) *
            2 ^ (floorLog2 n d - 52) - (n : ℚ) / d| ≤ |z.value - (n : ℚ) / d| := by
      intro z hz
      by_cases hs : 0 ≤ floorLog2 n d - 52
      · rw [if_pos hs]
        exact nearest_on_grid n _ (Nat.mul_pos hd (Nat.two_pow_pos _)) _ _ (by
          rw [two_zpow_toNat _ hs]
          push_cast
          field_simp
          ring) hlow z hz
      · rw [if_neg hs]
        exact nearest_on_grid _ d hd _ _ (by
          rw [two_zpow_neg_toNat _ (not_le.mp hs)]
          push_cast
          field_simp) hlow z hz
    unfold roundRat
    simp only [hn, if_false]
    cases neg
    · simp only [Bool.false_eq_true, if_false, one_mul, Double.value, Int.cast_natCast]
      exact key y hy
    · simp only [if_true, Double.value, Int.cast_neg, Int.cast_natCast]
      have h1 := key ⟨-y.m, y.e⟩ (by simpa using hy)
      simp only [Double.value, Int.cast_neg] at h1
      have e1 : ∀ a b : ℚ, |(-a) * b - -1 * ((n : ℚ) / d)| = |a * b - (n : ℚ) / d| := by
        intro a b
        rw [← abs_neg]
        congr 1
        ring
      have e2 : |(y.m : ℚ) * 2 ^ y.e - -1 * ((n : ℚ) / d)| =
          |-(y.m : ℚ) * 2 ^ y.e - (n : ℚ) / d| := by
        rw [← abs_neg]
        congr 1
        ring
      rw [e1, e2]
      exact h1

theorem sign_natAbs (m : Int) :
    (if decide (m < 0) = true then (-1 : ℚ) else 1) * ((m.natAbs : Nat) : ℚ) = (m : ℚ) := by
  by_cases h : m < 0
  · obtain ⟨k, hk⟩ := Int.eq_ofNat_of_zero_le (show 0 ≤ -m by omega)
    have hm : m = -(k : Int) := by omega
    subst hm
    simp [h]
  · obtain ⟨k, rfl⟩ := Int.eq_ofNat_of_zero_le (not_lt.mp h)
    simp

theorem roundDyadic_nearest (m e : Int) (y : Double) (hy : y.m.natAbs < 2 ^ 53) :
    (roundDyadic m e).m.natAbs ≤ 2 ^ 53 ∧
      |(roundDyadic m e).value - (m : ℚ) * 2 ^ e| ≤ |y.value - (m : ℚ) * 2 ^ e| := by
  unfold roundDyadic
  by_cases he : 0 ≤ e
  · rw [if_pos he]
    refine ⟨roundRat_fits _ _ 1 (by norm_num), ?_⟩
    have h := roundRat_nearest (decide (m < 0)) (m.natAbs * 2 ^ e.toNat) 1 (by norm_num) y hy
    have hv : (if decide (m < 0) = true then (-1 : ℚ) else 1) *
        ((((m.natAbs * 2 ^ e.toNat : Nat) : ℚ)) / ((1 : Nat) : ℚ)) = (m : ℚ) * 2 ^ e := by
      rw [two_zpow_toNat e he, ← sign_natAbs m]
      push_cast
      ring
    rw [hv] at h
    exact h
  · rw [if_neg he]
    refine ⟨roundRat_fits _ _ _ (Nat.two_pow_pos _), ?_⟩
    have h := roundRat_nearest (decide (m < 0)) m.natAbs (2 ^ (-e).toNat)
      (Nat.two_pow_pos _) y hy
    have hv : (if decide (m < 0) = true then (-1 : ℚ) else 1) *
        (((m.natAbs : Nat) : ℚ) / ((2 ^ (-e).toNat : Nat) : ℚ)) = (m : ℚ) * 2 ^ e := by
      rw [two_zpow_neg_toNat e (not_le.mp he), ← sign_natAbs m]
      push_cast
      ring
    rw [hv] at h
    exact h

/-- `a * b` is a binary64 number nearest to the exact product. -/
theorem mul_nearest (a b y : Double) (hy : y.m.natAbs < 2 ^ 53) :
    (a.mul b).m.natAbs ≤ 2 ^ 53 ∧
      |(a.mul b).value - a.value * b.value| ≤ |y.value - a.value * b.value| := by
  have h := roundDyadic_nearest (a.m * b.m) (a.e + b.e) y hy
  have hv : ((a.m * b.m : Int) : ℚ) * 2 ^ (a.e + b.e) = a.value * b.value := by
    unfold Double.value
    rw [zpow_add₀ (by norm_num)]
    push_cast
    ring
  rw [hv] at h
  exact h

/-- `a + b` is a binary64 number nearest to the exact sum. -/
theorem add_nearest (a b y : Double) (hy : y.m.natAbs < 2 ^ 53) :
    (a.add b).m.natAbs ≤ 2 ^ 53 ∧
      |(a.add b).value - (a.value + b.value)| ≤ |y.value - (a.value + b.value)| := by
  have h := roundDyadic_nearest
    (a.m * 2 ^ (a.e - min a.e b.e).toNat + b.m * 2 ^ (b.e - min a.e b.e).toNat)
    (min a.e b.e) y hy
  have hv : ((a.m * 2 ^ (a.e - min a.e b.e).toNat + b.m * 2 ^ (b.e - min a.e b.e).toNat :
      Int) : ℚ) * 2 ^ (min a.e b.e) = a.value + b.value := by
    unfold Double.value
    rw [← shift_value a.m a.e (min a.e b.e) (min_le_left _ _),
      ← shift_value b.m b.e (min a.e b.e) (min_le_right _ _)]
    push_cast
    ring
  rw [hv] at h
  exact h

/-- The number of a price literal is a binary64 number nearest to the decimal amount. -/
theorem ofCents_nearest (c : Nat) (y : Double) (hy : y.m.natAbs < 2 ^ 53) :
    (Double.ofCents c).m.natAbs ≤ 2 ^ 53 ∧
      |(Double.ofCents c).value - (c : ℚ) / 100| ≤ |y.value - (c : ℚ) / 100| := by
  refine ⟨roundRat_fits _ _ _ (by norm_num), ?_⟩
  have h := roundRat_nearest false c 100 (by norm_num) y hy
  simpa [Double.ofCents] using h

/-- The number of the literal `0.1` is a binary64 number nearest to one tenth. -/
theorem tenth_nearest (y : Double) (hy : y.m.natAbs < 2 ^ 53) :
    Double.tenth.m.natAbs ≤ 2 ^ 53 ∧
      |Double.tenth.value - 1 / 10| ≤ |y.value - 1 / 10| := by
  refine ⟨roundRat_fits _ _ _ (by norm_num), ?_⟩
  have h := roundRat_nearest false 1 10 (by norm_num) y hy
  simpa [Double.tenth] using h

/-- The number of an integer is a binary64 number nearest to it. -/
theorem ofInt_nearest (q : Int) (y : Double) (hy : y.m.natAbs < 2 ^ 53) :
    (Double.ofInt q).m.natAbs ≤ 2 ^ 53 ∧
      |(Double.ofInt q).value - (q : ℚ)| ≤ |y.value - (q : ℚ)| := by
  have h := roundDyadic_nearest q 0 y hy
  simpa [Double.ofInt] using h

set_option maxRecDepth 100000 in
theorem two_products_summary (s : State) (h : s.cart = []) :
    (addToCart (addToCart s 1) 4).cart =
        [⟨1, "Wireless Headphones", 7999, "🎧", 1⟩, ⟨4, "Wireless Mouse", 2999, "🖱️", 1⟩] ∧
      (addToCart (addToCart s 1) 4).cartSubtotal = "$109.98" ∧
      (addToCart (addToCart s 1) 4).cartTax = "$11.00" ∧
      (addToCart (addToCart s 1) 4).cartTotal = "$120.98" := by
  have hp1 : (⟨1, "Wireless Headphones", 7999,
      "Premium noise-canceling headphones with 30-hour battery life", "🎧"⟩ : Product) ∈
      products := by decide
  have hp4 : (⟨4, "Wireless Mouse", 2999, "Ergonomic design with precision tracking", "🖱️"⟩ :
      Product) ∈ products := by decide
  have hc1 := addToCart_empty s _ hp1 h
  have hc : (addToCart (addToCart s 1) 4).cart =
      [⟨1, "Wireless Headphones", 7999, "🎧", 1⟩, ⟨4, "Wireless Mouse", 2999, "🖱️", 1⟩] := by
    rw [addToCart_cart, hc1]
    rfl
  obtain ⟨a1, a2, a3⟩ := addToCart_shows_summary (addToCart s 1) _ hp4
  obtain ⟨e1, e2, e3⟩ := summary_texts (addToCart (addToCart s 1) 4)
  refine ⟨hc, ?_, ?_, ?_⟩
  · rw [a1, e1, hc]
    decide
  · rw [a2, e2, hc]
    decide
  · rw [a3, e3, hc]
    decide

set_option maxRecDepth 100000 in
theorem one_product_summary (s : State) (h : s.cart = []) :
    (addToCart s 1).cart = [⟨1, "Wireless Headphones", 7999, "🎧", 1⟩] ∧
      (addToCart s 1).cartSubtotal = "$79.99" ∧ (addToCart s 1).cartTax = "$8.00" ∧
      (addToCart s 1).cartTotal = "$87.99" := by
  have hp : (⟨1, "Wireless Headphones", 7999,
      "Premium noise-canceling headphones with 30-hour battery life", "🎧"⟩ : Product) ∈
      products := by decide
  have hc := addToCart_empty s _ hp h
  obtain ⟨a1, a2, a3⟩ := addToCart_shows_summary s _ hp
  obtain ⟨e1, e2, e3⟩ := summary_texts (addToCart s 1)
  refine ⟨hc, ?_, ?_, ?_⟩
  · rw [a1, e1, hc]
    decide
  · rw [a2, e2, hc]
    decide
  · rw [a3, e3, hc]
    decide

/-- C5, amended: the summary is computed in binary64 arithmetic, not in exact decimal
arithmetic.  Every product, every sum and the numbers of the literals (a price, `0.1`) are
binary64 numbers nearest to the exact result: the significand has at most 53 bits and no
number `y` with a significand of 53 bits is nearer.  For a cart `s.cart` of `n` line items
with quantities that are not negative and an exact subtotal of `C` cents such that
`11 * (n + 6) * (C + 1) ≤ 2 ^ 52`, the subtotal shown is the exact decimal subtotal; the
tax and the total shown are the exact decimal tax and total rounded to 2 decimals when
the last digit of `C` is not `5`, and when it is `5` (the exact tax has half a cent) each
is that rounded value or one cent less.  For the product priced 79.99 added once to the
empty cart the texts are subtotal 79.99, tax 8.00 and total 87.99; with the product
priced 29.99 added after it they are 109.98, 11.00 and 120.98. -/
theorem summary_in_binary64 (s : State) (hq : ∀ item ∈ s.cart, 0 ≤ item.quantity)
    (hb : 11 * (((s.cart.length : Int) + 6) * (subtotalCents s.cart + 1)) ≤ 2 ^ 52) :
    (∀ a b y : Double, y.m.natAbs < 2 ^ 53 →
      ((a.mul b).m.natAbs ≤ 2 ^ 53 ∧
        |(a.mul b).value - a.value * b.value| ≤ |y.value - a.value * b.value|) ∧
      ((a.add b).m.natAbs ≤ 2 ^ 53 ∧
        |(a.add b).value - (a.value + b.value)| ≤ |y.value - (a.value + b.value)|)) ∧
    (∀ (c : Nat) (q : Int) (y : Double), y.m.natAbs < 2 ^ 53 →
      |(Double.ofCents c).value - (c : ℚ) / 100| ≤ |y.value - (c : ℚ) / 100| ∧
      |(Double.ofInt q).value - (q : ℚ)| ≤ |y.value - (q : ℚ)| ∧
      |Double.tenth.value - 1 / 10| ≤ |y.value - 1 / 10|) ∧
    (updateCartSummary s).cartSubtotal = moneyText (specSubtotal s.cart) ∧
    (subtotalCents s.cart % 10 ≠ 5 →
      (updateCartSummary s).cartTax = moneyText (specTax s.cart) ∧
        (updateCartSummary s).cartTotal = moneyText (specTotal s.cart)) ∧
    (subtotalCents s.cart % 10 = 5 →
      ((updateCartSummary s).cartTax = moneyText (specTax s.cart) ∨
          (updateCartSummary s).cartTax = moneyText (specTax s.cart - 1 / 200)) ∧
        ((updateCartSummary s).cartTotal = moneyText (specTotal s.cart) ∨
          (updateCartSummary s).cartTotal = moneyText (specTotal s.cart - 1 / 200))) ∧
    (∀ t : State, t.cart = [] →
      (addToCart t 1).cart = [⟨1, "Wireless Headphones", 7999, "🎧", 1⟩] ∧
        (addToCart t 1).cartSubtotal = "$79.99" ∧ (addToCart t 1).cartTax = "$8.00" ∧
        (addToCart t 1).cartTotal = "$87.99") ∧
    (∀ t : State, t.cart = [] →
      (addToCart (addToCart t 1) 4).cart =
          [⟨1, "Wireless Headphones", 7999, "🎧", 1⟩, ⟨4, "Wireless Mouse", 2999, "🖱️", 1⟩] ∧
        (addToCart (addToCart t 1) 4).cartSubtotal = "$109.98" ∧
        (addToCart (addToCart t 1) 4).cartTax = "$11.00" ∧
        (addToCart (addToCart t 1) 4).cartTotal = "$120.98") := by
  obtain ⟨e1, e2, e3⟩ := summary_texts s
  obtain ⟨r1, r2, r3⟩ := summary_rounding s.cart hq hb
  refine ⟨fun a b y hy => ⟨mul_nearest a b y hy, add_nearest a b y hy⟩,
    fun c q y hy => ⟨(ofCents_nearest c y hy).2, (ofInt_nearest q y hy).2,
      (tenth_nearest y hy).2⟩, ?_, ?_, ?_, one_product_summary, two_products_summary⟩
  · rw [e1]
    exact r1
  · rw [e2, e3]
    exact r2
  · rw [e2, e3]
    exact r3

theorem summary_in_binary64_witness :
    (∀ item ∈ (addToCart (addToCart blankState 1) 4).cart, 0 ≤ item.quantity) ∧
      11 * ((((addToCart (addToCart blankState 1) 4).cart.length : Int) + 6) *
        (subtotalCents (addToCart (addToCart blankState 1) 4).cart + 1)) ≤ 2 ^ 52 ∧
      subtotalCents (addToCart (addToCart blankState 1) 4).cart = 10998 ∧
      (updateCartSummary (addToCart (addToCart blankState 1) 4)).cartSubtotal = "$109.98" ∧
      (updateCartSummary (addToCart (addToCart blankState 1) 4)).cartTax = "$11.00" ∧
      (updateCartSummary (addToCart (addToCart blankState 1) 4)).cartTotal = "$120.98" := by
  have hq : ∀ item ∈ (addToCart (addToCart blankState 1) 4).cart, 0 ≤ item.quantity := by
    set_option maxRecDepth 100000 in decide
  have hb : 11 * ((((addToCart (addToCart blankState 1) 4).cart.length : Int) + 6) *
      (subtotalCents (addToCart (addToCart blankState 1) 4).cart + 1)) ≤ 2 ^ 52 := by
    set_option maxRecDepth 100000 in decide
  have hC : subtotalCents (addToCart (addToCart blankState 1) 4).cart = 10998 := by
    set_option maxRecDepth 100000 in decide
  have h := summary_in_binary64 (addToCart (addToCart blankState 1) 4) hq hb
  obtain ⟨_, _, h3, h4, _⟩ := h
  have h5 := h4 (by rw [hC]; decide)
  rw [specSubtotal_thousandths, hC, moneyText_thousandths] at h3
  rw [specTax_thousandths, specTotal_thousandths, hC, moneyText_thousandths,
    moneyText_thousandths] at h5
  refine ⟨hq, hb, hC, ?_, ?_, ?_⟩
  · rw [h3]
    set_option maxRecDepth 100000 in decide
  · rw [h5.1]
    set_option maxRecDepth 100000 in decide
  · rw [h5.2]
    set_option maxRecDepth 100000 in decide

/-! ## Decimal digits: printing and reading -/

theorem toNat_digitChar (d : Nat) (h : d < 10) : (digitChar d).toNat = 48 + d := by
  unfold digitChar
  interval_cases d <;> rfl

theorem digitVal_digitChar (d : Nat) (h : d < 10) : digitVal (digitChar d) = some d := by
  unfold digitVal
  rw [toNat_digitChar d h, if_pos ⟨by omega, by omega⟩]
  simp

theorem natDigitsAux_fuel (n : Nat) :
    ∀ (fuel1 fuel2 : Nat) (acc : List Char), n < fuel1 → n < fuel2 →
      natDigitsAux fuel1 n acc = natDigitsAux fuel2 n [] ++ acc := by
  induction n using Nat.strong_induction_on with
  | _ n ih =>
    intro fuel1 fuel2 acc h1 h2
    cases fuel1 with
    | zero => omega
    | succ f1 =>
      cases fuel2 with
      | zero => omega
      | succ f2 =>
        by_cases hn : n < 10
        · simp [natDigitsAux, hn]
        · simp only [natDigitsAux, hn, if_false]
          have hd : n / 10 < n := Nat.div_lt_self (by omega) (by omega)
          rw [ih (n / 10) hd f1 f2 (digitChar (n % 10) :: acc) (by omega) (by omega),
            ih (n / 10) hd f2 f2 [digitChar (n % 10)] (by omega) (by omega)]
          simp

theorem natDigits_small (n : Nat) (h : n < 10) : natDigits n = [digitChar n] := by
  simp [natDigits, natDigitsAux, h]

theorem natDigits_step (n : Nat) (h : 10 ≤ n) :
    natDigits n = natDigits (n / 10) ++ [digitChar (n % 10)] := by
  have hn : ¬ n < 10 := by omega
  have hd : n / 10 < n := Nat.div_lt_self (by omega) (by omega)
  unfold natDigits
  simp only [natDigitsAux, hn, if_false]
  exact natDigitsAux_fuel (n / 10) n (n / 10 + 1) _ hd (by omega)

theorem parseDigits_natDigits (n : Nat) :
    ∀ (acc : Nat) (rest : List Char),
      parseDigits acc (natDigits n ++ rest) =
        parseDigits (acc * 10 ^ (natDigits n).length + n) rest := by
  induction n using Nat.strong_induction_on with
  | _ n ih =>
    intro acc rest
    by_cases hn : n < 10
    · rw [natDigits_small n hn]
      simp [parseDigits, digitVal_digitChar n hn]
    · rw [natDigits_step n (by omega)]
      have hd : n / 10 < n := Nat.div_lt_self (by omega) (by omega)
      rw [List.append_assoc, ih (n / 10) hd]
      simp only [List.singleton_append, parseDigits,
        digitVal_digitChar (n % 10) (Nat.mod_lt _ (by omega)), List.length_append,
        List.length_singleton, pow_succ]
      congr 1
      rw [← Nat.mul_assoc]
      generalize acc * 10 ^ (natDigits (n / 10)).length = a
      omega

theorem parseDigits_stop (acc : Nat) (rest : List Char) (h : startsWithDigit rest = false) :
    parseDigits acc rest = (acc, rest) := by
  cases rest with
  | nil => rfl
  | cons c cs =>
    simp only [startsWithDigit] at h
    cases hv : digitVal c with
    | none => simp [parseDigits, hv]
    | some d => simp [hv] at h

theorem natDigits_head (n : Nat) (h : 0 < n) :
    ∃ d cs, natDigits n = digitChar (d + 1) :: cs ∧ d + 1 < 10 := by
  induction n using Nat.strong_induction_on with
  | _ n ih =>
    by_cases hn : n < 10
    · exact ⟨n - 1, [], by rw [natDigits_small n hn]; congr 2; omega, by omega⟩
    · have hd : n / 10 < n := Nat.div_lt_self (by omega) (by omega)
      obtain ⟨d, cs, e, hlt⟩ := ih (n / 10) hd (Nat.div_pos (by omega) (by omega))
      exact ⟨d, cs ++ [digitChar (n % 10)], by rw [natDigits_step n (by omega), e]; rfl, hlt⟩

theorem parseNat_natDigits (n : Nat) (rest : List Char) (h : startsWithDigit rest = false) :
    parseNat (natDigits n ++ rest) = some (n, rest) := by
  by_cases hn : n = 0
  · subst hn
    have e : natDigits 0 = [digitChar 0] := natDigits_small 0 (by omega)
    rw [e]
    simp [parseNat, digitVal_digitChar 0 (by omega), h]
  · obtain ⟨d, cs, e, hlt⟩ := natDigits_head n (by omega)
    have key := parseDigits_natDigits n 0 rest
    rw [e] at key ⊢
    simp only [List.cons_append, parseDigits, digitVal_digitChar (d + 1) hlt, zero_mul,
      zero_add, List.append_eq] at key
    simp only [List.cons_append, parseNat, digitVal_digitChar (d + 1) hlt]
    rw [key, parseDigits_stop n rest h]

theorem continuesNumber_digit (rest : List Char) (h : continuesNumber rest = false) :
    startsWithDigit rest = false := by
  cases rest with
  | nil => rfl
  | cons c cs =>
    simp only [continuesNumber, Bool.or_eq_false_iff] at h
    simp [startsWithDigit, h.1.1.1]

theorem digitChar_ne_minus (d : Nat) (h : d < 10) : digitChar d ≠ '-' := by
  unfold digitChar
  interval_cases d <;> decide

theorem natDigits_head_ne_minus (n : Nat) :
    ∃ c cs, natDigits n = c :: cs ∧ c ≠ '-' := by
  by_cases hn : n = 0
  · subst hn
    exact ⟨digitChar 0, [], natDigits_small 0 (by omega), digitChar_ne_minus 0 (by omega)⟩
  · obtain ⟨d, cs, e, hlt⟩ := natDigits_head n (by omega)
    exact ⟨_, cs, e, digitChar_ne_minus _ hlt⟩

theorem parseInt_intChars (i : Int) (rest : List Char) (h : continuesNumber rest = false) :
    parseInt (intChars i ++ rest) = some (i, rest) := by
  have hd := continuesNumber_digit rest h
  unfold intChars
  by_cases hi : i < 0
  · simp only [hi, if_true, List.cons_append, parseInt, parseNat_natDigits _ rest hd,
      Option.map_some', h]
    simp only [Bool.false_eq_true, if_false]
    congr 2
    omega
  · obtain ⟨c, cs, e, hc⟩ := natDigits_head_ne_minus i.natAbs
    have hp := parseNat_natDigits i.natAbs rest hd
    rw [e] at hp
    simp only [hi, if_false, e, List.cons_append, parseInt, hc] at hp ⊢
    rw [hp]
    simp only [Option.map_some', h, Bool.false_eq_true, if_false]
    congr 2
    omega

theorem parsePrice_priceChars (c : Nat) (rest : List Char) (h : continuesNumber rest = false) :
    parsePrice (priceChars c ++ rest) = some (c, rest) := by
  have hd := continuesNumber_digit rest h
  have ha : c % 100 / 10 < 10 := by omega
  have hb : c % 10 < 10 := by omega
  unfold priceChars
  by_cases h0 : c % 100 = 0
  · simp only [h0, if_true, List.append_nil]
    unfold parsePrice
    rw [parseNat_natDigits _ rest hd]
    cases rest with
    | nil =>
      simp only [Option.some.injEq, Prod.mk.injEq, and_true]
      omega
    | cons ch t =>
      have hdot : ch ≠ '.' := by
        intro e
        subst e
        simp [continuesNumber] at h
      simp only [hdot, if_false, h, Bool.false_eq_true, Option.some.injEq, Prod.mk.injEq,
        and_true]
      omega
  · by_cases h1 : c % 10 = 0
    · simp only [h0, h1, if_true, if_false, List.append_assoc, List.cons_append,
        List.nil_append]
      unfold parsePrice
      rw [parseNat_natDigits _ _ (by simp [startsWithDigit, digitVal])]
      simp only [if_true, digitVal_digitChar _ ha]
      cases rest with
      | nil =>
        simp only [Option.some.injEq, Prod.mk.injEq, and_true]
        omega
      | cons d2 rest2 =>
        have hv : digitVal d2 = none := by
          simp only [startsWithDigit] at hd
          cases hv : digitVal d2 with
          | none => rfl
          | some x => simp [hv] at hd
        simp only [hv, h, Bool.false_eq_true, if_false, Option.some.injEq, Prod.mk.injEq,
          and_true]
        omega
    · simp only [h0, h1, if_false, List.append_assoc, List.cons_append, List.nil_append]
      unfold parsePrice
      rw [parseNat_natDigits _ _ (by simp [startsWithDigit, digitVal])]
      simp only [if_true, digitVal_digitChar _ ha, digitVal_digitChar _ hb, h,
        Bool.false_eq_true, if_false, Option.some.injEq, Prod.mk.injEq, and_true]
      omega

/-! ## Strings: quoting and reading -/

theorem hexVal_hexChar (d : Nat) (h : d < 16) : hexVal (hexChar d) = some d := by
  interval_cases d <;> rfl

theorem char_of_toNat (c : Char) (n : Nat) (h : c.toNat = n) : c = Char.ofNat n := by
  rw [← h, Char.ofNat_toNat]

theorem parseStringBody_escape (c : Char) (fuel : Nat) (tail : List Char) :
    parseStringBody (fuel + 1) (escapeChar c ++ tail) = consChar c (parseStringBody fuel tail) := by
  have b1 : bs ≠ dq := by decide
  have b2 : dq ≠ 'u' := by decide
  have b3 : bs ≠ 'u' := by decide
  by_cases h1 : c = dq
  · subst h1
    simp [escapeChar, parseStringBody, unescape, b1, b2]
  by_cases h2 : c = bs
  · subst h2
    simp [escapeChar, parseStringBody, unescape, b1, b3]
  by_cases h3 : c.toNat = 8
  · have hc := char_of_toNat c 8 h3
    subst hc
    simp only [escapeChar, h1, h2, if_false, List.cons_append, List.nil_append, parseStringBody,
      b1]
    rfl
  by_cases h4 : c.toNat = 12
  · have hc := char_of_toNat c 12 h4
    subst hc
    simp only [escapeChar, h1, h2, h3, if_false, List.cons_append, List.nil_append,
      parseStringBody, b1]
    rfl
  by_cases h5 : c.toNat = 10
  · have hc := char_of_toNat c 10 h5
    subst hc
    simp only [escapeChar, h1, h2, h3, h4, if_false, List.cons_append, List.nil_append,
      parseStringBody, b1]
    rfl
  by_cases h6 : c.toNat = 13
  · have hc := char_of_toNat c 13 h6
    subst hc
    simp only [escapeChar, h1, h2, h3, h4, h5, if_false, List.cons_append, List.nil_append,
      parseStringBody, b1]
    rfl
  by_cases h7 : c.toNat = 9
  · have hc := char_of_toNat c 9 h7
    subst hc
    simp only [escapeChar, h1, h2, h3, h4, h5, h6, if_false, List.cons_append,
      List.nil_append, parseStringBody, b1]
    rfl
  by_cases h8 : c.toNat < 32
  · have e0 : hexVal '0' = some 0 := rfl
    have e1 := hexVal_hexChar (c.toNat / 16) (by omega)
    have e2 := hexVal_hexChar (c.toNat % 16) (by omega)
    have ec : ((0 * 16 + 0) * 16 + c.toNat / 16) * 16 + c.toNat % 16 = c.toNat := by omega
    have hs : ¬ (55296 ≤ c.toNat ∧ c.toNat < 57344) := by omega
    simp only [escapeChar, h1, h2, h3, h4, h5, h6, h7, h8, if_false, if_true, List.cons_append,
      List.nil_append, parseStringBody, b1, e0, e1, e2, ec, hs, Char.ofNat_toNat]
  · simp only [escapeChar, h1, h2, h3, h4, h5, h6, h7, h8, if_false, List.cons_append,
      List.nil_append, parseStringBody]

theorem parseStringBody_quoted (cs : List Char) :
    ∀ (fuel : Nat) (rest : List Char), cs.length < fuel →
      parseStringBody fuel (escapeAll cs ++ dq :: rest) = some (cs, rest) := by
  induction cs with
  | nil =>
    intro fuel rest h
    cases fuel with
    | zero => simp at h
    | succ f => simp [escapeAll, parseStringBody]
  | cons c cs ih =>
    intro fuel rest h
    cases fuel with
    | zero => simp at h
    | succ f =>
      simp only [escapeAll, List.append_assoc]
      rw [parseStringBody_escape, ih f rest (by simpa using h)]
      rfl

theorem length_escapeChar (c : Char) : 1 ≤ (escapeChar c).length := by
  unfold escapeChar
  repeat' split
  all_goals simp

theorem length_escapeAll (cs : List Char) : cs.length ≤ (escapeAll cs).length := by
  induction cs with
  | nil => simp [escapeAll]
  | cons c cs ih =>
    have := length_escapeChar c
    simp only [escapeAll, List.length_cons, List.length_append]
    omega

theorem parseString_quote (s : String) (rest : List Char) :
    parseString (quote s ++ rest) = some (s, rest) := by
  unfold quote parseString
  simp only [List.cons_append, List.append_assoc, List.singleton_append, List.nil_append,
    if_true]
  rw [parseStringBody_quoted s.data _ rest (by
    have := length_escapeAll s.data
    simp only [List.length_append, List.length_cons]
    omega)]

/-! ## Line items and carts: reading back the written text -/

theorem expect_append (lit rest : List Char) : expect lit (lit ++ rest) = some rest := by
  induction lit with
  | nil => rfl
  | cons c cs ih => simp [expect, ih]

theorem parseItem_itemChars (item : CartItem) (rest : List Char) :
    parseItem (itemChars item ++ rest) = some (item, rest) := by
  unfold parseItem itemChars
  simp only [List.append_assoc]
  rw [expect_append]
  simp only [Option.some_bind]
  rw [parseInt_intChars _ _ (by rfl)]
  simp only [Option.some_bind]
  rw [expect_append]
  simp only [Option.some_bind]
  rw [parseString_quote]
  simp only [Option.some_bind]
  rw [expect_append]
  simp only [Option.some_bind]
  rw [parsePrice_priceChars _ _ (by rfl)]
  simp only [Option.some_bind]
  rw [expect_append]
  simp only [Option.some_bind]
  rw [parseString_quote]
  simp only [Option.some_bind]
  rw [expect_append]
  simp only [Option.some_bind]
  rw [parseInt_intChars _ _ (by rfl)]
  simp only [Option.some_bind]
  rw [expect_append]
  simp only [Option.some_bind]

theorem parseItems_itemsChars (cart : List CartItem) :
    ∀ (fuel : Nat), cart ≠ [] → cart.length ≤ fuel →
      parseItems fuel (itemsChars cart) = some cart := by
  induction cart with
  | nil => intro fuel h; exact absurd rfl h
  | cons item rest ih =>
    intro fuel _ hf
    cases fuel with
    | zero => simp at hf
    | succ f =>
      cases rest with
      | nil =>
        simp only [itemsChars, parseItems, parseItem_itemChars]
        simp
      | cons next more =>
        simp only [itemsChars, parseItems, parseItem_itemChars, if_true]
        rw [ih f (by simp) (by simpa using hf)]
        rfl

theorem length_itemsChars (cart : List CartItem) : cart.length ≤ (itemsChars cart).length := by
  induction cart with
  | nil => simp
  | cons item rest ih =>
    cases rest with
    | nil => simp [itemsChars]
    | cons next more =>
      simp only [itemsChars, List.length_append, List.length_cons] at ih ⊢
      omega

theorem itemsChars_cons_ne (item : CartItem) (rest : List CartItem) :
    itemsChars (item :: rest) ≠ [']'] := by
  have hl : lbrace ≠ ']' := by decide
  cases rest with
  | nil =>
    simp only [itemsChars, itemChars, kId, List.cons_append]
    intro h
    exact hl (List.cons.inj h).1
  | cons next more =>
    simp only [itemsChars, itemChars, kId, List.cons_append]
    intro h
    exact hl (List.cons.inj h).1

theorem parse_stringify (cart : List CartItem) :
    JSON.parse (JSON.stringify cart) = some cart := by
  unfold JSON.parse JSON.stringify
  cases cart with
  | nil => simp [itemsChars]
  | cons item rest =>
    simp only [if_true, itemsChars_cons_ne, if_false]
    exact parseItems_itemsChars (item :: rest) _ (by simp)
      (by have := length_itemsChars (item :: rest); omega)

theorem stringify_ne_empty (cart : List CartItem) : JSON.stringify cart ≠ "" := by
  unfold JSON.stringify
  intro h
  have := congrArg String.data h
  simp at this

theorem load_of_saved (t : State) (cart : List CartItem)
    (h : t.storage = some (JSON.stringify cart)) :
    loadCartFromStorage t = some (updateCart { t with cart := cart }) := by
  unfold loadCartFromStorage
  rw [h]
  simp only [stringify_ne_empty, if_false, parse_stringify]

/-- C7: save followed by load is the identity on carts.  For every cart (line items with
the fields `id, name, price, icon, quantity`), `JSON.parse` reads back from the text
`saveCartToStorage` writes exactly the saved cart: loading right after saving, or loading
on a page whose storage holds what save wrote, yields a cart equal to the saved one (same
line items, same order, same quantities).  Loading when the key `"cart"` is absent changes
nothing, so the empty cart of a fresh page stays empty. -/
theorem save_load_roundtrip (s : State) :
    JSON.parse (JSON.stringify s.cart) = some s.cart ∧
      (∃ t, loadCartFromStorage (saveCartToStorage s) = some t ∧ t.cart = s.cart) ∧
      (∀ t0 : State, t0.storage = (saveCartToStorage s).storage →
        ∃ t, loadCartFromStorage t0 = some t ∧ t.cart = s.cart) ∧
      (∀ t0 : State, t0.storage = none → loadCartFromStorage t0 = some t0) ∧
      (loadCartFromStorage blankState).map State.cart = some [] := by
  refine ⟨parse_stringify s.cart, ?_, ?_, ?_, rfl⟩
  · exact ⟨_, load_of_saved (saveCartToStorage s) s.cart rfl, by simp⟩
  · intro t0 h
    exact ⟨_, load_of_saved t0 s.cart h, by simp⟩
  · intro t0 h
    unfold loadCartFromStorage
    rw [h]

namespace B64

/-! ## Binary64 rounding of integers -/

theorem le_roundHalfEven (n d : Nat) : n / d ≤ roundHalfEven n d := by
  unfold roundHalfEven
  simp only []
  split
  · exact le_refl _
  · split
    · omega
    · split
      · exact le_refl _
      · omega

theorem roundNat_small (a : Nat) (h : a ≤ 2 ^ 53) : roundNat a = a := by
  unfold roundNat
  rw [if_pos h]

theorem roundNat_pos (a : Nat) (h : 0 < a) : 0 < roundNat a := by
  unfold roundNat
  split
  · exact h
  · have hle : 2 ^ (log2 a - 52) ≤ a :=
      le_trans (Nat.pow_le_pow_right (by omega) (Nat.sub_le _ _)) (pow_log2_le a h)
    have hpos : 0 < 2 ^ (log2 a - 52) := Nat.two_pow_pos _
    have h1 : 1 ≤ a / 2 ^ (log2 a - 52) := (Nat.one_le_div_iff hpos).mpr hle
    have h2 := le_roundHalfEven a (2 ^ (log2 a - 52))
    exact Nat.mul_pos (by omega) hpos

set_option exponentiation.threshold 2048 in
theorem roundInt_small (v : Int) (h : v.natAbs ≤ 2 ^ 53) : roundInt v = JsNum.int v := by
  unfold roundInt
  rw [roundNat_small _ h]
  have hlt : ¬ (2 ^ 1024 ≤ v.natAbs) := by
    have h2 : (2 : Nat) ^ 53 < 2 ^ 1024 := Nat.pow_lt_pow_right (by omega) (by omega)
    exact not_le.mpr (lt_of_le_of_lt h h2)
  rw [if_neg hlt]
  congr 1
  split <;> omega

set_option exponentiation.threshold 2048 in
theorem leZero_roundInt (v : Int) : (roundInt v).leZero = decide (v ≤ 0) := by
  unfold roundInt
  by_cases h0 : v = 0
  · subst h0
    have h1 : roundNat (0 : Int).natAbs = 0 := rfl
    have h2 : ¬ ((2 : Nat) ^ 1024 ≤ 0) := not_le.mpr (Nat.two_pow_pos _)
    rw [h1, if_neg h2]
    rfl
  · have hpos : 0 < roundNat v.natAbs := roundNat_pos _ (Int.natAbs_pos.mpr h0)
    split
    · simp only [JsNum.leZero]
      congr 1
      apply propext
      constructor <;> intro h <;> omega
    · simp only [JsNum.leZero]
      congr 1
      apply propext
      split <;> constructor <;> intro h <;> omega

theorem add_int_int (x y : Int) : (JsNum.int x).add (JsNum.int y) = roundInt (x + y) := rfl

theorem add_int_small (x y : Int) (h : (x + y).natAbs ≤ 2 ^ 53) :
    (JsNum.int x).add (JsNum.int y) = JsNum.int (x + y) := by
  rw [add_int_int, roundInt_small _ h]

/-! ## Projections of the display and storage steps (binary64 quantities) -/

@[simp] theorem showToast_cart_b64 (s : State) (m : String) : (showToast s m).cart = s.cart := rfl

@[simp] theorem showToast_storage_b64 (s : State) (m : String) :
    (showToast s m).storage = s.storage := rfl

@[simp] theorem showToast_setItemCalls_b64 (s : State) (m : String) :
    (showToast s m).setItemCalls = s.setItemCalls := rfl

@[simp] theorem showToast_toasts_b64 (s : State) (m : String) :
    (showToast s m).toasts = s.toasts ++ [m] := rfl

@[simp] theorem showToast_cartCount_b64 (s : State) (m : String) :
    (showToast s m).cartCount = s.cartCount := rfl

@[simp] theorem saveCartToStorage_cart_b64 (s : State) :
    (saveCartToStorage s).cart = s.cart := rfl

@[simp] theorem saveCartToStorage_storage_b64 (s : State) :
    (saveCartToStorage s).storage = some (JSON.stringify s.cart) := rfl

@[simp] theorem saveCartToStorage_setItemCalls_b64 (s : State) :
    (saveCartToStorage s).setItemCalls = s.setItemCalls + 1 := rfl

@[simp] theorem saveCartToStorage_toasts_b64 (s : State) :
    (saveCartToStorage s).toasts = s.toasts := rfl

@[simp] theorem saveCartToStorage_cartCount_b64 (s : State) :
    (saveCartToStorage s).cartCount = s.cartCount := rfl

@[simp] theorem closeCart_cart_b64 (s : State) : (closeCart s).cart = s.cart := rfl

@[simp] theorem closeCart_storage_b64 (s : State) : (closeCart s).storage = s.storage := rfl

@[simp] theorem closeCart_setItemCalls_b64 (s : State) :
    (closeCart s).setItemCalls = s.setItemCalls := rfl

@[simp] theorem updateCartItems_cart_b64 (s : State) : (updateCartItems s).cart = s.cart := by
  unfold updateCartItems
  split <;> rfl

@[simp] theorem updateCartItems_cartCount_b64 (s : State) :
    (updateCartItems s).cartCount = s.cartCount := by
  unfold updateCartItems
  split <;> rfl

@[simp] theorem updateCartItems_storage_b64 (s : State) :
    (updateCartItems s).storage = s.storage := by
  unfold updateCartItems
  split <;> rfl

@[simp] theorem updateCartItems_setItemCalls_b64 (s : State) :
    (updateCartItems s).setItemCalls = s.setItemCalls := by
  unfold updateCartItems
  split <;> rfl

@[simp] theorem updateCartItems_toasts_b64 (s : State) :
    (updateCartItems s).toasts = s.toasts := by
  unfold updateCartItems
  split <;> rfl

@[simp] theorem updateCart_cart_b64 (s : State) : (updateCart s).cart = s.cart := by
  simp [updateCart, updateCartSummary, updateCartCount]

@[simp] theorem updateCart_storage_b64 (s : State) : (updateCart s).storage = s.storage := by
  simp [updateCart, updateCartSummary, updateCartCount]

@[simp] theorem updateCart_setItemCalls_b64 (s : State) :
    (updateCart s).setItemCalls = s.setItemCalls := by
  simp [updateCart, updateCartSummary, updateCartCount]

@[simp] theorem updateCart_toasts_b64 (s : State) : (updateCart s).toasts = s.toasts := by
  simp [updateCart, updateCartSummary, updateCartCount]

@[simp] theorem updateCart_cartCount_b64 (s : State) :
    (updateCart s).cartCount = itemCount s.cart := by
  simp [updateCart, updateCartSummary, updateCartCount]

/-! ## The cart after each operation (binary64 quantities) -/

theorem addToCart_cart_b64 (s : State) (productId : Int) :
    (addToCart s productId).cart =
      match products.find? (fun p => decide (p.id = productId)) with
      | none => s.cart
      | some product =>
        match s.cart.find? (fun item => decide (item.id = productId)) with
        | some _ => bumpFirst productId (JsNum.int 1) s.cart
        | none =>
          s.cart ++ [⟨product.id, product.name, product.price, product.icon, JsNum.int 1⟩] := by
  cases hf : products.find? (fun p => decide (p.id = productId)) with
  | none => simp [addToCart, hf]
  | some product =>
    simp only [addToCart, hf, showToast_cart_b64, saveCartToStorage_cart_b64, updateCart_cart_b64]

theorem removeFromCart_cart_b64 (s : State) (productId : Int) :
    (removeFromCart s productId).cart =
      s.cart.filter (fun item => decide (item.id ≠ productId)) := by
  simp [removeFromCart]

theorem filter_bumpFirst_b64 (productId : Int) (change : JsNum) (cart : List Item) :
    (bumpFirst productId change cart).filter (fun item => decide (item.id ≠ productId)) =
      cart.filter (fun item => decide (item.id ≠ productId)) := by
  induction cart with
  | nil => rfl
  | cons item rest ih =>
    by_cases h : item.id = productId
    · simp [bumpFirst, h, List.filter_cons]
    · simpa [bumpFirst, h, List.filter_cons] using ih

theorem bumpFirst_split_b64 (productId : Int) (change : JsNum) (cart : List Item) (item : Item)
    (hf : cart.find? (fun x => decide (x.id = productId)) = some item) :
    ∃ pre post, cart = pre ++ item :: post ∧ (∀ x ∈ pre, x.id ≠ productId) ∧
      bumpFirst productId change cart =
        pre ++ ⟨item.id, item.name, item.price, item.icon, item.quantity.add change⟩ :: post := by
  induction cart with
  | nil => simp at hf
  | cons y rest ih =>
    by_cases hy : y.id = productId
    · have hyi : y = item := by simpa [List.find?_cons, hy] using hf
      subst hyi
      exact ⟨[], rest, rfl, by simp, by simp [bumpFirst, hy]⟩
    · have hf2 : rest.find? (fun x => decide (x.id = productId)) = some item := by
        simpa [List.find?_cons, hy] using hf
      obtain ⟨pre, post, e, hpre, hb⟩ := ih hf2
      refine ⟨y :: pre, post, by rw [e]; rfl, ?_, ?_⟩
      · intro x hx
        rcases List.mem_cons.mp hx with hx | hx
        · rw [hx]
          exact hy
        · exact hpre x hx
      · simp [bumpFirst, hy, hb]

theorem find_id_b64 (productId : Int) (cart : List Item) (item : Item)
    (hf : cart.find? (fun x => decide (x.id = productId)) = some item) :
    item.id = productId := by
  have := List.find?_some hf
  simpa using this

theorem find_of_exists_b64 (productId : Int) (cart : List Item)
    (h : ∃ x ∈ cart, x.id = productId) :
    ∃ item, cart.find? (fun x => decide (x.id = productId)) = some item := by
  cases hf : cart.find? (fun x => decide (x.id = productId)) with
  | some item => exact ⟨item, rfl⟩
  | none =>
    obtain ⟨x, hx, hid⟩ := h
    have := List.find?_eq_none.mp hf x hx
    simp [hid] at this

theorem add_one_exact (q : Int) (h1 : -(2 ^ 53) ≤ q) (h2 : q < 2 ^ 53) :
    (JsNum.int q).add (JsNum.int 1) = JsNum.int (q + 1) := by
  apply add_int_small
  omega

/-! ## Insertion order (binary64 quantities) -/

set_option maxRecDepth 100000 in
set_option exponentiation.threshold 2048 in
theorem addToCart_quantity_not_greater_aux :
    (updateQuantity (addToCart blankState 1) 1 (JsNum.int (2 ^ 53 - 1))).cart =
        [⟨1, "Wireless Headphones", 7999, "🎧", JsNum.int 9007199254740992⟩] ∧
      (addToCart (updateQuantity (addToCart blankState 1) 1 (JsNum.int (2 ^ 53 - 1))) 1).cart =
        [⟨1, "Wireless Headphones", 7999, "🎧", JsNum.int 9007199254740992⟩] := by
  decide

/-- C11, refuted as stated: on the cart reached by `addToCart(1)` and
`updateQuantity(1, 2^53 - 1)`, whose line item has quantity `2^53`, `addToCart(1)` leaves
the quantity at `2^53` (the binary64 sum `2^53 + 1` rounds to `2^53`): it is not one
greater. -/
theorem addToCart_quantity_not_greater :
    (updateQuantity (addToCart blankState 1) 1 (JsNum.int (2 ^ 53 - 1))).cart =
        [⟨1, "Wireless Headphones", 7999, "🎧", JsNum.int 9007199254740992⟩] ∧
      (addToCart (updateQuantity (addToCart blankState 1) 1 (JsNum.int (2 ^ 53 - 1))) 1).cart =
        [⟨1, "Wireless Headphones", 7999, "🎧", JsNum.int 9007199254740992⟩] ∧
      (addToCart (updateQuantity (addToCart blankState 1) 1 (JsNum.int (2 ^ 53 - 1))) 1).cart ≠
        [⟨1, "Wireless Headphones", 7999, "🎧", JsNum.int (9007199254740992 + 1)⟩] := by
  refine ⟨addToCart_quantity_not_greater_aux.1, addToCart_quantity_not_greater_aux.2, ?_⟩
  rw [addToCart_quantity_not_greater_aux.2]
  decide

/-- C11, amended: insertion order is kept by `addToCart`.  For every cart and every
catalog product `p`: if no line item has the id of `p`, the resulting cart is the original
sequence followed by one new last line item with the id, name, price and icon of `p` and
quantity 1; if a line item with that id exists, the resulting cart has the same line
items in the same positions, except that the quantity of that line item (the first with
that id) is the binary64 sum of its quantity and 1, which is one greater whenever the
quantity is an integer `q` with `-2^53 ≤ q < 2^53`. -/
theorem addToCart_keeps_order_b64 (s : State) (p : Product) (hp : p ∈ products) :
    ((∀ x ∈ s.cart, x.id ≠ p.id) →
        (addToCart s p.id).cart =
          s.cart ++ [⟨p.id, p.name, p.price, p.icon, JsNum.int 1⟩]) ∧
      ((∃ x ∈ s.cart, x.id = p.id) →
        ∃ pre item post, s.cart = pre ++ item :: post ∧ item.id = p.id ∧
          (∀ x ∈ pre, x.id ≠ p.id) ∧
          (addToCart s p.id).cart =
            pre ++ ⟨item.id, item.name, item.price, item.icon,
              item.quantity.add (JsNum.int 1)⟩ :: post ∧
          (∀ q : Int, item.quantity = JsNum.int q → -(2 ^ 53) ≤ q → q < 2 ^ 53 →
            (addToCart s p.id).cart =
              pre ++ ⟨item.id, item.name, item.price, item.icon, JsNum.int (q + 1)⟩ :: post)) := by
  have hprod := find_product_of_mem p hp
  constructor
  · intro h
    have hf : s.cart.find? (fun x => decide (x.id = p.id)) = none := by
      apply List.find?_eq_none.mpr
      intro x hx
      simpa using h x hx
    rw [addToCart_cart_b64, hprod, hf]
  · intro h
    obtain ⟨item, hf⟩ := find_of_exists_b64 p.id s.cart h
    obtain ⟨pre, post, e, hpre, hb⟩ := bumpFirst_split_b64 p.id (JsNum.int 1) s.cart item hf
    have hc : (addToCart s p.id).cart =
        pre ++ ⟨item.id, item.name, item.price, item.icon,
          item.quantity.add (JsNum.int 1)⟩ :: post := by
      rw [addToCart_cart_b64, hprod, hf]
      exact hb
    refine ⟨pre, item, post, e, find_id_b64 p.id s.cart item hf, hpre, hc, ?_⟩
    intro q hq h1 h2
    rw [hc, hq, add_one_exact q h1 h2]

theorem addToCart_keeps_order_b64_witness :
    (⟨2, "Smart Watch", 19999, "Fitness tracking, heart rate monitor, and notifications",
        "⌚"⟩ : Product) ∈ products ∧
      (∀ x ∈ (addToCart blankState 1).cart, x.id ≠ 2) ∧
      (addToCart (addToCart blankState 1) 2).cart =
        (addToCart blankState 1).cart ++ [⟨2, "Smart Watch", 19999, "⌚", JsNum.int 1⟩] :=
  ⟨by decide, by decide,
    (addToCart_keeps_order_b64 (addToCart blankState 1)
      ⟨2, "Smart Watch", 19999, "Fitness tracking, heart rate monitor, and notifications", "⌚"⟩
      (by decide)).1 (by decide)⟩

/-! ## Updating a quantity against removing (binary64 quantities) -/

theorem updateQuantity_removes_b64 (s : State) (productId : Int) (change : JsNum) (item : Item)
    (hf : s.cart.find? (fun x => decide (x.id = productId)) = some item)
    (hq : (item.quantity.add change).leZero = true) :
    updateQuantity s productId change = removeFromCart s productId := by
  unfold updateQuantity
  rw [hf]
  simp only [hq, if_true]
  unfold removeFromCart
  simp only []
  rw [filter_bumpFirst_b64]

theorem updateQuantity_keeps_b64 (s : State) (productId : Int) (change : JsNum) (item : Item)
    (hf : s.cart.find? (fun x => decide (x.id = productId)) = some item)
    (hq : (item.quantity.add change).leZero = false) :
    (updateQuantity s productId change).cart = bumpFirst productId change s.cart := by
  unfold updateQuantity
  rw [hf]
  simp [hq]

/-- C12, refuted as stated: on the cart reached by `addToCart(1)`, whose line item has
quantity `q = 1`, `updateQuantity(1, 2^53)` gives the quantity `2^53`, not
`q + delta = 2^53 + 1` (the binary64 sum rounds). -/
theorem updateQuantity_sum_rounds :
    (addToCart blankState 1).cart = [⟨1, "Wireless Headphones", 7999, "🎧", JsNum.int 1⟩] ∧
      (updateQuantity (addToCart blankState 1) 1 (JsNum.int (2 ^ 53))).cart =
        [⟨1, "Wireless Headphones", 7999, "🎧", JsNum.int 9007199254740992⟩] ∧
      (updateQuantity (addToCart blankState 1) 1 (JsNum.int (2 ^ 53))).cart ≠
        [⟨1, "Wireless Headphones", 7999, "🎧", JsNum.int (1 + 2 ^ 53)⟩] := by
  set_option maxRecDepth 100000 in
  set_option exponentiation.threshold 2048 in
  decide

/-- C12, amended: for every cart containing a line item with id `p` (`item`, the one
`cart.find` returns; with unique ids it is the only line item with that id) whose quantity
is an integer `q`, and every integer `delta`: when `q + delta ≤ 0`, `updateQuantity(p,
delta)` and `removeFromCart(p)` return the same state, hence the same cart, the same
stored snapshot and the same toast (`Item removed from cart`); when `q + delta > 0` the
resulting cart is the original one except that the quantity of that line item is the
binary64 sum of `q` and `delta`, which is `q + delta` whenever `q + delta ≤ 2^53`. -/
theorem updateQuantity_or_remove_b64 (s : State) (p q delta : Int) (item : Item)
    (hf : s.cart.find? (fun x => decide (x.id = p)) = some item)
    (hq : item.quantity = JsNum.int q) :
    (item ∈ s.cart ∧ item.id = p) ∧
      ((s.cart.map Item.id).Nodup → ∀ x ∈ s.cart, x.id = p → x = item) ∧
      (q + delta ≤ 0 →
        updateQuantity s p (JsNum.int delta) = removeFromCart s p ∧
          (updateQuantity s p (JsNum.int delta)).cart = (removeFromCart s p).cart ∧
          (updateQuantity s p (JsNum.int delta)).storage = (removeFromCart s p).storage ∧
          (updateQuantity s p (JsNum.int delta)).toasts = (removeFromCart s p).toasts ∧
          (updateQuantity s p (JsNum.int delta)).toasts =
            s.toasts ++ ["Item removed from cart"]) ∧
      (0 < q + delta →
        ∃ pre post, s.cart = pre ++ item :: post ∧ (∀ x ∈ pre, x.id ≠ p) ∧
          (updateQuantity s p (JsNum.int delta)).cart =
            pre ++ ⟨item.id, item.name, item.price, item.icon, roundInt (q + delta)⟩ :: post ∧
          (q + delta ≤ 2 ^ 53 →
            (updateQuantity s p (JsNum.int delta)).cart =
              pre ++ ⟨item.id, item.name, item.price, item.icon, JsNum.int (q + delta)⟩ ::
                post)) := by
  have hmem : item ∈ s.cart := List.mem_of_find?_eq_some hf
  have hid : item.id = p := find_id_b64 p s.cart item hf
  have hsum : item.quantity.add (JsNum.int delta) = roundInt (q + delta) := by
    rw [hq, add_int_int]
  refine ⟨⟨hmem, hid⟩, ?_, ?_, ?_⟩
  · intro hnd x hx hxid
    exact List.inj_on_of_nodup_map hnd hx hmem (by rw [hxid, hid])
  · intro hle
    have hz : (item.quantity.add (JsNum.int delta)).leZero = true := by
      rw [hsum, leZero_roundInt]
      exact decide_eq_true hle
    have e := updateQuantity_removes_b64 s p (JsNum.int delta) item hf hz
    refine ⟨e, by rw [e], by rw [e], by rw [e], ?_⟩
    rw [e]
    simp [removeFromCart]
  · intro hpos
    have hz : (item.quantity.add (JsNum.int delta)).leZero = false := by
      rw [hsum, leZero_roundInt]
      exact decide_eq_false (by omega)
    obtain ⟨pre, post, e, hpre, hb⟩ := bumpFirst_split_b64 p (JsNum.int delta) s.cart item hf
    have hc : (updateQuantity s p (JsNum.int delta)).cart =
        pre ++ ⟨item.id, item.name, item.price, item.icon, roundInt (q + delta)⟩ :: post := by
      rw [updateQuantity_keeps_b64 s p (JsNum.int delta) item hf hz, hb, hsum]
    refine ⟨pre, post, e, hpre, hc, ?_⟩
    intro hsmall
    rw [hc, roundInt_small (q + delta) (by omega)]

theorem updateQuantity_or_remove_b64_witness :
    (addToCart (addToCart blankState 1) 2).cart.find? (fun x => decide (x.id = 1)) =
        some ⟨1, "Wireless Headphones", 7999, "🎧", JsNum.int 1⟩ ∧
      updateQuantity (addToCart (addToCart blankState 1) 2) 1 (JsNum.int (-1)) =
        removeFromCart (addToCart (addToCart blankState 1) 2) 1 ∧
      (updateQuantity (addToCart (addToCart blankState 1) 2) 1 (JsNum.int (-1))).cart =
        [⟨2, "Smart Watch", 19999, "⌚", JsNum.int 1⟩] :=
  ⟨by decide,
    ((updateQuantity_or_remove_b64 (addToCart (addToCart blankState 1) 2) 1 1 (-1)
      ⟨1, "Wireless Headphones", 7999, "🎧", JsNum.int 1⟩ (by decide) rfl).2.2.1
        (by decide)).1,
    by set_option maxRecDepth 100000 in
       set_option exponentiation.threshold 2048 in
       decide⟩

/-! ## Item count (binary64 quantities) -/

theorem absTotal_cons (item : Item) (rest : List Item) :
    absTotal (item :: rest) = item.quantity.value.natAbs + absTotal rest := by
  simp [absTotal]

theorem exactTotal_cons (item : Item) (rest : List Item) :
    exactTotal (item :: rest) = item.quantity.value + exactTotal rest := by
  simp [exactTotal]

theorem foldl_add_exact (cart : List Item) :
    ∀ acc : Int, (∀ item ∈ cart, ∃ v, item.quantity = JsNum.int v) →
      acc.natAbs + absTotal cart ≤ 2 ^ 53 →
      cart.foldl (fun sum item => sum.add item.quantity) (JsNum.int acc) =
        JsNum.int (acc + exactTotal cart) := by
  induction cart with
  | nil => intro acc _ _; simp [exactTotal]
  | cons item rest ih =>
    intro acc hall hb
    obtain ⟨v, hv⟩ := hall item (List.mem_cons_self _ _)
    rw [absTotal_cons, hv] at hb
    simp only [JsNum.value] at hb
    simp only [List.foldl_cons, hv]
    rw [add_int_small acc v (by omega),
      ih (acc + v) (fun x hx => hall x (List.mem_cons_of_mem _ hx)) (by omega),
      exactTotal_cons, hv]
    simp only [JsNum.value]
    congr 1
    omega

theorem itemCount_exact (cart : List Item)
    (hall : ∀ item ∈ cart, ∃ v, item.quantity = JsNum.int v) (hb : absTotal cart ≤ 2 ^ 53) :
    itemCount cart = JsNum.int (exactTotal cart) := by
  unfold itemCount
  rw [foldl_add_exact cart 0 hall (by simpa using hb)]
  simp

theorem bumpFirst_totals (productId : Int) (cart : List Item) (item : Item)
    (hf : cart.find? (fun x => decide (x.id = productId)) = some item)
    (hall : ∀ x ∈ cart, ∃ v, x.quantity = JsNum.int v) (hb : absTotal cart < 2 ^ 53) :
    (∀ x ∈ bumpFirst productId (JsNum.int 1) cart, ∃ v, x.quantity = JsNum.int v) ∧
      exactTotal (bumpFirst productId (JsNum.int 1) cart) = exactTotal cart + 1 ∧
      absTotal (bumpFirst productId (JsNum.int 1) cart) ≤ absTotal cart + 1 := by
  induction cart with
  | nil => simp at hf
  | cons y rest ih =>
    obtain ⟨v, hv⟩ := hall y (List.mem_cons_self _ _)
    rw [absTotal_cons, hv] at hb
    simp only [JsNum.value] at hb
    by_cases hy : y.id = productId
    · have hsum : (JsNum.int v).add (JsNum.int 1) = JsNum.int (v + 1) :=
        add_int_small v 1 (by omega)
      simp only [bumpFirst, hy, if_true, exactTotal_cons, absTotal_cons, hv, hsum, JsNum.value]
      refine ⟨?_, by omega, by omega⟩
      intro x hx
      rcases List.mem_cons.mp hx with hx | hx
      · exact ⟨v + 1, by rw [hx]⟩
      · exact hall x (List.mem_cons_of_mem _ hx)
    · have hf2 : rest.find? (fun x => decide (x.id = productId)) = some item := by
        simpa [List.find?_cons, hy] using hf
      obtain ⟨h1, h2, h3⟩ :=
        ih hf2 (fun x hx => hall x (List.mem_cons_of_mem _ hx)) (by omega)
      simp only [bumpFirst, hy, if_false, exactTotal_cons, absTotal_cons, hv, JsNum.value]
      refine ⟨?_, by omega, by omega⟩
      intro x hx
      rcases List.mem_cons.mp hx with hx | hx
      · exact ⟨v, by rw [hx, hv]⟩
      · exact h1 x hx

theorem absTotal_append_one (cart : List Item) (x : Item) :
    absTotal (cart ++ [x]) = absTotal cart + x.quantity.value.natAbs := by
  simp [absTotal]

theorem exactTotal_append_one (cart : List Item) (x : Item) :
    exactTotal (cart ++ [x]) = exactTotal cart + x.quantity.value := by
  simp [exactTotal]

theorem addToCart_totals (s : State) (productId : Int) (p : Product)
    (hp : products.find? (fun x => decide (x.id = productId)) = some p)
    (hall : ∀ x ∈ s.cart, ∃ v, x.quantity = JsNum.int v) (hb : absTotal s.cart < 2 ^ 53) :
    (∀ x ∈ (addToCart s productId).cart, ∃ v, x.quantity = JsNum.int v) ∧
      exactTotal (addToCart s productId).cart = exactTotal s.cart + 1 ∧
      absTotal (addToCart s productId).cart ≤ absTotal s.cart + 1 := by
  rw [addToCart_cart_b64, hp]
  cases hf : s.cart.find? (fun item => decide (item.id = productId)) with
  | some item => exact bumpFirst_totals productId s.cart item hf hall hb
  | none =>
    simp only [exactTotal_append_one, absTotal_append_one, JsNum.value]
    refine ⟨?_, by simp, by simp⟩
    intro x hx
    rcases List.mem_append.mp hx with hx | hx
    · exact hall x hx
    · rw [List.mem_singleton] at hx
      exact ⟨1, by rw [hx]⟩

theorem addToCart_invalid_b64 (s : State) (productId : Int)
    (h : products.find? (fun x => decide (x.id = productId)) = none) :
    addToCart s productId = s := by
  unfold addToCart
  rw [h]

theorem foldl_addToCart_totals (ids : List Int) :
    ∀ s : State, (∀ x ∈ s.cart, ∃ v, x.quantity = JsNum.int v) →
      absTotal s.cart +
          (ids.filter (fun i => products.any (fun p => decide (p.id = i)))).length ≤ 2 ^ 53 →
      (∀ x ∈ (ids.foldl addToCart s).cart, ∃ v, x.quantity = JsNum.int v) ∧
        exactTotal (ids.foldl addToCart s).cart =
          exactTotal s.cart +
            ((ids.filter (fun i => products.any (fun p => decide (p.id = i)))).length : Int) ∧
        absTotal (ids.foldl addToCart s).cart ≤
          absTotal s.cart +
            (ids.filter (fun i => products.any (fun p => decide (p.id = i)))).length := by
  induction ids with
  | nil => intro s hall _; simpa using hall
  | cons i rest ih =>
    intro s hall hb
    simp only [List.foldl_cons]
    rw [List.filter_cons, any_product_iff_find] at hb ⊢
    cases hf : products.find? (fun x => decide (x.id = i)) with
    | none =>
      rw [hf] at hb
      simp only [Option.isSome_none, Bool.false_eq_true, if_false] at hb ⊢
      rw [addToCart_invalid_b64 s i hf]
      exact ih s hall hb
    | some p =>
      rw [hf] at hb
      simp only [Option.isSome_some, if_true, List.length_cons] at hb ⊢
      obtain ⟨h1, h2, h3⟩ := addToCart_totals s i p hf hall (by omega)
      obtain ⟨k1, k2, k3⟩ := ih (addToCart s i) h1 (by omega)
      refine ⟨k1, ?_, by omega⟩
      rw [k2, h2]
      push_cast
      omega

/-! ### Repeated adds beyond the safe-integer range -/

set_option maxRecDepth 100000 in
set_option exponentiation.threshold 2048 in
theorem add_one_at_limit :
    (JsNum.int 9007199254740992).add (JsNum.int 1) = JsNum.int 9007199254740992 := by
  decide

theorem cart_after_repeats_b64 (s : State) (h : s.cart = []) (n : Nat) (hn : 1 ≤ n) :
    ((List.replicate n (1 : Int)).foldl addToCart s).cart =
      [⟨1, "Wireless Headphones", 7999, "🎧", JsNum.int (min (n : Int) 9007199254740992)⟩] := by
  have hp : products.find? (fun x => decide (x.id = 1)) =
      some ⟨1, "Wireless Headphones", 7999,
        "Premium noise-canceling headphones with 30-hour battery life", "🎧"⟩ := rfl
  induction n with
  | zero => omega
  | succ k ih =>
    rw [List.replicate_succ', List.foldl_append]
    simp only [List.foldl_cons, List.foldl_nil]
    by_cases hk : k = 0
    · subst hk
      simp only [List.replicate_zero, List.foldl_nil]
      rw [addToCart_cart_b64, hp, h]
      rfl
    · have h1 := ih (by omega)
      rw [addToCart_cart_b64, hp, h1]
      simp only [List.find?_cons, decide_True, bumpFirst, if_true]
      by_cases hlt : (k : Int) < 9007199254740992
      · have e1 : min (k : Int) 9007199254740992 = k := min_eq_left (le_of_lt hlt)
        have e2 : min ((k + 1 : Nat) : Int) 9007199254740992 = (k : Int) + 1 := by
          rw [min_eq_left (by push_cast; omega)]
          push_cast
          rfl
        rw [e1, e2, add_int_small _ _ (by omega)]
      · have e1 : min (k : Int) 9007199254740992 = 9007199254740992 :=
          min_eq_right (by omega)
        have e2 : min ((k + 1 : Nat) : Int) 9007199254740992 = 9007199254740992 :=
          min_eq_right (by push_cast; omega)
        rw [e1, e2, add_one_at_limit]

theorem addToCart_badge_b64 (t : State) (productId : Int) (p : Product)
    (hf : products.find? (fun x => decide (x.id = productId)) = some p) :
    (addToCart t productId).cartCount = itemCount (addToCart t productId).cart := by
  unfold addToCart
  rw [hf]
  simp

set_option maxRecDepth 100000 in
set_option exponentiation.threshold 2048 in
theorem itemCount_at_limit :
    itemCount [⟨1, "Wireless Headphones", 7999, "🎧", JsNum.int 9007199254740992⟩] =
      JsNum.int 9007199254740992 := by
  decide

/-- C1, refuted as stated, at two inputs.  On the cart reached by `addToCart(1)` and
`updateQuantity(1, 2^53 - 1)`, where `itemCount` is `2^53`, `addToCart(1)` leaves
`itemCount` (and the badge) at `2^53`: it is not raised by 1.  And after `2^53 + 1` calls
of `addToCart(1)` on the empty cart `itemCount` is `2^53`, not the number of calls. -/
theorem itemCount_not_raised :
    (itemCount (updateQuantity (addToCart blankState 1) 1 (JsNum.int (2 ^ 53 - 1))).cart =
        JsNum.int 9007199254740992 ∧
      itemCount
          (addToCart (updateQuantity (addToCart blankState 1) 1 (JsNum.int (2 ^ 53 - 1))) 1).cart =
        JsNum.int 9007199254740992 ∧
      (addToCart (updateQuantity (addToCart blankState 1) 1 (JsNum.int (2 ^ 53 - 1))) 1).cartCount =
        JsNum.int 9007199254740992) ∧
    (itemCount ((List.replicate 9007199254740993 (1 : Int)).foldl addToCart blankState).cart =
        JsNum.int 9007199254740992 ∧
      itemCount ((List.replicate 9007199254740993 (1 : Int)).foldl addToCart blankState).cart ≠
        JsNum.int 9007199254740993) := by
  have h1 : (updateQuantity (addToCart blankState 1) 1 (JsNum.int (2 ^ 53 - 1))).cart =
      [⟨1, "Wireless Headphones", 7999, "🎧", JsNum.int 9007199254740992⟩] :=
    addToCart_quantity_not_greater_aux.1
  have h2 :
      (addToCart (updateQuantity (addToCart blankState 1) 1 (JsNum.int (2 ^ 53 - 1))) 1).cart =
        [⟨1, "Wireless Headphones", 7999, "🎧", JsNum.int 9007199254740992⟩] :=
    addToCart_quantity_not_greater_aux.2
  have h3 : ((List.replicate 9007199254740993 (1 : Int)).foldl addToCart blankState).cart =
      [⟨1, "Wireless Headphones", 7999, "🎧", JsNum.int 9007199254740992⟩] := by
    rw [cart_after_repeats_b64 blankState rfl 9007199254740993 (by omega)]
    have e : min ((9007199254740993 : Nat) : Int) 9007199254740992 = 9007199254740992 :=
      min_eq_right (by norm_num)
    rw [e]
  have hb := addToCart_badge_b64
    (updateQuantity (addToCart blankState 1) 1 (JsNum.int (2 ^ 53 - 1))) 1 _
    (find_product_of_mem ⟨1, "Wireless Headphones", 7999,
      "Premium noise-canceling headphones with 30-hour battery life", "🎧"⟩ (by decide))
  refine ⟨⟨?_, ?_, ?_⟩, ?_, ?_⟩
  · rw [h1, itemCount_at_limit]
  · rw [h2, itemCount_at_limit]
  · rw [hb, h2, itemCount_at_limit]
  · rw [h3, itemCount_at_limit]
  · rw [h3, itemCount_at_limit]
    intro h
    have h' := JsNum.int.inj h
    norm_num at h'

/-- C1, amended: starting from the empty cart, for every finite sequence of `addToCart`
calls (with arbitrary integer ids) of which at most `2^53` have a catalog product id,
`itemCount` (the binary64 sum of the quantities) equals the number of calls whose id is a
catalog product id; calls with another id contribute zero.  And for every cart whose
quantities are integers with a sum of absolute values below `2^53`, and every catalog
product id, a single `addToCart` raises `itemCount` by exactly 1 (the badge shows the new
count). -/
theorem itemCount_after_adds_b64 (s : State) (h : s.cart = []) (ids : List Int)
    (hn : (ids.filter (fun i => products.any (fun p => decide (p.id = i)))).length ≤ 2 ^ 53) :
    itemCount (ids.foldl addToCart s).cart =
        JsNum.int
          ((ids.filter (fun i => products.any (fun p => decide (p.id = i)))).length : Int) ∧
      ∀ (t : State) (p : Product), p ∈ products →
        (∀ item ∈ t.cart, ∃ v, item.quantity = JsNum.int v) → absTotal t.cart < 2 ^ 53 →
        itemCount t.cart = JsNum.int (exactTotal t.cart) ∧
          itemCount (addToCart t p.id).cart = JsNum.int (exactTotal t.cart + 1) ∧
          (addToCart t p.id).cartCount = JsNum.int (exactTotal t.cart + 1) := by
  constructor
  · have hall : ∀ x ∈ s.cart, ∃ v, x.quantity = JsNum.int v := by simp [h]
    have h0 : absTotal s.cart = 0 := by simp [h, absTotal]
    have e0 : exactTotal s.cart = 0 := by simp [h, exactTotal]
    obtain ⟨k1, k2, k3⟩ := foldl_addToCart_totals ids s hall (by omega)
    rw [itemCount_exact _ k1 (by omega), k2, e0]
    simp
  · intro t p hp hall hb
    have hf := find_product_of_mem p hp
    obtain ⟨k1, k2, k3⟩ := addToCart_totals t p.id p hf hall hb
    have hc : itemCount (addToCart t p.id).cart = JsNum.int (exactTotal t.cart + 1) := by
      rw [itemCount_exact _ k1 (by omega), k2]
    refine ⟨itemCount_exact _ hall (by omega), hc, ?_⟩
    rw [addToCart_badge_b64 t p.id p hf, hc]

theorem itemCount_after_adds_b64_witness :
    blankState.cart = [] ∧
      (([1, 42, 1, 4, 0, -3] : List Int).filter
        (fun i => products.any (fun p => decide (p.id = i)))).length ≤ 2 ^ 53 ∧
      itemCount (([1, 42, 1, 4, 0, -3] : List Int).foldl addToCart blankState).cart =
        JsNum.int 3 := by
  refine ⟨rfl, by decide, ?_⟩
  have h := (itemCount_after_adds_b64 blankState rfl [1, 42, 1, 4, 0, -3] (by decide)).1
  rw [h]
  decide

/-! ## Numbers: printing and reading (binary64 quantities) -/

theorem natDigits_all_digits (n : Nat) :
    ∀ c ∈ natDigits n, ∃ x, x < 10 ∧ c = digitChar x := by
  induction n using Nat.strong_induction_on with
  | _ n ih =>
    by_cases hn : n < 10
    · rw [natDigits_small n hn]
      intro c hc
      rw [List.mem_singleton] at hc
      exact ⟨n, hn, hc⟩
    · rw [natDigits_step n (by omega)]
      intro c hc
      rcases List.mem_append.mp hc with hc | hc
      · exact ih (n / 10) (Nat.div_lt_self (by omega) (by omega)) c hc
      · rw [List.mem_singleton] at hc
        exact ⟨n % 10, Nat.mod_lt _ (by omega), hc⟩

theorem natDigits_ne_nil (n : Nat) : natDigits n ≠ [] := by
  by_cases hn : n < 10
  · rw [natDigits_small n hn]
    simp
  · rw [natDigits_step n (by omega)]
    simp

theorem parseFraction_eq (l : List Char) :
    ∀ acc count : Nat,
      parseFraction acc count l =
        ((parseDigits acc l).1, count + (l.length - (parseDigits acc l).2.length),
          (parseDigits acc l).2) := by
  induction l with
  | nil => intro acc count; simp [parseFraction, parseDigits]
  | cons c cs ih =>
    intro acc count
    cases hv : digitVal c with
    | none => simp [parseFraction, parseDigits, hv]
    | some d =>
      simp only [parseFraction, parseDigits, hv, ih, List.length_cons]
      have hle : (parseDigits (acc * 10 + d) cs).2.length ≤ cs.length := by
        have key : ∀ (l : List Char) (a : Nat), (parseDigits a l).2.length ≤ l.length := by
          intro l
          induction l with
          | nil => intro a; simp [parseDigits]
          | cons x xs ihx =>
            intro a
            cases hx : digitVal x with
            | none => simp [parseDigits, hx]
            | some y =>
              simp only [parseDigits, hx, List.length_cons]
              exact Nat.le_succ_of_le (ihx _)
        exact key cs _
      congr 2
      omega

theorem continuesNumber_false (c : Char) (rest : List Char)
    (h : continuesNumber (c :: rest) = false) :
    digitVal c = none ∧ c ≠ '.' ∧ c ≠ 'e' ∧ c ≠ 'E' := by
  simp only [continuesNumber, Bool.or_eq_false_iff, decide_eq_false_iff_not] at h
  obtain ⟨⟨⟨h1, h2⟩, h3⟩, h4⟩ := h
  refine ⟨?_, h2, h3, h4⟩
  cases hv : digitVal c with
  | none => rfl
  | some d => simp [hv] at h1

theorem parseMagnitude_plain (a : Nat) (rest : List Char)
    (h : continuesNumber rest = false) :
    parseMagnitude (natDigits a ++ rest) = some (a, rest) := by
  unfold parseMagnitude
  rw [parseNat_natDigits a rest (continuesNumber_digit rest h)]
  cases rest with
  | nil => simp
  | cons c cs =>
    obtain ⟨_, h2, h3, _⟩ := continuesNumber_false c cs h
    simp [h2, h3]

theorem digitChar_ne_e (x : Nat) (h : x < 10) : digitChar x ≠ 'e' ∧ digitChar x ≠ '.' := by
  unfold digitChar
  interval_cases x <;> decide

theorem digitVal_e : digitVal 'e' = none := by decide

theorem parseMagnitude_exp (m e : Nat) (rest : List Char)
    (h : continuesNumber rest = false) :
    parseMagnitude (expChars m e ++ rest) = some (m * 10 ^ e, rest) := by
  have hd := continuesNumber_digit rest h
  obtain hne := natDigits_ne_nil m
  cases hds : natDigits m with
  | nil => exact absurd hds hne
  | cons d ds =>
    obtain ⟨x, hx, hdx⟩ := natDigits_all_digits m d (by rw [hds]; exact List.mem_cons_self _ _)
    have hsingle : natDigits x = [d] := by rw [natDigits_small x hx, hdx]
    have hval : ∀ tail : List Char, startsWithDigit tail = false →
        parseDigits x (ds ++ tail) = (m, tail) := by
      intro tail ht
      have key := parseDigits_natDigits m 0 tail
      rw [hds] at key
      simp only [List.cons_append, parseDigits, hdx, digitVal_digitChar x hx, zero_mul,
        zero_add] at key
      have key2 : parseDigits x (ds ++ tail) = parseDigits m tail := key
      rw [key2, parseDigits_stop m tail ht]
    cases ds with
    | nil =>
      have hm : m = x := by
        have := hval [] rfl
        simpa [parseDigits] using this.symm
      have hex := parseNat_natDigits (e + 1 - 1) rest hd
      have htext : expChars m e ++ rest =
          natDigits x ++ ('e' :: '+' :: (natDigits (e + 1 - 1) ++ rest)) := by
        simp [expChars, hds, pointAfterFirst, hsingle]
      have hp := parseNat_natDigits x ('e' :: '+' :: (natDigits (e + 1 - 1) ++ rest))
        (by simp [startsWithDigit, digitVal_e])
      rw [htext]
      unfold parseMagnitude
      rw [hp]
      simp only [show ('e' : Char) ≠ '.' by decide, if_false, if_true, hex]
      simp [hm]
    | cons d2 ds2 =>
      have hex := parseNat_natDigits (e + (ds2.length + 1 + 1) - 1) rest hd
      have htext : expChars m e ++ rest =
          natDigits x ++ ('.' :: ((d2 :: ds2) ++
            ('e' :: '+' :: (natDigits (e + (ds2.length + 1 + 1) - 1) ++ rest)))) := by
        simp [expChars, hds, pointAfterFirst, hsingle]
      have hp := parseNat_natDigits x ('.' :: ((d2 :: ds2) ++
            ('e' :: '+' :: (natDigits (e + (ds2.length + 1 + 1) - 1) ++ rest))))
        (by simp [startsWithDigit, digitVal])
      have hv := hval ('e' :: '+' :: (natDigits (e + (ds2.length + 1 + 1) - 1) ++ rest))
        (by simp [startsWithDigit, digitVal_e])
      rw [htext]
      unfold parseMagnitude
      rw [hp]
      simp only [if_true, parseFraction_eq, hv, hex]
      have hle : 0 + (((d2 :: ds2) ++
          ('e' :: '+' :: (natDigits (e + (ds2.length + 1 + 1) - 1) ++ rest))).length -
          ('e' :: '+' :: (natDigits (e + (ds2.length + 1 + 1) - 1) ++ rest)).length) =
          ds2.length + 1 := by
        simp only [List.length_append, List.length_cons]
        omega
      rw [hle, if_pos (by omega)]
      have he : e + (ds2.length + 1 + 1) - 1 - (ds2.length + 1) = e := by omega
      rw [he]

theorem shortestNat_spec (a n : Nat) (ha : roundNat a = a) :
    ∀ fuel k, roundNat ((shortestNat a n fuel k).1 * 10 ^ (shortestNat a n fuel k).2) = a ∧
      (shortestNat a n fuel k).2 ≤ n := by
  intro fuel
  induction fuel with
  | zero => intro k; simp [shortestNat, ha]
  | succ f ih =>
    intro k
    unfold shortestNat
    simp only []
    by_cases hlo : roundNat (a / 10 ^ (n - k) * 10 ^ (n - k)) = a
    · by_cases hhi : roundNat ((a / 10 ^ (n - k) + 1) * 10 ^ (n - k)) = a
      · simp only [hlo, hhi, decide_True, Bool.and_self, if_true]
        refine ⟨?_, Nat.sub_le _ _⟩
        split_ifs <;> assumption
      · simp only [hlo, hhi, decide_True, decide_False, Bool.and_false, if_true]
        exact ⟨by simpa using hlo, Nat.sub_le _ _⟩
    · by_cases hhi : roundNat ((a / 10 ^ (n - k) + 1) * 10 ^ (n - k)) = a
      · simp only [hlo, hhi, decide_True, decide_False, Bool.false_and, if_true]
        exact ⟨by simpa using hhi, Nat.sub_le _ _⟩
      · simp only [hlo, hhi, decide_False, Bool.false_and, Bool.false_eq_true, if_false]
        exact ih (k + 1)

theorem shortestDecimal_spec (a : Nat) (ha : roundNat a = a) :
    roundNat ((shortestDecimal a).1 * 10 ^ (shortestDecimal a).2) = a := by
  obtain ⟨h1, h2⟩ := shortestNat_spec a (natDigits a).length ha 17 1
  unfold shortestDecimal
  simp only []
  split_ifs with h
  · rw [h, ← pow_add, Nat.sub_add_cancel h2] at h1
    simpa using h1
  · exact h1

set_option exponentiation.threshold 2048 in
theorem representable_iff (v : Int) :
    Representable v ↔ roundNat v.natAbs = v.natAbs ∧ roundNat v.natAbs < 2 ^ 1024 := by
  unfold Representable roundInt
  constructor
  · intro h
    split at h
    · exact absurd h (by simp)
    · rename_i hlt
      have hv := JsNum.int.inj h
      refine ⟨?_, not_le.mp hlt⟩
      split at hv <;> omega
  · intro ⟨h1, h2⟩
    rw [if_neg (not_le.mpr h2), h1]
    congr 1
    split <;> omega

set_option exponentiation.threshold 2048 in
theorem roundInt_of_magnitude (v : Int) (hv : Representable v) (m : Nat)
    (hm : roundNat m = v.natAbs) :
    roundInt (if v < 0 then -(m : Int) else (m : Int)) = JsNum.int v := by
  obtain ⟨h1, h2⟩ := (representable_iff v).mp hv
  have hpos : v ≠ 0 → 0 < m := by
    intro h0
    rcases Nat.eq_zero_or_pos m with h | h
    · subst h
      have : roundNat 0 = 0 := rfl
      rw [this] at hm
      exact absurd (Int.natAbs_eq_zero.mp hm.symm) h0
    · exact h
  unfold roundInt
  by_cases hneg : v < 0
  · have hm0 := hpos (by omega)
    have habs : (-(m : Int)).natAbs = m := by simp
    have hlt : (-(m : Int)) < 0 := by omega
    simp only [hneg, if_true, habs, hm, hlt]
    rw [h1] at h2
    rw [if_neg (not_le.mpr h2)]
    congr 1
    omega
  · have habs : ((m : Int)).natAbs = m := by simp
    have hlt : ¬ ((m : Int)) < 0 := by omega
    simp only [hneg, if_false, habs, hm, hlt]
    rw [h1] at h2
    rw [if_neg (not_le.mpr h2)]
    congr 1
    omega

/-- Digits of the magnitude in the text of `numChars`. -/
theorem magnitude_read (a : Nat) (ha : roundNat a = a) (rest : List Char)
    (h : continuesNumber rest = false) :
    ∃ m, parseMagnitude ((if a < 10 ^ 21 then natDigits a
        else expChars (shortestDecimal a).1 (shortestDecimal a).2) ++ rest) = some (m, rest) ∧
      roundNat m = a := by
  by_cases hs : a < 10 ^ 21
  · rw [if_pos hs]
    exact ⟨a, parseMagnitude_plain a rest h, ha⟩
  · rw [if_neg hs]
    exact ⟨_, parseMagnitude_exp _ _ rest h, shortestDecimal_spec a ha⟩

theorem magnitude_head (a : Nat) :
    ∃ c cs, (if a < 10 ^ 21 then natDigits a
        else expChars (shortestDecimal a).1 (shortestDecimal a).2) = c :: cs ∧ c ≠ '-' := by
  by_cases hs : a < 10 ^ 21
  · rw [if_pos hs]
    exact natDigits_head_ne_minus a
  · rw [if_neg hs]
    obtain ⟨c, cs, e, hc⟩ := natDigits_head_ne_minus (shortestDecimal a).1
    unfold expChars
    rw [e]
    cases cs with
    | nil => exact ⟨c, _, rfl, hc⟩
    | cons c2 cs2 => exact ⟨c, _, rfl, hc⟩

theorem parseNumber_numChars (v : Int) (hv : Representable v) (rest : List Char)
    (h : continuesNumber rest = false) :
    parseNumber (numChars v ++ rest) = some (v, rest) := by
  obtain ⟨h1, _⟩ := (representable_iff v).mp hv
  obtain ⟨m, hm, hr⟩ := magnitude_read v.natAbs h1 rest h
  have hround := roundInt_of_magnitude v hv m hr
  unfold numChars
  by_cases hneg : v < 0
  · simp only [hneg, if_true] at hround ⊢
    simp only [List.singleton_append, List.cons_append, List.nil_append, parseNumber, if_true,
      hm, Option.map_some', h, Bool.false_eq_true, if_false, hround]
  · obtain ⟨c, cs, e, hc⟩ := magnitude_head v.natAbs
    simp only [hneg, if_false] at hround ⊢
    rw [e] at hm
    simp only [List.nil_append, e, List.cons_append, parseNumber, hc, if_false] at hm ⊢
    simp only [hm, Option.map_some', h, Bool.false_eq_true, if_false, hround]

theorem numChars_head (v : Int) : ∃ c cs, numChars v = c :: cs ∧ c ≠ 'n' := by
  unfold numChars
  by_cases hneg : v < 0
  · refine ⟨'-', (if v.natAbs < 10 ^ 21 then natDigits v.natAbs
        else expChars (shortestDecimal v.natAbs).1 (shortestDecimal v.natAbs).2), ?_,
      by decide⟩
    simp only [hneg, if_true]
    rfl
  · simp only [hneg, if_false, List.nil_append]
    by_cases hs : v.natAbs < 10 ^ 21
    · rw [if_pos hs]
      obtain ⟨c, hc⟩ : ∃ c, (natDigits v.natAbs).head? = some c := by
        cases hd : natDigits v.natAbs with
        | nil => exact absurd hd (natDigits_ne_nil _)
        | cons c cs => exact ⟨c, rfl⟩
      cases hd : natDigits v.natAbs with
      | nil => exact absurd hd (natDigits_ne_nil _)
      | cons c cs =>
        obtain ⟨x, hx, hcx⟩ := natDigits_all_digits v.natAbs c
          (by rw [hd]; exact List.mem_cons_self _ _)
        refine ⟨c, cs, rfl, ?_⟩
        rw [hcx]
        unfold digitChar
        interval_cases x <;> decide
    · rw [if_neg hs]
      unfold expChars
      cases hd : natDigits (shortestDecimal v.natAbs).1 with
      | nil => exact absurd hd (natDigits_ne_nil _)
      | cons c cs =>
        obtain ⟨x, hx, hcx⟩ := natDigits_all_digits _ c
          (by rw [hd]; exact List.mem_cons_self _ _)
        have hcn : c ≠ 'n' := by
          rw [hcx]
          unfold digitChar
          interval_cases x <;> decide
        cases cs with
        | nil => exact ⟨c, _, rfl, hcn⟩
        | cons c2 cs2 => exact ⟨c, _, rfl, hcn⟩

theorem parseQuantity_quantityChars (q : JsNum) (hq : q.Finite) (rest : List Char)
    (h : continuesNumber rest = false) :
    parseQuantity (quantityChars q ++ rest) = some (q, rest) := by
  obtain ⟨v, hv, hr⟩ := hq
  subst hv
  obtain ⟨c, cs, e, hc⟩ := numChars_head v
  have hnull : expect nullChars (numChars v ++ rest) = none := by
    rw [e]
    simp [nullChars, expect, Ne.symm hc]
  unfold parseQuantity
  simp only [quantityChars, hnull, parseNumber_numChars v hr rest h]

theorem parseItem_itemChars_b64 (item : Item) (hid : Representable item.id)
    (hq : item.quantity.Finite) (rest : List Char) :
    parseItem (itemChars item ++ rest) = some (item, rest) := by
  unfold parseItem itemChars
  simp only [List.append_assoc]
  rw [expect_append]
  simp only [Option.some_bind]
  rw [parseNumber_numChars _ hid _ (by rfl)]
  simp only [Option.some_bind]
  rw [expect_append]
  simp only [Option.some_bind]
  rw [parseString_quote]
  simp only [Option.some_bind]
  rw [expect_append]
  simp only [Option.some_bind]
  rw [parsePrice_priceChars _ _ (by rfl)]
  simp only [Option.some_bind]
  rw [expect_append]
  simp only [Option.some_bind]
  rw [parseString_quote]
  simp only [Option.some_bind]
  rw [expect_append]
  simp only [Option.some_bind]
  rw [parseQuantity_quantityChars _ hq _ (by rfl)]
  simp only [Option.some_bind]
  rw [expect_append]
  simp only [Option.some_bind]

theorem parseItems_itemsChars_b64 (cart : List Item) :
    ∀ (fuel : Nat), cart ≠ [] → cart.length ≤ fuel → FiniteCart cart →
      parseItems fuel (itemsChars cart) = some cart := by
  induction cart with
  | nil => intro fuel h; exact absurd rfl h
  | cons item rest ih =>
    intro fuel _ hf hfin
    obtain ⟨hid, hq⟩ := hfin item (List.mem_cons_self _ _)
    have hrest : FiniteCart rest := fun x hx => hfin x (List.mem_cons_of_mem _ hx)
    cases fuel with
    | zero => simp at hf
    | succ f =>
      cases rest with
      | nil =>
        simp only [itemsChars, parseItems, parseItem_itemChars_b64 item hid hq]
        simp
      | cons next more =>
        simp only [itemsChars, parseItems, parseItem_itemChars_b64 item hid hq, if_true]
        rw [ih f (by simp) (by simpa using hf) hrest]
        rfl

theorem length_itemsChars_b64 (cart : List Item) : cart.length ≤ (itemsChars cart).length := by
  induction cart with
  | nil => simp
  | cons item rest ih =>
    cases rest with
    | nil => simp [itemsChars]
    | cons next more =>
      simp only [itemsChars, List.length_append, List.length_cons] at ih ⊢
      omega

theorem itemsChars_cons_ne_b64 (item : Item) (rest : List Item) :
    itemsChars (item :: rest) ≠ [']'] := by
  have hl : lbrace ≠ ']' := by decide
  cases rest with
  | nil =>
    simp only [itemsChars, itemChars, kId, List.cons_append]
    intro h
    exact hl (List.cons.inj h).1
  | cons next more =>
    simp only [itemsChars, itemChars, kId, List.cons_append]
    intro h
    exact hl (List.cons.inj h).1

theorem readCart_stringify (cart : List Item) (hfin : FiniteCart cart) :
    readCart (JSON.stringify cart) = some cart := by
  unfold readCart JSON.stringify
  cases cart with
  | nil => simp [itemsChars]
  | cons item rest =>
    simp only [if_true, itemsChars_cons_ne_b64, if_false]
    exact parseItems_itemsChars_b64 (item :: rest) _ (by simp)
      (by have := length_itemsChars_b64 (item :: rest); omega) hfin

theorem parse_stringify_b64 (other : String → Option (List Item)) (cart : List Item)
    (hfin : FiniteCart cart) :
    JSON.parse other (JSON.stringify cart) = some cart := by
  unfold JSON.parse
  rw [readCart_stringify cart hfin]
  simp

theorem stringify_ne_empty_b64 (cart : List Item) : JSON.stringify cart ≠ "" := by
  unfold JSON.stringify
  intro h
  have := congrArg String.data h
  simp at this

/-! ## The stored snapshot (binary64 quantities) -/

theorem load_of_saved_b64 (other : String → Option (List Item)) (t : State) (cart : List Item)
    (hfin : FiniteCart cart) (h : t.storage = some (JSON.stringify cart)) :
    loadCartFromStorage other t = some (updateCart { t with cart := cart }) := by
  unfold loadCartFromStorage
  rw [h]
  simp only [stringify_ne_empty_b64, if_false, parse_stringify_b64 other cart hfin]

theorem loadedCart_stringify_b64 (other : String → Option (List Item)) (cart : List Item)
    (hfin : FiniteCart cart) :
    loadedCart other (some (JSON.stringify cart)) = some cart := by
  unfold loadedCart
  rw [load_of_saved_b64 other _ cart hfin rfl]
  simp

theorem loadedCart_of_load_b64 (other : String → Option (List Item)) (t s0 : State)
    (ht : t.cart = []) (h : loadCartFromStorage other t = some s0) :
    loadedCart other s0.storage = some s0.cart := by
  unfold loadCartFromStorage at h
  cases hs : t.storage with
  | none =>
    rw [hs] at h
    simp only [Option.some.injEq] at h
    subst h
    rw [hs, ht]
    rfl
  | some savedCart =>
    rw [hs] at h
    by_cases he : savedCart = ""
    · simp only [he, if_true, Option.some.injEq] at h
      subst h
      rw [hs, ht, he]
      rfl
    · simp only [he, if_false] at h
      cases hp : JSON.parse other savedCart with
      | none => simp [hp] at h
      | some cart =>
        simp only [hp, Option.some.injEq] at h
        subst h
        simp only [updateCart_storage_b64, updateCart_cart_b64, hs]
        unfold loadedCart loadCartFromStorage
        simp [he, hp]

theorem step_saves_b64 (s : State) (op : Op) :
    ((step s op).cart = s.cart ∧ (step s op).storage = s.storage ∧
        (step s op).setItemCalls = s.setItemCalls) ∨
      ((step s op).storage = some (JSON.stringify (step s op).cart) ∧
        (step s op).setItemCalls = s.setItemCalls + 1) := by
  cases op with
  | add productId =>
    simp only [step]
    cases hf : products.find? (fun x => decide (x.id = productId)) with
    | none => left; rw [addToCart_invalid_b64 s productId hf]; exact ⟨rfl, rfl, rfl⟩
    | some product =>
      right
      unfold addToCart
      rw [hf]
      simp
  | remove productId =>
    right
    simp [step, removeFromCart]
  | update productId change =>
    simp only [step]
    unfold updateQuantity
    cases hf : s.cart.find? (fun item => decide (item.id = productId)) with
    | none => left; exact ⟨rfl, rfl, rfl⟩
    | some item =>
      right
      cases hq : (item.quantity.add (roundInt change)).leZero
      · simp [hq]
      · simp [hq, removeFromCart]
  | clear confirmed =>
    simp only [step]
    unfold clearCart
    by_cases h : s.cart.length = 0
    · left
      simp [h]
    · cases confirmed
      · left
        simp [h]
      · right
        simp [h]
  | checkout accepted =>
    simp only [step]
    unfold checkout
    by_cases h : s.cart.length = 0
    · left
      simp [h]
    · right
      simp [h]

theorem step_keeps_saved (other : String → Option (List Item)) (s : State) (op : Op)
    (h : loadedCart other s.storage = some s.cart ∨
      s.storage = some (JSON.stringify s.cart)) :
    loadedCart other (step s op).storage = some (step s op).cart ∨
      (step s op).storage = some (JSON.stringify (step s op).cart) := by
  rcases step_saves_b64 s op with ⟨hc, hs, _⟩ | ⟨hs, _⟩
  · rw [hc, hs]
    exact h
  · exact Or.inr hs

theorem run_keeps_saved (other : String → Option (List Item)) (ops : List Op) (s : State)
    (h : loadedCart other s.storage = some s.cart ∨
      s.storage = some (JSON.stringify s.cart)) :
    loadedCart other (run s ops).storage = some (run s ops).cart ∨
      (run s ops).storage = some (JSON.stringify (run s ops).cart) := by
  induction ops generalizing s with
  | nil => simpa [run] using h
  | cons op rest ih =>
    simp only [run, List.foldl_cons]
    exact ih (step s op) (step_keeps_saved other s op h)

set_option maxRecDepth 1000000 in
set_option exponentiation.threshold 2048 in
theorem overflow_cart :
    (run blankState [Op.add 1, Op.update 1 maxValue, Op.update 1 maxValue]).cart =
      [⟨1, "Wireless Headphones", 7999, "🎧", JsNum.inf false⟩] := by
  decide

set_option maxRecDepth 1000000 in
set_option exponentiation.threshold 2048 in
theorem overflow_text :
    JSON.stringify [⟨1, "Wireless Headphones", 7999, "🎧", JsNum.inf false⟩] =
      "[\x7b\"id\":1,\"name\":\"Wireless Headphones\",\"price\":79.99,\"icon\":\"🎧\",\"quantity\":null\x7d]" := by
  decide

set_option maxRecDepth 1000000 in
set_option exponentiation.threshold 2048 in
theorem overflow_read :
    readCart
        "[\x7b\"id\":1,\"name\":\"Wireless Headphones\",\"price\":79.99,\"icon\":\"🎧\",\"quantity\":null\x7d]" =
      some [⟨1, "Wireless Headphones", 7999, "🎧", JsNum.null⟩] := by
  decide

set_option maxRecDepth 1000000 in
theorem overflow_reprint :
    JSON.stringify [⟨1, "Wireless Headphones", 7999, "🎧", JsNum.null⟩] =
      "[\x7b\"id\":1,\"name\":\"Wireless Headphones\",\"price\":79.99,\"icon\":\"🎧\",\"quantity\":null\x7d]" := by
  decide

set_option maxRecDepth 1000000 in
set_option exponentiation.threshold 2048 in
theorem overflow_storage :
    (run blankState [Op.add 1, Op.update 1 maxValue, Op.update 1 maxValue]).storage =
      some "[\x7b\"id\":1,\"name\":\"Wireless Headphones\",\"price\":79.99,\"icon\":\"🎧\",\"quantity\":null\x7d]" := by
  decide

set_option maxRecDepth 1000000 in
set_option exponentiation.threshold 2048 in
theorem roundInt_maxValue : roundInt maxValue = JsNum.int maxValue := by
  decide

set_option maxRecDepth 1000000 in
set_option exponentiation.threshold 2048 in
theorem roundInt_one : roundInt 1 = JsNum.int 1 := by
  decide

set_option maxRecDepth 1000000 in
set_option exponentiation.threshold 2048 in
theorem saved_example_cart :
    (run blankState [Op.add 1, Op.update 1 maxValue, Op.add 2, Op.add 1,
      Op.update 2 (-1), Op.clear false, Op.remove 7]).cart =
      [⟨1, "Wireless Headphones", 7999, "🎧", JsNum.int maxValue⟩] := by
  decide

/-- C13, counterexample: `addToCart(1)` followed by `updateQuantity(1, Number.MAX_VALUE)`
twice.  The second sum overflows: the quantity in memory is `Infinity`, every operation has
saved, and the text in the storage holds `"quantity":null`; loading it yields a cart whose
quantity is `null`, not the cart in memory. -/
theorem snapshot_out_of_sync :
    roundInt maxValue = JsNum.int maxValue ∧
      (run blankState [Op.add 1, Op.update 1 maxValue, Op.update 1 maxValue]).cart =
        [⟨1, "Wireless Headphones", 7999, "🎧", JsNum.inf false⟩] ∧
      (run blankState [Op.add 1, Op.update 1 maxValue, Op.update 1 maxValue]).storage =
        some "[\x7b\"id\":1,\"name\":\"Wireless Headphones\",\"price\":79.99,\"icon\":\"🎧\",\"quantity\":null\x7d]" ∧
      (∀ other : String → Option (List Item),
        loadedCart other
            (run blankState [Op.add 1, Op.update 1 maxValue, Op.update 1 maxValue]).storage =
          some [⟨1, "Wireless Headphones", 7999, "🎧", JsNum.null⟩]) ∧
      (∀ other : String → Option (List Item),
        loadedCart other
            (run blankState [Op.add 1, Op.update 1 maxValue, Op.update 1 maxValue]).storage ≠
          some (run blankState [Op.add 1, Op.update 1 maxValue, Op.update 1 maxValue]).cart) := by
  refine ⟨roundInt_maxValue, overflow_cart, overflow_storage, ?_, ?_⟩
  · intro other
    rw [overflow_storage]
    unfold loadedCart loadCartFromStorage JSON.parse
    simp only [overflow_read, overflow_reprint]
    simp
  · intro other
    rw [overflow_storage, overflow_cart]
    unfold loadedCart loadCartFromStorage JSON.parse
    simp only [overflow_read, overflow_reprint]
    simp

/-- C13, amended: the stored snapshot is in sync with the cart as long as the cart holds
finite numbers.  From an initial state (empty cart with the key `"cart"` absent, or the
state `loadCartFromStorage` produced on a freshly opened page), after any sequence of
`addToCart`, `removeFromCart`, `updateQuantity`, `clearCart` and `checkout`: if every id
and every quantity of the resulting cart is a finite binary64 number, loading the storage
yields exactly the current in-memory cart.  Every operation keeps this on such carts, and
every operation that changes the cart writes the text of its resulting cart to the storage,
once, whatever the quantities are.  `other` is what `JSON.parse` returns on texts that
`JSON.stringify` does not produce for a cart. -/
theorem snapshot_in_sync_b64 (other : String → Option (List Item)) (s0 : State)
    (h0 : (s0.cart = [] ∧ s0.storage = none) ∨
      ∃ t : State, t.cart = [] ∧ loadCartFromStorage other t = some s0)
    (ops : List Op) (hfin : FiniteCart (run s0 ops).cart) :
    loadedCart other (run s0 ops).storage = some (run s0 ops).cart ∧
      (∀ (s : State) (op : Op), FiniteCart (step s op).cart →
        loadedCart other s.storage = some s.cart →
        loadedCart other (step s op).storage = some (step s op).cart) ∧
      (∀ (s : State) (op : Op), (step s op).cart ≠ s.cart →
        (step s op).storage = some (JSON.stringify (step s op).cart) ∧
          (step s op).setItemCalls = s.setItemCalls + 1) := by
  refine ⟨?_, ?_, ?_⟩
  · have hk : loadedCart other s0.storage = some s0.cart ∨
        s0.storage = some (JSON.stringify s0.cart) := by
      left
      rcases h0 with ⟨hc, hs⟩ | ⟨t, ht, hl⟩
      · rw [hc, hs]
        rfl
      · exact loadedCart_of_load_b64 other t s0 ht hl
    rcases run_keeps_saved other ops s0 hk with h | h
    · exact h
    · rw [h]
      exact loadedCart_stringify_b64 other _ hfin
  · intro s op hf h
    rcases step_keeps_saved other s op (Or.inl h) with h1 | h1
    · exact h1
    · rw [h1]
      exact loadedCart_stringify_b64 other _ hf
  · intro s op hne
    rcases step_saves_b64 s op with ⟨hc, _, _⟩ | h
    · exact absurd hc hne
    · exact h

theorem snapshot_in_sync_b64_witness :
    ((blankState.cart = [] ∧ blankState.storage = none) ∨
        ∃ t : State, t.cart = [] ∧ loadCartFromStorage (fun _ => none) t = some blankState) ∧
      FiniteCart
        (run blankState [Op.add 1, Op.update 1 maxValue, Op.add 2, Op.add 1,
          Op.update 2 (-1), Op.clear false, Op.remove 7]).cart ∧
      loadedCart (fun _ => none)
          (run blankState [Op.add 1, Op.update 1 maxValue, Op.add 2, Op.add 1,
            Op.update 2 (-1), Op.clear false, Op.remove 7]).storage =
        some [⟨1, "Wireless Headphones", 7999, "🎧", JsNum.int maxValue⟩] ∧
      (run blankState [Op.add 1, Op.update 1 maxValue, Op.add 2, Op.add 1,
          Op.update 2 (-1), Op.clear false, Op.remove 7]).cart =
        [⟨1, "Wireless Headphones", 7999, "🎧", JsNum.int maxValue⟩] := by
  have hc : (run blankState [Op.add 1, Op.update 1 maxValue, Op.add 2, Op.add 1,
      Op.update 2 (-1), Op.clear false, Op.remove 7]).cart =
      [⟨1, "Wireless Headphones", 7999, "🎧", JsNum.int maxValue⟩] := saved_example_cart
  have hf : FiniteCart
      (run blankState [Op.add 1, Op.update 1 maxValue, Op.add 2, Op.add 1,
        Op.update 2 (-1), Op.clear false, Op.remove 7]).cart := by
    rw [hc]
    intro item hi
    rw [List.mem_singleton] at hi
    subst hi
    exact ⟨roundInt_one, maxValue, rfl, roundInt_maxValue⟩
  have h := (snapshot_in_sync_b64 (fun _ => none) blankState (Or.inl ⟨rfl, rfl⟩)
    [Op.add 1, Op.update 1 maxValue, Op.add 2, Op.add 1, Op.update 2 (-1), Op.clear false,
      Op.remove 7] hf).1
  exact ⟨Or.inl ⟨rfl, rfl⟩, hf, by rw [h, hc], hc⟩

/-! ## The same product added repeatedly (binary64 quantities) -/

theorem cart_after_repeats_any (s : State) (h : s.cart = []) (p : Product)
    (hp : p ∈ products) (n : Nat) (hn : 1 ≤ n) :
    ((List.replicate n p.id).foldl addToCart s).cart =
      [⟨p.id, p.name, p.price, p.icon, JsNum.int (min (n : Int) 9007199254740992)⟩] := by
  have hf := find_product_of_mem p hp
  induction n with
  | zero => omega
  | succ k ih =>
    rw [List.replicate_succ', List.foldl_append]
    simp only [List.foldl_cons, List.foldl_nil]
    by_cases hk : k = 0
    · subst hk
      simp only [List.replicate_zero, List.foldl_nil]
      rw [addToCart_cart_b64, hf, h]
      rfl
    · have h1 := ih (by omega)
      rw [addToCart_cart_b64, hf, h1]
      simp only [List.find?_cons, decide_True, bumpFirst, if_true]
      by_cases hlt : (k : Int) < 9007199254740992
      · have e1 : min (k : Int) 9007199254740992 = k := min_eq_left (le_of_lt hlt)
        have e2 : min ((k + 1 : Nat) : Int) 9007199254740992 = (k : Int) + 1 := by
          rw [min_eq_left (by push_cast; omega)]
          push_cast
          rfl
        rw [e1, e2, add_int_small _ _ (by omega)]
      · have e1 : min (k : Int) 9007199254740992 = 9007199254740992 :=
          min_eq_right (by omega)
        have e2 : min ((k + 1 : Nat) : Int) 9007199254740992 = 9007199254740992 :=
          min_eq_right (by push_cast; omega)
        rw [e1, e2, add_one_at_limit]

/-- C2, refuted as stated: after `2^53 + 1` calls of `addToCart(1)` on the empty cart the
one line item has quantity `2^53`, not the number of calls, because `2^53 + 1` is not a
binary64 number and `2^53 + 1` evaluates to `2^53`. -/
theorem same_product_saturates :
    ((List.replicate 9007199254740993 (1 : Int)).foldl addToCart blankState).cart =
        [⟨1, "Wireless Headphones", 7999, "🎧", JsNum.int 9007199254740992⟩] ∧
      ((List.replicate 9007199254740993 (1 : Int)).foldl addToCart blankState).cart ≠
        [⟨1, "Wireless Headphones", 7999, "🎧", JsNum.int 9007199254740993⟩] ∧
      (JsNum.int 9007199254740992).add (JsNum.int 1) = JsNum.int 9007199254740992 := by
  have h3 : ((List.replicate 9007199254740993 (1 : Int)).foldl addToCart blankState).cart =
      [⟨1, "Wireless Headphones", 7999, "🎧", JsNum.int 9007199254740992⟩] := by
    have := cart_after_repeats_any blankState rfl
      ⟨1, "Wireless Headphones", 7999,
        "Premium noise-canceling headphones with 30-hour battery life", "🎧"⟩ (by decide)
      9007199254740993 (by omega)
    rw [this]
    have e : min ((9007199254740993 : Nat) : Int) 9007199254740992 = 9007199254740992 :=
      min_eq_right (by norm_num)
    rw [e]
  refine ⟨h3, ?_, add_one_at_limit⟩
  rw [h3]
  intro h
  have h1 := (List.cons.inj h).1
  have h2 := congrArg Item.quantity h1
  have h' := JsNum.int.inj h2
  norm_num at h'

/-- C2, amended: for every catalog product `p` and every `N ≥ 1`, `N` calls of
`addToCart(p.id)` on the empty cart give a cart with exactly one line item: that of `p`,
with quantity `min N 2^53`; the quantity is `N` for every `N ≤ 2^53`. -/
theorem same_product_one_line_b64 (s : State) (h : s.cart = []) (p : Product)
    (hp : p ∈ products) (n : Nat) (hn : 1 ≤ n) :
    ((List.replicate n p.id).foldl addToCart s).cart =
        [⟨p.id, p.name, p.price, p.icon, JsNum.int (min (n : Int) (2 ^ 53))⟩] ∧
      (n ≤ 2 ^ 53 →
        ((List.replicate n p.id).foldl addToCart s).cart =
          [⟨p.id, p.name, p.price, p.icon, JsNum.int (n : Int)⟩]) := by
  have hc := cart_after_repeats_any s h p hp n hn
  have e : ((2 : Int) ^ 53) = 9007199254740992 := by norm_num
  refine ⟨by rw [hc, e], ?_⟩
  intro hle
  rw [hc]
  have hle' : (n : Int) ≤ 9007199254740992 := by
    have : n ≤ 9007199254740992 := by
      have e2 : (2 : Nat) ^ 53 = 9007199254740992 := by norm_num
      omega
    exact_mod_cast this
  rw [min_eq_left hle']

theorem same_product_one_line_b64_witness :
    blankState.cart = [] ∧ (⟨4, "Wireless Mouse", 2999,
        "Ergonomic design with precision tracking", "🖱️"⟩ : Product) ∈ products ∧ 1 ≤ 3 ∧
      ((List.replicate 3 (4 : Int)).foldl addToCart blankState).cart =
        [⟨4, "Wireless Mouse", 2999, "🖱️", JsNum.int 3⟩] :=
  ⟨rfl, by decide, by decide,
    (same_product_one_line_b64 blankState rfl
      ⟨4, "Wireless Mouse", 2999, "Ergonomic design with precision tracking", "🖱️"⟩
      (by decide) 3 (by decide)).2 (by norm_num)⟩

end B64

end TechShop
